import Mathlib

/-!
# SwitchingBundle: the buffer swapchain scheduler

A shallow embedding of `src/server/compositor/switching_bundle.cpp`.

* The object state is the record `SwitchingBundle`; every member function is a
  function from the state before the call to an `Outcome`.
* C++ `int` is `Int`.  In a state within bounds (`well_formed`) every value the
  code computes lies between `-1` and `2 * MAX_BUFFERS`, far from signed
  overflow; a count can only leave that range when a side releases buffers it
  does not hold, one step per call.  `%` is C++ truncated remainder
  (`Int.tmod`) and is undefined for a zero divisor.
* `ring[i]` is undefined outside `0 ≤ i < MAX_BUFFERS` (the length of `ring`).
* Every public member function except `allow_framedropping` and `properties`
  holds the mutex `guard` for its whole body, and `cond.wait(lock)` gives the
  mutex up without touching the state.  A call is therefore one atomic step
  taken at the moment its wait condition is false; a call whose wait condition
  is true has outcome `waits` and is continued later by `resume`.
-/

/-- Identity of one allocated buffer: the target of a `std::shared_ptr<mg::Buffer>`. -/
abbrev Handle := Nat

/-- Modelled from the spec: the buffer-properties descriptor `BufferProperties`
(dimensions, pixel format, usage flags), declared in a header that is not part
of the sources at hand.  It is only stored and returned. -/
structure BufferProperties where
  width : Nat
  height : Nat
  format : Nat
  usage : Nat
  deriving DecidableEq, Repr

/-- The data members of `mc::SwitchingBundle` (the mutex, the condition variable
and the allocator pointer, which is used by the constructor only, are left out). -/
structure SwitchingBundle where
  bundle_properties : BufferProperties
  ring : List Handle
  nbuffers : Int
  first_compositor : Int
  ncompositors : Int
  first_ready : Int
  nready : Int
  first_client : Int
  nclients : Int
  framedropping : Bool
  deriving DecidableEq, Repr

/-- Ways in which a call fails to return. -/
inductive Abort where
  /-- An `assert` failed. -/
  | assertion
  /-- Undefined behaviour: a ring index outside the array, or `%` by zero. -/
  | undefined
  /-- A loop that never exits. -/
  | diverges
  deriving DecidableEq, Repr

/-- The three `cond.wait(lock)` loops of the file. -/
inductive WaitLoop where
  /-- Line 109, `while (nready == 0)` in `client_acquire`. -/
  | client_nready
  /-- Line 117, `while (ncompositors + nready + nclients >= nbuffers)` in `client_acquire`. -/
  | client_full
  /-- Line 142, `while (nready <= 0)` in `compositor_acquire`. -/
  | compositor_nready
  deriving DecidableEq, Repr

/-- Result of running a member function in a given state: it returns a value
and leaves a new state, or it sleeps in a wait loop (state untouched), or it aborts. -/
inductive Outcome (α : Type) where
  | returns : α → SwitchingBundle → Outcome α
  | waits : WaitLoop → Outcome α
  | aborts : Abort → Outcome α
  deriving DecidableEq, Repr

/-- C++ `a % b` on `int`. -/
def cmod (a b : Int) : Except Abort Int :=
  if b = 0 then .error .undefined else .ok (Int.tmod a b)

/-- Read `ring[i]`. -/
def ring_get (ring : List Handle) (i : Int) : Except Abort Handle :=
  if 0 ≤ i then
    match ring[i.toNat]? with
    | some h => .ok h
    | none => .error .undefined
  else .error .undefined

/-- Write `ring[i] = h`. -/
def ring_set (ring : List Handle) (i : Int) (h : Handle) : Except Abort (List Handle) :=
  if 0 ≤ i ∧ i.toNat < ring.length then .ok (ring.set i.toNat h) else .error .undefined

/-- Lines 91-92 of `drop_frames`:
`for (int i = first_client; i != end; i = (i + 1) % nbuffers) ring[i] = ring[(i + 1) % nbuffers];`
run from loop variable `i`, with `e` for `end`.  `fuel` bounds the number of
rounds and running out of it is reported as `diverges`.  The caller passes
`|nbuffers|`: from the second round on `i` moves through the values
`(i + 1) % nbuffers`, which repeat with that period, so a loop that has not met
`end` by then never will.  In a state within bounds the loop exits after
`nclients` rounds (`shift_loop_spec`). -/
def shift_loop (nbuffers e : Int) : Nat → Int → List Handle → Except Abort (List Handle)
  | 0, i, ring => if i = e then .ok ring else .error .diverges
  | fuel + 1, i, ring =>
    if i = e then .ok ring
    else
      (cmod (i + 1) nbuffers).bind fun j =>
      (ring_get ring j).bind fun h =>
      (ring_set ring i h).bind fun ring1 =>
      shift_loop nbuffers e fuel j ring1

/-- Lines 86-94: one round of the `for (int d = 0; d < drop; d++)` loop of `drop_frames`. -/
def SwitchingBundle.drop_frames_body (s : SwitchingBundle) : Except Abort SwitchingBundle :=
  (cmod (s.first_client + s.nbuffers - 1) s.nbuffers).bind fun first_client =>
  let nready := s.nready - 1
  (ring_get s.ring first_client).bind fun tmp =>
  (cmod (first_client + s.nclients) s.nbuffers).bind fun e =>
  (shift_loop s.nbuffers e s.nbuffers.natAbs first_client s.ring).bind fun ring1 =>
  (ring_set ring1 e tmp).bind fun ring2 =>
  .ok { s with first_client := first_client, nready := nready, ring := ring2 }

/-- Lines 84-95: the loop `for (int d = 0; d < drop; d++)`, with the number of rounds left. -/
def drop_frames_loop : Nat → SwitchingBundle → Except Abort SwitchingBundle
  | 0, s => .ok s
  | n + 1, s => s.drop_frames_body.bind (drop_frames_loop n)

/-- The private member `int SwitchingBundle::drop_frames(int max)`, lines 77-98.
It is only called with the mutex held. -/
def SwitchingBundle.drop_frames (s : SwitchingBundle) (max : Int) :
    Except Abort (Int × SwitchingBundle) :=
  let drop := if max > s.nready then s.nready else max
  (drop_frames_loop drop.toNat s).bind fun s1 => .ok (drop, s1)

/-- Lines 121-124 of `client_acquire`: take the first free slot. -/
def SwitchingBundle.client_acquire_take (s : SwitchingBundle) : Outcome Handle :=
  match cmod (s.first_client + s.nclients) s.nbuffers with
  | .error a => .aborts a
  | .ok client =>
    match ring_get s.ring client with
    | .error a => .aborts a
    | .ok h => .returns h { s with nclients := s.nclients + 1 }

/-- Lines 109-112 of `client_acquire` and what follows them: the loop
`while (nready == 0) cond.wait(lock);`, then `drop_frames(1)`, then lines 121-124. -/
def SwitchingBundle.client_acquire_drop (s : SwitchingBundle) : Outcome Handle :=
  if s.nready = 0 then .waits .client_nready
  else
    match s.drop_frames 1 with
    | .error a => .aborts a
    | .ok (_, s1) => s1.client_acquire_take

/-- Lines 117-118 of `client_acquire` and what follows them: the loop
`while (ncompositors + nready + nclients >= nbuffers) cond.wait(lock);`, then lines 121-124. -/
def SwitchingBundle.client_acquire_block (s : SwitchingBundle) : Outcome Handle :=
  if s.ncompositors + s.nready + s.nclients ≥ s.nbuffers then .waits .client_full
  else s.client_acquire_take

/-- The member `SwitchingBundle::client_acquire()`, lines 100-125. -/
def SwitchingBundle.client_acquire (s : SwitchingBundle) : Outcome Handle :=
  if s.framedropping = true ∧ s.nbuffers > 1 then
    if s.ncompositors + s.nready + s.nclients ≥ s.nbuffers then s.client_acquire_drop
    else s.client_acquire_take
  else s.client_acquire_block

/-- The member `SwitchingBundle::client_release(released_buffer)`, lines 127-135. -/
def SwitchingBundle.client_release (s : SwitchingBundle) (released_buffer : Handle) :
    Outcome Unit :=
  match ring_get s.ring s.first_client with
  | .error a => .aborts a
  | .ok h =>
    if h = released_buffer then
      match cmod (s.first_client + 1) s.nbuffers with
      | .error a => .aborts a
      | .ok first_client =>
        .returns () { s with first_client := first_client,
                             nclients := s.nclients - 1,
                             nready := s.nready + 1 }
    else .aborts .assertion

/-- The member `SwitchingBundle::compositor_acquire()`, lines 137-151. -/
def SwitchingBundle.compositor_acquire (s : SwitchingBundle) : Outcome Handle :=
  if s.nready ≤ 0 then .waits .compositor_nready
  else
    let compositor := s.first_ready
    match cmod (s.first_ready + 1) s.nbuffers with
    | .error a => .aborts a
    | .ok first_ready =>
      match ring_get s.ring compositor with
      | .error a => .aborts a
      | .ok h =>
        .returns h { s with first_ready := first_ready,
                            nready := s.nready - 1,
                            ncompositors := s.ncompositors + 1 }

/-- The member `SwitchingBundle::compositor_release(released_buffer)`, lines 153-160. -/
def SwitchingBundle.compositor_release (s : SwitchingBundle) (released_buffer : Handle) :
    Outcome Unit :=
  match ring_get s.ring s.first_compositor with
  | .error a => .aborts a
  | .ok h =>
    if h = released_buffer then
      match cmod (s.first_compositor + 1) s.nbuffers with
      | .error a => .aborts a
      | .ok first_compositor =>
        .returns () { s with first_compositor := first_compositor,
                             ncompositors := s.ncompositors - 1 }
    else .aborts .assertion

/-- The member `SwitchingBundle::force_requests_to_complete()`, lines 162-167. -/
def SwitchingBundle.force_requests_to_complete (s : SwitchingBundle) : Outcome Unit :=
  match s.drop_frames s.nready with
  | .error a => .aborts a
  | .ok (_, s1) => .returns () s1

/-- The member `SwitchingBundle::allow_framedropping(allow_dropping)`, lines 169-172. -/
def SwitchingBundle.allow_framedropping (s : SwitchingBundle) (allow_dropping : Bool) :
    Outcome Unit :=
  .returns () { s with framedropping := allow_dropping }

/-- The member `SwitchingBundle::properties() const`, lines 174-177. -/
def SwitchingBundle.properties (s : SwitchingBundle) : Outcome BufferProperties :=
  .returns s.bundle_properties s

/-- A thread sleeping in wait loop `w` is woken (by `notify_all`) and gets the
mutex back: it tests the condition of that loop again and goes on from there. -/
def SwitchingBundle.resume (s : SwitchingBundle) : WaitLoop → Outcome Handle
  | .client_nready => s.client_acquire_drop
  | .client_full => s.client_acquire_block
  | .compositor_nready => s.compositor_acquire

/-- Lines 73-74 of the constructor: `count` successive calls
`gralloc->alloc_buffer(bundle_properties)`, the results in call order.  The
allocator is an external collaborator: `alloc_buffer` maps its state before a
call and the requested properties to the buffer it hands out and its state after. -/
def alloc_ring {σ : Type} (alloc_buffer : σ → BufferProperties → Handle × σ)
    (bundle_properties : BufferProperties) : Nat → σ → List Handle × σ
  | 0, gralloc => ([], gralloc)
  | count + 1, gralloc =>
    let r := alloc_buffer gralloc bundle_properties
    let rest := alloc_ring alloc_buffer bundle_properties count r.2
    (r.1 :: rest.1, rest.2)

/-- The constructor `SwitchingBundle::SwitchingBundle(gralloc, property_request)`,
lines 61-75.  `MAX_BUFFERS` is the array length declared in the class header,
which is not part of the sources at hand, so it is a parameter here. -/
def SwitchingBundle.construct {σ : Type} (MAX_BUFFERS : Nat)
    (alloc_buffer : σ → BufferProperties → Handle × σ) (gralloc : σ)
    (property_request : BufferProperties) : Except Abort (SwitchingBundle × σ) :=
  let nbuffers : Int := 2
  if nbuffers > 0 ∧ nbuffers ≤ MAX_BUFFERS then
    let r := alloc_ring alloc_buffer property_request MAX_BUFFERS gralloc
    .ok ({ bundle_properties := property_request,
           ring := r.1,
           nbuffers := nbuffers,
           first_compositor := 0, ncompositors := 0,
           first_ready := 0, nready := 0,
           first_client := 0, nclients := 0,
           framedropping := false }, r.2)
  else .error .assertion

/-- Change the value a call returns. -/
def Outcome.map {α β : Type} (f : α → β) : Outcome α → Outcome β
  | .returns a s => .returns (f a) s
  | .waits w => .waits w
  | .aborts a => .aborts a

/-- One call made by a thread: a public member function with its argument, or
the continuation of a call that went to sleep in wait loop `w`. -/
inductive Call where
  | client_acquire
  | client_release (released_buffer : Handle)
  | compositor_acquire
  | compositor_release (released_buffer : Handle)
  | force_requests_to_complete
  | allow_framedropping (allow_dropping : Bool)
  | properties
  | resume (w : WaitLoop)
  deriving DecidableEq, Repr

/-- Run one call; the value is the buffer handed out, if the call hands one out. -/
def Call.run : Call → SwitchingBundle → Outcome (Option Handle)
  | .client_acquire, s => s.client_acquire.map some
  | .client_release h, s => (s.client_release h).map fun _ => none
  | .compositor_acquire, s => s.compositor_acquire.map some
  | .compositor_release h, s => (s.compositor_release h).map fun _ => none
  | .force_requests_to_complete, s => s.force_requests_to_complete.map fun _ => none
  | .allow_framedropping b, s => (s.allow_framedropping b).map fun _ => none
  | .properties, s => s.properties.map fun _ => none
  | .resume w, s => (s.resume w).map some

/-- Run a sequence of calls one after the other.  The result is defined when
every call is allowed by `guard` in the state it is made in and returns; it
lists each call with the value it returned, and gives the final state. -/
def execute (guard : Call → SwitchingBundle → Bool) :
    List Call → SwitchingBundle → Option (List (Call × Option Handle) × SwitchingBundle)
  | [], s => some ([], s)
  | c :: cs, s =>
    if guard c s = true then
      match c.run s with
      | .returns r s1 =>
        match execute guard cs s1 with
        | some (tr, s2) => some ((c, r) :: tr, s2)
        | none => none
      | _ => none
    else none

/-- The caller-side contract of the releases: a side only gives back a buffer it holds. -/
def Call.holds_buffer : Call → SwitchingBundle → Bool
  | .client_release _, s => decide (0 < s.nclients)
  | .compositor_release _, s => decide (0 < s.ncompositors)
  | _, _ => true

/-- The bounds part of the class invariant: the active ring length fits the
array, the counts are not negative and do not exceed the ring, the three start
indices are ring indices. -/
def SwitchingBundle.well_formed (s : SwitchingBundle) : Prop :=
  1 ≤ s.nbuffers ∧ s.nbuffers ≤ s.ring.length ∧
  0 ≤ s.ncompositors ∧ 0 ≤ s.nready ∧ 0 ≤ s.nclients ∧
  s.ncompositors + s.nready + s.nclients ≤ s.nbuffers ∧
  (0 ≤ s.first_compositor ∧ s.first_compositor < s.nbuffers) ∧
  (0 ≤ s.first_ready ∧ s.first_ready < s.nbuffers) ∧
  (0 ≤ s.first_client ∧ s.first_client < s.nbuffers)

instance (s : SwitchingBundle) : Decidable s.well_formed := by
  unfold SwitchingBundle.well_formed; infer_instance

/-- The two equations of the file header (lines 35-38): the ready region starts
where the compositor region ends and the client region starts where the ready
region ends, modulo `nbuffers`.  The remainder is the mathematical one; in a
state within bounds both sums are non-negative and it is also what C++ `%` gives. -/
def SwitchingBundle.contiguous (s : SwitchingBundle) : Prop :=
  (s.first_compositor + s.ncompositors) % s.nbuffers = s.first_ready ∧
  (s.first_ready + s.nready) % s.nbuffers = s.first_client

instance (s : SwitchingBundle) : Decidable s.contiguous := by
  unfold SwitchingBundle.contiguous; infer_instance

/-! ## Notions used to state the properties -/

/-- Reduce `x`, known to lie in `[0, 2 n)`, to a ring index in `[0, n)`. -/
def wrap (n x : Int) : Int := if x < n then x else x - n

/-- Slot `j` is one of the `k` slots that start at slot `i` and go round a ring of `n` slots. -/
def in_span (n i k j : Int) : Prop :=
  (i ≤ j ∧ j < i + k ∧ j < n) ∨ (0 ≤ j ∧ j + n < i + k)

instance (n i k j : Int) : Decidable (in_span n i k j) := by
  unfold in_span; infer_instance

/-- The handle in `ring[i]`, if `i` is inside the array. -/
def ring_at (ring : List Handle) (i : Int) : Option Handle :=
  if 0 ≤ i then ring[i.toNat]? else none


/-- The ring `ring1` is what `d` rounds of `drop_frames` make of `ring` in a
ring of `n` slots whose client region has `nclients` slots from `first_client`:
the client region reads as before from its new start `d` slots back, the `d`
handles that were in front of it follow it in their old order, and every slot
outside these `nclients + d` slots is unchanged. -/
def ring_after_drop (n first_client nclients d : Int) (ring ring1 : List Handle) : Prop :=
  ring1.length = ring.length ∧
  (∀ t, 0 ≤ t → t < nclients →
    ring_at ring1 (wrap n (wrap n (first_client + n - d) + t)) =
      ring_at ring (wrap n (first_client + t))) ∧
  (∀ u, 0 ≤ u → u < d →
    ring_at ring1 (wrap n (wrap n (first_client + n - d) + (nclients + u))) =
      ring_at ring (wrap n (wrap n (first_client + n - d) + u))) ∧
  (∀ j, ¬ in_span n (wrap n (first_client + n - d)) (nclients + d) j →
    ring_at ring1 j = ring_at ring j)

/-- The ready region read from its start: the handles of the ready frames, oldest first. -/
def SwitchingBundle.ready_frames (s : SwitchingBundle) : List (Option Handle) :=
  (List.range s.nready.toNat).map fun (t : Nat) =>
    ring_at s.ring ((s.first_ready + (t : Int)) % s.nbuffers)

/-- The handles passed to the `client_release` calls of a run, in call order. -/
def released_by_client : List (Call × Option Handle) → List Handle
  | [] => []
  | (c, _) :: tr =>
    match c with
    | .client_release h => h :: released_by_client tr
    | _ => released_by_client tr

/-- The handles returned by the `compositor_acquire` calls of a run (woken ones
included), in call order. -/
def acquired_by_compositor : List (Call × Option Handle) → List Handle
  | [] => []
  | (c, r) :: tr =>
    match c, r with
    | .compositor_acquire, some h => h :: acquired_by_compositor tr
    | .resume .compositor_nready, some h => h :: acquired_by_compositor tr
    | _, _ => acquired_by_compositor tr

/-- The call, made in state `s`, drops no frame: a `client_acquire` does not
enter the dropping branch (lines 107-113), no thread is woken inside that
branch, and `force_requests_to_complete` finds no ready frame. -/
def Call.drops_nothing : Call → SwitchingBundle → Bool
  | .client_acquire, s =>
    !(s.framedropping && decide (s.nbuffers > 1) &&
      decide (s.ncompositors + s.nready + s.nclients ≥ s.nbuffers))
  | .resume .client_nready, _ => false
  | .force_requests_to_complete, s => decide (s.nready ≤ 0)
  | _, _ => true

/-! ## Concrete data for the examples -/

/-- An allocator that hands out the handles 100, 101, 102, ... -/
def counting_allocator (next : Nat) (_ : BufferProperties) : Handle × Nat :=
  (100 + next, next + 1)

/-- Some buffer properties. -/
def example_properties : BufferProperties :=
  { width := 640, height := 480, format := 1, usage := 0 }

/-- What the constructor builds from `counting_allocator` when `MAX_BUFFERS` is 3. -/
def example_initial : SwitchingBundle :=
  { bundle_properties := example_properties,
    ring := [100, 101, 102],
    nbuffers := 2,
    first_compositor := 0, ncompositors := 0,
    first_ready := 0, nready := 0,
    first_client := 0, nclients := 0,
    framedropping := false }

/-- The example bundle with buffer 100 at the compositor and buffer 101 at the client. -/
def example_busy : SwitchingBundle :=
  { example_initial with
    first_ready := 1, ncompositors := 1, first_client := 1, nclients := 1 }

/-- The example bundle with both buffers released by the client and none composited:
buffer 100 is the older ready frame, buffer 101 the newer one. -/
def example_two_ready : SwitchingBundle :=
  { example_initial with nready := 2 }

/-- The part of the class invariant that the ready region rests on: the active
ring fits the array, `first_ready` and `first_client` are ring indices, `nready`
is not negative, and the client region starts where the ready region ends. -/
def SwitchingBundle.ready_region_ok (s : SwitchingBundle) : Prop :=
  1 ≤ s.nbuffers ∧ s.nbuffers ≤ s.ring.length ∧ 0 ≤ s.nready ∧
  (0 ≤ s.first_ready ∧ s.first_ready < s.nbuffers) ∧
  (0 ≤ s.first_client ∧ s.first_client < s.nbuffers) ∧
  (s.first_ready + s.nready) % s.nbuffers = s.first_client

instance (s : SwitchingBundle) : Decidable s.ready_region_ok := by
  unfold SwitchingBundle.ready_region_ok; infer_instance

/-- The example bundle with buffer 100 at the compositor and buffer 101 ready. -/
def example_handed_over : SwitchingBundle :=
  { example_initial with
    first_ready := 1, ncompositors := 1, nready := 1, first_client := 0 }

/-- The example bundle `example_two_ready` after `drop_frames(1)`. -/
def example_one_dropped : SwitchingBundle :=
  { example_initial with nready := 1, first_client := 1 }

/-- The example bundle with both buffers at the client: the ring is full. -/
def example_full : SwitchingBundle :=
  { example_initial with nclients := 2 }

/-- The example bundle `example_full` after the client has released buffer 100. -/
def example_released : SwitchingBundle :=
  { example_initial with first_client := 1, nclients := 1, nready := 1 }

/-- The outcome `o` with the policy flag of the state it leaves set to `b`. -/
def Outcome.with_framedropping {α : Type} (b : Bool) : Outcome α → Outcome α
  | .returns a s => .returns a { s with framedropping := b }
  | .waits w => .waits w
  | .aborts a => .aborts a

/-- The example bundle with dropping enabled and both buffers at the compositor. -/
def example_all_composited : SwitchingBundle :=
  { example_initial with ncompositors := 2, framedropping := true }

/-- The example bundle `example_all_composited` after the compositor has given buffer 100 back. -/
def example_slot_freed : SwitchingBundle :=
  { example_initial with first_compositor := 1, ncompositors := 1, framedropping := true }

/-- The example bundle with dropping enabled, buffer 100 ready and buffer 101 at
the client: the ring is full and there is a frame to drop. -/
def example_dropping : SwitchingBundle :=
  { example_released with framedropping := true }

/-- A bundle running with a single active buffer, which is ready. -/
def example_single : SwitchingBundle :=
  { example_initial with nbuffers := 1, nready := 1 }

/-- The example bundle `example_released` after `force_requests_to_complete`:
the ready frame 100 has been dropped and moved behind the client's buffer 101. -/
def example_drained : SwitchingBundle :=
  { example_initial with ring := [101, 100, 102], nclients := 1 }

/-- One round trip of a buffer: the client acquires it and releases it, the
compositor acquires the same buffer and releases it.  The result is the buffer
and the state after the four calls, when all four return. -/
def SwitchingBundle.round_trip (s : SwitchingBundle) : Option (Handle × SwitchingBundle) :=
  match s.client_acquire with
  | .returns h s1 =>
    match s1.client_release h with
    | .returns _ s2 =>
      match s2.compositor_acquire with
      | .returns h2 s3 =>
        if h2 = h then
          match s3.compositor_release h with
          | .returns _ s4 => some (h, s4)
          | _ => none
        else none
      | _ => none
    | _ => none
  | _ => none

/-- A number of round trips one after the other. -/
def round_trips : Nat → SwitchingBundle → Option SwitchingBundle
  | 0, s => some s
  | n + 1, s =>
    match s.round_trip with
    | some (_, s1) => round_trips n s1
    | none => none

/-- The bundle `s` with no buffer out and all three regions starting at slot `f`. -/
def SwitchingBundle.idle_at (s : SwitchingBundle) (f : Int) : SwitchingBundle :=
  { s with first_compositor := f, ncompositors := 0,
           first_ready := f, nready := 0,
           first_client := f, nclients := 0 }

/-- The contents of the `count` slots that start at slot `first` and go round a
ring of `n` slots, in that order. -/
def region (ring : List Handle) (n first count : Int) : List (Option Handle) :=
  (List.range count.toNat).map fun (t : Nat) => ring_at ring ((first + (t : Int)) % n)

/-- The client region read from its start: the handles the client holds, oldest first. -/
def SwitchingBundle.client_frames (s : SwitchingBundle) : List (Option Handle) :=
  region s.ring s.nbuffers s.first_client s.nclients

/-- The compositor region read from its start: the handles the compositor
holds, oldest first. -/
def SwitchingBundle.compositor_frames (s : SwitchingBundle) : List (Option Handle) :=
  region s.ring s.nbuffers s.first_compositor s.ncompositors

/-- The contents of the active ring, slots `0` to `nbuffers - 1`. -/
def SwitchingBundle.slots (s : SwitchingBundle) : List (Option Handle) :=
  (List.range s.nbuffers.toNat).map fun (t : Nat) => ring_at s.ring (t : Int)

/-- The handles the client has acquired and not yet released, in acquisition
order, after the calls of a run; `held` are those it had before the run. -/
def client_holds (held : List Handle) : List (Call × Option Handle) → List Handle
  | [] => held
  | (c, r) :: tr =>
    match c, r with
    | .client_acquire, some h => client_holds (held ++ [h]) tr
    | .resume .client_nready, some h => client_holds (held ++ [h]) tr
    | .resume .client_full, some h => client_holds (held ++ [h]) tr
    | .client_release h, _ => client_holds (held.erase h) tr
    | _, _ => client_holds held tr

/-- The handles the compositor has acquired and not yet released, in
acquisition order, after the calls of a run; `held` are those it had before the run. -/
def compositor_holds (held : List Handle) : List (Call × Option Handle) → List Handle
  | [] => held
  | (c, r) :: tr =>
    match c, r with
    | .compositor_acquire, some h => compositor_holds (held ++ [h]) tr
    | .resume .compositor_nready, some h => compositor_holds (held ++ [h]) tr
    | .compositor_release h, _ => compositor_holds (held.erase h) tr
    | _, _ => compositor_holds held tr

/-- The example bundle after the client, with dropping enabled, released buffer
100, acquired buffer 101 and acquired again on the full ring: the ready frame
100 was dropped and handed back to the client, which holds 101 and 100. -/
def example_recycled : SwitchingBundle :=
  { example_initial with ring := [101, 100, 102], nclients := 2, framedropping := true }

/-- The constructor, lines 61-75, told step by step: what it yields together
with the allocator as it leaves it, also when it aborts.  The assertion of line
72 comes first; the allocation loop of lines 73-74 only runs when it holds. -/
def SwitchingBundle.construct_steps {σ : Type} (MAX_BUFFERS : Nat)
    (alloc_buffer : σ → BufferProperties → Handle × σ) (gralloc : σ)
    (property_request : BufferProperties) : Except Abort SwitchingBundle × σ :=
  let nbuffers : Int := 2
  if nbuffers > 0 ∧ nbuffers ≤ MAX_BUFFERS then
    let r := alloc_ring alloc_buffer property_request MAX_BUFFERS gralloc
    (.ok { bundle_properties := property_request,
           ring := r.1,
           nbuffers := nbuffers,
           first_compositor := 0, ncompositors := 0,
           first_ready := 0, nready := 0,
           first_client := 0, nclients := 0,
           framedropping := false }, r.2)
  else (.error .assertion, gralloc)

/-- The allocator `alloc_buffer` with a record kept next to its state: every
call adds the properties it was asked for and the handle it handed out to the
end of the record. -/
def recording {σ : Type} (alloc_buffer : σ → BufferProperties → Handle × σ)
    (gralloc : σ × List (BufferProperties × Handle)) (requested : BufferProperties) :
    Handle × (σ × List (BufferProperties × Handle)) :=
  let r := alloc_buffer gralloc.1 requested
  (r.1, (r.2, gralloc.2 ++ [(requested, r.1)]))

/-- A bundle of five active buffers with every region in use: buffer 100 at the
compositor, buffers 101 and 102 ready, buffer 103 at the client, buffer 104 free. -/
def example_five : SwitchingBundle :=
  { bundle_properties := example_properties,
    ring := [100, 101, 102, 103, 104],
    nbuffers := 5,
    first_compositor := 0, ncompositors := 1,
    first_ready := 1, nready := 2,
    first_client := 3, nclients := 1,
    framedropping := true }

/-- The bundle `example_five` after `drop_frames(1)`: the ready frame 102 and
the client's buffer 103 have changed places. -/
def example_five_dropped : SwitchingBundle :=
  { example_five with ring := [100, 101, 103, 102, 104], nready := 1, first_client := 2 }

/-! ## The drop loop with its assignments counted -/

/-- The loop of lines 91-92 as in `shift_loop`, with a counter next to the
ring: it goes up by one each time the loop body `ring[i] = ring[(i + 1) % nbuffers]`
is executed. -/
def shift_loop_counted (nbuffers e : Int) : Nat → Int → List Handle →
    Except Abort (List Handle × Nat)
  | 0, i, ring => if i = e then .ok (ring, 0) else .error .diverges
  | fuel + 1, i, ring =>
    if i = e then .ok (ring, 0)
    else
      (cmod (i + 1) nbuffers).bind fun j =>
      (ring_get ring j).bind fun h =>
      (ring_set ring i h).bind fun ring1 =>
      (shift_loop_counted nbuffers e fuel j ring1).bind fun r => .ok (r.1, r.2 + 1)

/-- One round of the loop of `drop_frames` as in `drop_frames_body`, together
with the number of assignments its inner loop has executed. -/
def SwitchingBundle.drop_frames_body_counted (s : SwitchingBundle) :
    Except Abort (SwitchingBundle × Nat) :=
  (cmod (s.first_client + s.nbuffers - 1) s.nbuffers).bind fun first_client =>
  let nready := s.nready - 1
  (ring_get s.ring first_client).bind fun tmp =>
  (cmod (first_client + s.nclients) s.nbuffers).bind fun e =>
  (shift_loop_counted s.nbuffers e s.nbuffers.natAbs first_client s.ring).bind fun r =>
  (ring_set r.1 e tmp).bind fun ring2 =>
  .ok ({ s with first_client := first_client, nready := nready, ring := ring2 }, r.2)

/-- The loop of `drop_frames` as in `drop_frames_loop`, together with the
numbers of inner-loop assignments of its rounds, first round first. -/
def drop_frames_loop_counted : Nat → SwitchingBundle →
    Except Abort (SwitchingBundle × List Nat)
  | 0, s => .ok (s, [])
  | n + 1, s =>
    s.drop_frames_body_counted.bind fun r =>
    (drop_frames_loop_counted n r.1).bind fun q => .ok (q.1, r.2 :: q.2)

/-- The member `drop_frames(max)` as in `SwitchingBundle.drop_frames`, together
with the number of inner-loop assignments made for each dropped frame. -/
def SwitchingBundle.drop_frames_counted (s : SwitchingBundle) (max : Int) :
    Except Abort (Int × SwitchingBundle × List Nat) :=
  let drop := if max > s.nready then s.nready else max
  (drop_frames_loop_counted drop.toNat s).bind fun r => .ok (drop, r.1, r.2)

/-! ## The array cut down to the active ring -/

/-- The bundle `s` with its array cut down to the `nbuffers` active slots: a
read or write of any slot from `nbuffers` on is outside the array there. -/
def SwitchingBundle.trimmed (s : SwitchingBundle) : SwitchingBundle :=
  { s with ring := s.ring.take s.nbuffers.toNat }

/-- The outcome `o` with the array of the state it leaves cut down to the active slots. -/
def Outcome.trimmed {α : Type} : Outcome α → Outcome α
  | .returns a s => .returns a s.trimmed
  | .waits w => .waits w
  | .aborts a => .aborts a

/-- The three start indices of `s` are ring indices. -/
def SwitchingBundle.starts_in_ring (s : SwitchingBundle) : Prop :=
  (0 ≤ s.first_compositor ∧ s.first_compositor < s.nbuffers) ∧
  (0 ≤ s.first_ready ∧ s.first_ready < s.nbuffers) ∧
  (0 ≤ s.first_client ∧ s.first_client < s.nbuffers)

instance (s : SwitchingBundle) : Decidable s.starts_in_ring := by
  unfold SwitchingBundle.starts_in_ring; infer_instance

/-- What index safety asks of the outcome of a call made on a ring of `n`
slots: the call has not left the array (no `undefined`) and has not looped for
ever (no `diverges`); if it returned, the ring still has `n` slots and the three
start indices are ring indices. -/
def Outcome.index_safe {α : Type} (n : Int) : Outcome α → Prop
  | .returns _ s1 => s1.nbuffers = n ∧ s1.starts_in_ring
  | .waits _ => True
  | .aborts a => a = .assertion

/-- The example bundle with dropping enabled, buffer 100 at the compositor and
buffer 101 at the client: the ring is full and no frame is ready. -/
def example_starved : SwitchingBundle :=
  { example_busy with framedropping := true }

/-- The example bundle `example_starved` after the compositor has given buffer
100 back and buffer 101 has been released by the client: frame 101 is ready and
slot 0 is free. -/
def example_frame_waiting : SwitchingBundle :=
  { example_initial with first_compositor := 1, first_ready := 1, nready := 1,
                         framedropping := true }

/-- The example bundle `example_frame_waiting` after the ready frame 101 has
been dropped and its buffer handed to the client. -/
def example_frame_lost : SwitchingBundle :=
  { example_initial with first_compositor := 1, first_ready := 1, first_client := 1,
                         nclients := 1, framedropping := true }

/-! ## Which member functions take the mutex -/

/-- The member variables of `SwitchingBundle` that the member functions read or write. -/
inductive MemberVariable where
  | bundle_properties
  | ring
  | nbuffers
  | first_compositor
  | ncompositors
  | first_ready
  | nready
  | first_client
  | nclients
  | framedropping
  deriving DecidableEq, Repr

/-- Whether some member function assigns to the variable after construction:
`ring` in `drop_frames` (lines 92-93), `first_client` in lines 86 and 131,
`nready` in lines 87, 133 and 147, `nclients` in lines 122 and 132,
`first_ready` in line 146, `ncompositors` in lines 148 and 158,
`first_compositor` in line 157, `framedropping` in line 171.
`bundle_properties` and `nbuffers` are only set by the constructor. -/
def MemberVariable.assigned_after_construction : MemberVariable → Bool
  | .bundle_properties => false
  | .nbuffers => false
  | _ => true

/-- Whether the body of the member function starts with
`std::unique_lock<std::mutex> lock(guard);` and so runs with the mutex held
until it returns: lines 102, 129, 139, 155 and 164 do, the bodies of
`allow_framedropping` (line 171) and `properties` (line 176) do not.  A thread
that comes back from `cond.wait(lock)` holds the mutex again. -/
def Call.locks_guard : Call → Bool
  | .client_acquire => true
  | .client_release _ => true
  | .compositor_acquire => true
  | .compositor_release _ => true
  | .force_requests_to_complete => true
  | .allow_framedropping _ => false
  | .properties => false
  | .resume _ => true

/-- The member variables the body of the member function reads or writes,
those of `drop_frames` included where it is called. -/
def Call.accesses : Call → List MemberVariable
  | .client_acquire =>
    [.framedropping, .nbuffers, .ncompositors, .nready, .nclients, .first_client, .ring]
  | .client_release _ => [.ring, .first_client, .nbuffers, .nclients, .nready]
  | .compositor_acquire => [.nready, .first_ready, .nbuffers, .ncompositors, .ring]
  | .compositor_release _ => [.ring, .first_compositor, .nbuffers, .ncompositors]
  | .force_requests_to_complete => [.nready, .first_client, .nbuffers, .nclients, .ring]
  | .allow_framedropping _ => [.framedropping]
  | .properties => [.bundle_properties]
  | .resume .client_nready => [.nbuffers, .nready, .nclients, .first_client, .ring]
  | .resume .client_full => [.nbuffers, .ncompositors, .nready, .nclients, .first_client, .ring]
  | .resume .compositor_nready => [.nready, .first_ready, .nbuffers, .ncompositors, .ring]

/-- The call touches state that changes after construction only with the mutex held. -/
def Call.mutually_exclusive (c : Call) : Bool :=
  c.locks_guard || c.accesses.all fun v => !v.assigned_after_construction
/-! ## Ring arithmetic and the shifting loop -/

theorem tmod_wrap {x n : Int} (h0 : 0 ≤ x) (h1 : x < 2 * n) : Int.tmod x n = wrap n x := by
  have hn : 0 ≤ n := by omega
  rw [Int.tmod_eq_emod h0 hn]
  unfold wrap
  split
  · exact Int.emod_eq_of_lt h0 (by assumption)
  · rw [Int.emod_eq_sub_self_emod]
    exact Int.emod_eq_of_lt (by omega) (by omega)

theorem cmod_wrap {x n : Int} (h0 : 0 ≤ x) (h1 : x < 2 * n) (hn : 0 < n) :
    cmod x n = .ok (wrap n x) := by
  unfold cmod
  rw [if_neg (by omega), tmod_wrap h0 h1]

theorem ring_get_eq (ring : List Handle) (i : Int) :
    ring_get ring i =
      match ring_at ring i with
      | some h => .ok h
      | none => .error .undefined := by
  unfold ring_get ring_at
  split <;> rfl

theorem ring_at_some (ring : List Handle) {i : Int} (h0 : 0 ≤ i) (h1 : i < ring.length) :
    ∃ h, ring_at ring i = some h := by
  unfold ring_at
  rw [if_pos h0]
  have hlt : i.toNat < ring.length := by omega
  exact ⟨ring[i.toNat], List.getElem?_eq_getElem hlt⟩

theorem ring_get_ok {ring : List Handle} {i : Int} {h : Handle} (hh : ring_at ring i = some h) :
    ring_get ring i = .ok h := by
  rw [ring_get_eq, hh]

theorem ring_set_ok {ring : List Handle} {i : Int} (h0 : 0 ≤ i) (h1 : i < ring.length)
    (h : Handle) : ring_set ring i h = .ok (ring.set i.toNat h) := by
  unfold ring_set
  rw [if_pos]
  exact ⟨h0, by omega⟩

theorem ring_at_set {ring : List Handle} {i : Int} (h0 : 0 ≤ i) (h1 : i < ring.length)
    (h : Handle) (j : Int) :
    ring_at (ring.set i.toNat h) j = if j = i then some h else ring_at ring j := by
  unfold ring_at
  by_cases hj : 0 ≤ j
  · rw [if_pos hj, if_pos hj]
    by_cases hji : j = i
    · subst hji
      rw [if_pos rfl, List.getElem?_set_self]
      omega
    · rw [if_neg hji, List.getElem?_set_ne]
      omega
  · rw [if_neg hj, if_neg hj, if_neg (by omega)]

/-- The shifting loop of `drop_frames`, started at ring index `i` with its end
`k` slots further round the ring, exits after `k` rounds: every slot of the
span of `k` slots from `i` has received the handle of its successor, every
other slot is untouched. -/
theorem shift_loop_spec (n : Int) (k : Nat) :
    ∀ (fuel : Nat) (i : Int) (ring : List Handle),
      0 ≤ i → i < n → n ≤ ring.length → (k : Int) < n → k ≤ fuel →
      ∃ ring1, shift_loop n (wrap n (i + k)) fuel i ring = .ok ring1 ∧
        ring1.length = ring.length ∧
        ∀ j, ring_at ring1 j =
          if in_span n i k j then ring_at ring (wrap n (j + 1)) else ring_at ring j := by
  induction k with
  | zero =>
    intro fuel i ring h0 h1 _ _ _
    refine ⟨ring, ?_, rfl, ?_⟩
    · have he : wrap n (i + ((0 : Nat) : Int)) = i := by unfold wrap; simp; omega
      rw [he]
      cases fuel <;> simp [shift_loop]
    · intro j
      rw [if_neg]
      unfold in_span
      omega
  | succ k ih =>
    intro fuel i ring h0 h1 hlen hk hfuel
    obtain ⟨fuel, rfl⟩ : ∃ f, fuel = f + 1 := ⟨fuel - 1, by omega⟩
    have hne : i ≠ wrap n (i + ((k + 1 : Nat) : Int)) := by
      unfold wrap; split <;> omega
    have hj0 : 0 ≤ wrap n (i + 1) := by unfold wrap; split <;> omega
    have hj1 : wrap n (i + 1) < n := by unfold wrap; split <;> omega
    obtain ⟨h, hh⟩ := ring_at_some ring hj0 (by omega)
    have hlen1 : n ≤ ((ring.set i.toNat h).length : Int) := by simpa using hlen
    obtain ⟨ring1, hrun, hl, hat⟩ :=
      ih fuel (wrap n (i + 1)) (ring.set i.toNat h) hj0 hj1 hlen1 (by omega) (by omega)
    have he : wrap n (wrap n (i + 1) + (k : Int)) = wrap n (i + ((k + 1 : Nat) : Int)) := by
      unfold wrap; push_cast; split <;> split <;> split <;> omega
    refine ⟨ring1, ?_, by simpa using hl, ?_⟩
    · rw [shift_loop, if_neg hne, cmod_wrap (by omega) (by omega) (by omega)]
      simp only [Except.bind]
      rw [ring_get_ok hh]
      simp only []
      rw [ring_set_ok h0 (by omega)]
      simp only []
      rw [← he]
      exact hrun
    · intro j
      rw [hat j]
      by_cases hs : in_span n (wrap n (i + 1)) k j
      · rw [if_pos hs, ring_at_set h0 (by omega)]
        have hs2 : in_span n i ((k + 1 : Nat) : Int) j := by
          unfold in_span wrap at *; push_cast; split at hs <;> omega
        rw [if_pos hs2, if_neg]
        unfold in_span wrap at *
        split at hs <;> split <;> omega
      · rw [if_neg hs, ring_at_set h0 (by omega)]
        by_cases hji : j = i
        · subst hji
          have hs2 : in_span n j ((k + 1 : Nat) : Int) j := by
            unfold in_span; push_cast; omega
          rw [if_pos rfl, if_pos hs2, hh]
        · have hs2 : ¬ in_span n i ((k + 1 : Nat) : Int) j := by
            unfold in_span wrap at *; push_cast; split at hs <;> omega
          rw [if_neg hji, if_neg hs2]

/-- One round of `drop_frames` in a state within bounds that has a ready frame:
it returns; `first_client` steps back by one slot, `nready` drops by one; the
slots of the client region move one slot back with their handles, the handle of
the slot that was last in the ready region lands right after them, and no other
slot changes. -/
theorem drop_frames_body_spec (s : SwitchingBundle) (hw : s.well_formed) (hr : 0 < s.nready) :
    ∃ ring1,
      s.drop_frames_body =
        .ok { s with first_client := wrap s.nbuffers (s.first_client + s.nbuffers - 1),
                     nready := s.nready - 1, ring := ring1 } ∧
      ring1.length = s.ring.length ∧
      ∀ j, ring_at ring1 j =
        if in_span s.nbuffers (wrap s.nbuffers (s.first_client + s.nbuffers - 1)) s.nclients j
        then ring_at s.ring (wrap s.nbuffers (j + 1))
        else if j = wrap s.nbuffers
            (wrap s.nbuffers (s.first_client + s.nbuffers - 1) + s.nclients)
        then ring_at s.ring (wrap s.nbuffers (s.first_client + s.nbuffers - 1))
        else ring_at s.ring j := by
  obtain ⟨hn1, hnl, hc0, hr0, hk0, hsum, ⟨_, _⟩, ⟨_, _⟩, ⟨hf0, hf1⟩⟩ := hw
  have hp0 : 0 ≤ wrap s.nbuffers (s.first_client + s.nbuffers - 1) := by
    unfold wrap; split <;> omega
  have hp1 : wrap s.nbuffers (s.first_client + s.nbuffers - 1) < s.nbuffers := by
    unfold wrap; split <;> omega
  obtain ⟨tmp, htmp⟩ := ring_at_some s.ring hp0 (by omega)
  have hkc : ((s.nclients.toNat : Nat) : Int) = s.nclients := Int.toNat_of_nonneg hk0
  obtain ⟨ring1, hrun, hl, hat⟩ :=
    shift_loop_spec s.nbuffers s.nclients.toNat s.nbuffers.natAbs
      (wrap s.nbuffers (s.first_client + s.nbuffers - 1)) s.ring hp0 hp1 hnl
      (by omega) (by omega)
  rw [hkc] at hrun hat
  have he0 : 0 ≤ wrap s.nbuffers
      (wrap s.nbuffers (s.first_client + s.nbuffers - 1) + s.nclients) := by
    unfold wrap; split <;> split <;> omega
  have he1 : wrap s.nbuffers
      (wrap s.nbuffers (s.first_client + s.nbuffers - 1) + s.nclients) < s.nbuffers := by
    unfold wrap; split <;> split <;> omega
  refine ⟨ring1.set (wrap s.nbuffers
      (wrap s.nbuffers (s.first_client + s.nbuffers - 1) + s.nclients)).toNat tmp, ?_, ?_, ?_⟩
  · unfold SwitchingBundle.drop_frames_body
    rw [cmod_wrap (by omega) (by omega) (by omega)]
    simp only [Except.bind]
    rw [ring_get_ok htmp]
    simp only []
    rw [cmod_wrap (by omega) (by omega) (by omega)]
    simp only []
    rw [hrun]
    simp only []
    rw [ring_set_ok he0 (by omega)]
  · simpa using hl
  · intro j
    rw [ring_at_set he0 (by omega), hat j]
    by_cases hs : in_span s.nbuffers (wrap s.nbuffers (s.first_client + s.nbuffers - 1))
        s.nclients j
    · have hne : ¬ j = wrap s.nbuffers
          (wrap s.nbuffers (s.first_client + s.nbuffers - 1) + s.nclients) := by
        clear hrun hat htmp he0 he1 hkc
        generalize wrap s.nbuffers (s.first_client + s.nbuffers - 1) = p at hs hp0 hp1 ⊢
        unfold in_span at hs
        unfold wrap
        intro hj
        split_ifs at hj <;> omega
      rw [if_neg hne, if_pos hs, if_pos hs]
    · rw [if_neg hs]
      split
      · rw [htmp]
      · rfl

/-! ## The member functions in a state within bounds -/

theorem wrap_bounds {n x : Int} (h0 : 0 ≤ x) (h1 : x < 2 * n) :
    0 ≤ wrap n x ∧ wrap n x < n := by
  unfold wrap; split <;> omega

/-- The loop of `drop_frames` run for `d` rounds, `d` at most the number of
ready frames, in a state within bounds: it returns; `first_client` has stepped
back `d` slots and `nready` is `d` less; the client region reads as before from
its new start; the `d` handles taken from the end of the ready region follow it
in their old order; no slot outside these `nclients + d` slots has changed. -/
theorem drop_frames_loop_spec (d : Nat) :
    ∀ s : SwitchingBundle, s.well_formed → (d : Int) ≤ s.nready →
      ∃ ring1,
        drop_frames_loop d s =
          .ok { s with first_client := wrap s.nbuffers (s.first_client + s.nbuffers - d),
                       nready := s.nready - d, ring := ring1 } ∧
        ring1.length = s.ring.length ∧
        (∀ t, 0 ≤ t → t < s.nclients →
          ring_at ring1 (wrap s.nbuffers (wrap s.nbuffers (s.first_client + s.nbuffers - d) + t)) =
            ring_at s.ring (wrap s.nbuffers (s.first_client + t))) ∧
        (∀ u, 0 ≤ u → u < (d : Int) →
          ring_at ring1 (wrap s.nbuffers
              (wrap s.nbuffers (s.first_client + s.nbuffers - d) + (s.nclients + u))) =
            ring_at s.ring (wrap s.nbuffers (wrap s.nbuffers (s.first_client + s.nbuffers - d) + u))) ∧
        (∀ j, ¬ in_span s.nbuffers (wrap s.nbuffers (s.first_client + s.nbuffers - d))
              (s.nclients + d) j →
          ring_at ring1 j = ring_at s.ring j) := by
  induction d with
  | zero =>
    intro s hw _
    obtain ⟨hn1, hnl, hc0, hr0, hk0, hsum, ⟨_, _⟩, ⟨_, _⟩, ⟨hf0, hf1⟩⟩ := hw
    have hp : wrap s.nbuffers (s.first_client + s.nbuffers - ((0 : Nat) : Int)) = s.first_client := by
      unfold wrap; split_ifs <;> omega
    refine ⟨s.ring, ?_, rfl, ?_, ?_, ?_⟩
    · rw [hp]
      simp [drop_frames_loop]
    · intro t _ _
      rw [hp]
    · intro u h0 h1
      omega
    · intro j _
      rfl
  | succ d ih =>
    intro s hw hd
    have hw0 := hw
    obtain ⟨hn1, hnl, hc0, hr0, hk0, hsum, ⟨hfc0, hfc1⟩, ⟨hfr0, hfr1⟩, ⟨hf0, hf1⟩⟩ := hw
    obtain ⟨ring1, hbody, hl1, hat1⟩ := drop_frames_body_spec s hw0 (by omega)
    have hp := wrap_bounds (n := s.nbuffers) (x := s.first_client + s.nbuffers - 1)
      (by omega) (by omega)
    have hw1 : SwitchingBundle.well_formed
        { s with first_client := wrap s.nbuffers (s.first_client + s.nbuffers - 1),
                 nready := s.nready - 1, ring := ring1 } := by
      refine ⟨hn1, ?_, hc0, ?_, hk0, ?_, ⟨hfc0, hfc1⟩, ⟨hfr0, hfr1⟩, hp⟩
      · show s.nbuffers ≤ (ring1.length : Int)
        rw [hl1]; exact hnl
      · show 0 ≤ s.nready - 1
        omega
      · show s.ncompositors + (s.nready - 1) + s.nclients ≤ s.nbuffers
        omega
    obtain ⟨ring2, hloop, hl2, hcl, hdr, hout⟩ := ih _ hw1 (by show (d : Int) ≤ s.nready - 1; omega)
    simp only [] at hloop hl2 hcl hdr hout
    have hpp : wrap s.nbuffers (wrap s.nbuffers (s.first_client + s.nbuffers - 1) + s.nbuffers - d)
        = wrap s.nbuffers (s.first_client + s.nbuffers - ((d + 1 : Nat) : Int)) := by
      unfold wrap; push_cast; split_ifs <;> omega
    rw [hpp] at hloop hcl hdr hout
    have hq := wrap_bounds (n := s.nbuffers)
      (x := s.first_client + s.nbuffers - ((d + 1 : Nat) : Int)) (by omega) (by omega)
    refine ⟨ring2, ?_, by rw [hl2, hl1], ?_, ?_, ?_⟩
    · rw [drop_frames_loop, hbody]
      simp only [Except.bind]
      rw [hloop]
      congr 2
      push_cast
      omega
    · intro t ht0 ht1
      rw [hcl t ht0 ht1, hat1, if_pos]
      · congr 1
        unfold wrap; split_ifs <;> omega
      · generalize wrap s.nbuffers (s.first_client + s.nbuffers - 1) = p at hp ⊢
        unfold in_span wrap; split_ifs <;> omega
    · intro u hu0 hu1
      push_cast at hu1
      by_cases hud : u < (d : Int)
      · rw [hdr u hu0 hud, hat1, if_neg, if_neg]
        · clear hat1 hloop hcl hdr hout hbody
          unfold wrap; push_cast; intro hj; split_ifs at hj <;> omega
        · clear hat1 hloop hcl hdr hout hbody
          unfold in_span wrap; push_cast; split_ifs <;> omega
      · have hu : u = (d : Int) := by omega
        subst hu
        rw [hout, hat1, if_neg, if_pos]
        · congr 1
          clear hat1 hloop hcl hdr hout hbody
          unfold wrap; push_cast; split_ifs <;> omega
        · clear hat1 hloop hcl hdr hout hbody
          unfold wrap; push_cast; split_ifs <;> omega
        · clear hat1 hloop hcl hdr hout hbody
          unfold in_span wrap; push_cast; split_ifs <;> omega
        · clear hat1 hloop hcl hdr hout hbody
          unfold in_span wrap; push_cast; split_ifs <;> omega
    · intro j hj
      rw [hout, hat1, if_neg, if_neg]
      · clear hat1 hloop hcl hdr hout hbody
        unfold in_span wrap at *; push_cast at *; intro hjj; split_ifs at * <;> omega
      · clear hat1 hloop hcl hdr hout hbody
        unfold in_span wrap at *; push_cast at *; split_ifs at * <;> omega
      · clear hat1 hloop hcl hdr hout hbody
        unfold in_span wrap at *; push_cast at *; split_ifs at * <;> omega

theorem emod_small {x n : Int} (h0 : -n ≤ x) (h1 : x < 3 * n) :
    x % n = if x < 0 then x + n else if x < n then x else if x < 2 * n then x - n
      else x - 2 * n := by
  split_ifs with ha hb hc
  · rw [← Int.add_emod_self]
    exact Int.emod_eq_of_lt (by omega) (by omega)
  · exact Int.emod_eq_of_lt (by omega) (by omega)
  · rw [Int.emod_eq_sub_self_emod]
    exact Int.emod_eq_of_lt (by omega) (by omega)
  · rw [Int.emod_eq_sub_self_emod, Int.emod_eq_sub_self_emod]
    have : x - n - n = x - 2 * n := by omega
    rw [this]
    exact Int.emod_eq_of_lt (by omega) (by omega)

theorem wrap_of_lt {n x : Int} (h : x < n) : wrap n x = x := by
  unfold wrap; rw [if_pos h]

/-- The private member `drop_frames(max)` for `max ≥ 0` in a state within bounds. -/
theorem drop_frames_spec (s : SwitchingBundle) (hw : s.well_formed) (max d : Int)
    (hmax : 0 ≤ max) (hd : d = if max > s.nready then s.nready else max) :
    ∃ ring1,
      s.drop_frames max =
        .ok (d, { s with first_client := wrap s.nbuffers (s.first_client + s.nbuffers - d),
                         nready := s.nready - d, ring := ring1 }) ∧
      ring_after_drop s.nbuffers s.first_client s.nclients d s.ring ring1 := by
  have hr0 : 0 ≤ s.nready := hw.2.2.2.1
  have hd0 : 0 ≤ d := by rw [hd]; split_ifs <;> omega
  have hdn : ((d.toNat : Nat) : Int) = d := Int.toNat_of_nonneg hd0
  obtain ⟨ring1, hloop, hrest⟩ := drop_frames_loop_spec d.toNat s hw
    (by rw [hdn, hd]; split_ifs <;> omega)
  rw [hdn] at hloop hrest
  refine ⟨ring1, ?_, hrest⟩
  unfold SwitchingBundle.drop_frames
  simp only []
  rw [← hd, hloop]
  rfl

/-- Lines 121-124 of `client_acquire` in a state within bounds: the handle of
the first free slot is returned and only `nclients` changes. -/
theorem client_acquire_take_spec (s : SwitchingBundle) (hw : s.well_formed) :
    ∃ h, ring_at s.ring (wrap s.nbuffers (s.first_client + s.nclients)) = some h ∧
      s.client_acquire_take = .returns h { s with nclients := s.nclients + 1 } := by
  obtain ⟨hn1, hnl, hc0, hr0, hk0, hsum, ⟨_, _⟩, ⟨_, _⟩, ⟨hf0, hf1⟩⟩ := hw
  have hb := wrap_bounds (n := s.nbuffers) (x := s.first_client + s.nclients)
    (by omega) (by omega)
  obtain ⟨h, hh⟩ := ring_at_some s.ring hb.1 (by omega)
  refine ⟨h, hh, ?_⟩
  unfold SwitchingBundle.client_acquire_take
  rw [cmod_wrap (by omega) (by omega) (by omega)]
  simp only []
  rw [ring_get_ok hh]

/-- The member `client_release` in a state within bounds. -/
theorem client_release_spec (s : SwitchingBundle) (hw : s.well_formed) (b : Handle) :
    s.client_release b =
      if ring_at s.ring s.first_client = some b then
        .returns () { s with first_client := wrap s.nbuffers (s.first_client + 1),
                             nclients := s.nclients - 1, nready := s.nready + 1 }
      else .aborts .assertion := by
  obtain ⟨hn1, hnl, hc0, hr0, hk0, hsum, ⟨_, _⟩, ⟨_, _⟩, ⟨hf0, hf1⟩⟩ := hw
  obtain ⟨h, hh⟩ := ring_at_some s.ring hf0 (by omega)
  unfold SwitchingBundle.client_release
  rw [ring_get_ok hh, hh]
  simp only [Option.some.injEq]
  rw [cmod_wrap (by omega) (by omega) (by omega)]

/-- The member `compositor_acquire` in a state within bounds that has a ready frame. -/
theorem compositor_acquire_spec (s : SwitchingBundle) (hw : s.well_formed)
    (hr : 0 < s.nready) :
    ∃ h, ring_at s.ring s.first_ready = some h ∧
      s.compositor_acquire =
        .returns h { s with first_ready := wrap s.nbuffers (s.first_ready + 1),
                            nready := s.nready - 1, ncompositors := s.ncompositors + 1 } := by
  obtain ⟨hn1, hnl, hc0, hr0, hk0, hsum, ⟨_, _⟩, ⟨hf0, hf1⟩, ⟨_, _⟩⟩ := hw
  obtain ⟨h, hh⟩ := ring_at_some s.ring hf0 (by omega)
  refine ⟨h, hh, ?_⟩
  unfold SwitchingBundle.compositor_acquire
  rw [if_neg (by omega)]
  simp only []
  rw [cmod_wrap (by omega) (by omega) (by omega)]
  simp only []
  rw [ring_get_ok hh]

/-- The member `compositor_release` in a state within bounds. -/
theorem compositor_release_spec (s : SwitchingBundle) (hw : s.well_formed) (b : Handle) :
    s.compositor_release b =
      if ring_at s.ring s.first_compositor = some b then
        .returns () { s with first_compositor := wrap s.nbuffers (s.first_compositor + 1),
                             ncompositors := s.ncompositors - 1 }
      else .aborts .assertion := by
  obtain ⟨hn1, hnl, hc0, hr0, hk0, hsum, ⟨hf0, hf1⟩, ⟨_, _⟩, ⟨_, _⟩⟩ := hw
  obtain ⟨h, hh⟩ := ring_at_some s.ring hf0 (by omega)
  unfold SwitchingBundle.compositor_release
  rw [ring_get_ok hh, hh]
  simp only [Option.some.injEq]
  rw [cmod_wrap (by omega) (by omega) (by omega)]

/-- Lines 109-124 of `client_acquire` in a state within bounds that has a ready
frame: the last ready frame is dropped and its handle is returned. -/
theorem client_acquire_drop_spec (s : SwitchingBundle) (hw : s.well_formed)
    (hr : 0 < s.nready) :
    ∃ h ring1, ring_at s.ring (wrap s.nbuffers (s.first_client + s.nbuffers - 1)) = some h ∧
      s.client_acquire_drop =
        .returns h { s with first_client := wrap s.nbuffers (s.first_client + s.nbuffers - 1),
                            nready := s.nready - 1, nclients := s.nclients + 1,
                            ring := ring1 } ∧
      ring_after_drop s.nbuffers s.first_client s.nclients 1 s.ring ring1 := by
  have hw0 := hw
  obtain ⟨hn1, hnl, hc0, hr0, hk0, hsum, ⟨_, _⟩, ⟨_, _⟩, ⟨hf0, hf1⟩⟩ := hw
  obtain ⟨ring1, hdrop, hring⟩ := drop_frames_spec s hw0 1 1 (by omega)
    (by rw [if_neg (by omega)])
  have hp := wrap_bounds (n := s.nbuffers) (x := s.first_client + s.nbuffers - 1)
    (by omega) (by omega)
  obtain ⟨h, hh⟩ := ring_at_some s.ring hp.1 (by omega)
  have hlen := hring.1
  have hnew := hring.2.2.1 0 (by omega) (by omega)
  simp only [add_zero] at hnew
  rw [wrap_of_lt hp.2, hh] at hnew
  refine ⟨h, ring1, hh, ?_, hring⟩
  unfold SwitchingBundle.client_acquire_drop
  rw [if_neg (by omega), hdrop]
  simp only []
  unfold SwitchingBundle.client_acquire_take
  simp only []
  rw [cmod_wrap (by omega) (by omega) (by omega)]
  simp only []
  rw [ring_get_ok hnew]

/-! ## What a returning call does to a state within bounds -/

/-- A call of `client_acquire_take` that returns, seen from the result. -/
theorem client_acquire_take_returns {s s1 : SwitchingBundle} {h : Handle}
    (hw : s.well_formed) (hret : s.client_acquire_take = .returns h s1) :
    ring_at s.ring (wrap s.nbuffers (s.first_client + s.nclients)) = some h ∧
      s1 = { s with nclients := s.nclients + 1 } := by
  obtain ⟨h1, hh, heq⟩ := client_acquire_take_spec s hw
  rw [heq] at hret
  injection hret with e1 e2
  subst e1 e2
  exact ⟨hh, rfl⟩

/-- A call of `client_acquire_block` that returns found a free slot and took it. -/
theorem client_acquire_block_returns {s s1 : SwitchingBundle} {h : Handle}
    (hw : s.well_formed) (hret : s.client_acquire_block = .returns h s1) :
    s.ncompositors + s.nready + s.nclients < s.nbuffers ∧
      ring_at s.ring (wrap s.nbuffers (s.first_client + s.nclients)) = some h ∧
      s1 = { s with nclients := s.nclients + 1 } := by
  unfold SwitchingBundle.client_acquire_block at hret
  split_ifs at hret with hfull
  exact ⟨by omega, client_acquire_take_returns hw hret⟩

/-- A call of `client_acquire_drop` that returns found a ready frame, dropped
the last one and took its slot. -/
theorem client_acquire_drop_returns {s s1 : SwitchingBundle} {h : Handle}
    (hw : s.well_formed) (hret : s.client_acquire_drop = .returns h s1) :
    0 < s.nready ∧
      ring_at s.ring (wrap s.nbuffers (s.first_client + s.nbuffers - 1)) = some h ∧
      ∃ ring1, ring_after_drop s.nbuffers s.first_client s.nclients 1 s.ring ring1 ∧
        s1 = { s with first_client := wrap s.nbuffers (s.first_client + s.nbuffers - 1),
                      nready := s.nready - 1, nclients := s.nclients + 1, ring := ring1 } := by
  have hr0 : 0 ≤ s.nready := hw.2.2.2.1
  by_cases hr : s.nready = 0
  · unfold SwitchingBundle.client_acquire_drop at hret
    rw [if_pos hr] at hret
    cases hret
  · obtain ⟨h1, ring1, hh, heq, hring⟩ := client_acquire_drop_spec s hw (by omega)
    rw [heq] at hret
    injection hret with e1 e2
    subst e1 e2
    exact ⟨by omega, hh, ring1, hring, rfl⟩

/-- A call of `client_acquire` that returns either found a free slot and took
it, or ran under the dropping policy on a full ring and recycled the last ready frame. -/
theorem client_acquire_returns {s s1 : SwitchingBundle} {h : Handle}
    (hw : s.well_formed) (hret : s.client_acquire = .returns h s1) :
    (s.ncompositors + s.nready + s.nclients < s.nbuffers ∧
      ring_at s.ring (wrap s.nbuffers (s.first_client + s.nclients)) = some h ∧
      s1 = { s with nclients := s.nclients + 1 }) ∨
    (s.framedropping = true ∧ 1 < s.nbuffers ∧
      s.nbuffers ≤ s.ncompositors + s.nready + s.nclients ∧ 0 < s.nready ∧
      ring_at s.ring (wrap s.nbuffers (s.first_client + s.nbuffers - 1)) = some h ∧
      ∃ ring1, ring_after_drop s.nbuffers s.first_client s.nclients 1 s.ring ring1 ∧
        s1 = { s with first_client := wrap s.nbuffers (s.first_client + s.nbuffers - 1),
                      nready := s.nready - 1, nclients := s.nclients + 1, ring := ring1 }) := by
  unfold SwitchingBundle.client_acquire at hret
  split_ifs at hret with hpol hfull
  · obtain ⟨hr, hh, hrest⟩ := client_acquire_drop_returns hw hret
    exact Or.inr ⟨hpol.1, by omega, by omega, hr, hh, hrest⟩
  · exact Or.inl ⟨by omega, client_acquire_take_returns hw hret⟩
  · exact Or.inl (client_acquire_block_returns hw hret)

/-- A call of `client_release` that returns was given the handle of slot
`first_client` and moved that slot to the ready region. -/
theorem client_release_returns {s s1 : SwitchingBundle} {b : Handle} {u : Unit}
    (hw : s.well_formed) (hret : s.client_release b = .returns u s1) :
    ring_at s.ring s.first_client = some b ∧
      s1 = { s with first_client := wrap s.nbuffers (s.first_client + 1),
                    nclients := s.nclients - 1, nready := s.nready + 1 } := by
  rw [client_release_spec s hw] at hret
  split_ifs at hret with hb
  injection hret with e1 e2
  exact ⟨hb, e2.symm⟩

/-- A call of `compositor_acquire` that returns found a ready frame and moved
the first one to the compositor region. -/
theorem compositor_acquire_returns {s s1 : SwitchingBundle} {h : Handle}
    (hw : s.well_formed) (hret : s.compositor_acquire = .returns h s1) :
    0 < s.nready ∧ ring_at s.ring s.first_ready = some h ∧
      s1 = { s with first_ready := wrap s.nbuffers (s.first_ready + 1),
                    nready := s.nready - 1, ncompositors := s.ncompositors + 1 } := by
  by_cases hr : s.nready ≤ 0
  · unfold SwitchingBundle.compositor_acquire at hret
    rw [if_pos hr] at hret
    cases hret
  · obtain ⟨h1, hh, heq⟩ := compositor_acquire_spec s hw (by omega)
    rw [heq] at hret
    injection hret with e1 e2
    subst e1 e2
    exact ⟨by omega, hh, rfl⟩

/-- A call of `compositor_release` that returns was given the handle of slot
`first_compositor` and made that slot free. -/
theorem compositor_release_returns {s s1 : SwitchingBundle} {b : Handle} {u : Unit}
    (hw : s.well_formed) (hret : s.compositor_release b = .returns u s1) :
    ring_at s.ring s.first_compositor = some b ∧
      s1 = { s with first_compositor := wrap s.nbuffers (s.first_compositor + 1),
                    ncompositors := s.ncompositors - 1 } := by
  rw [compositor_release_spec s hw] at hret
  split_ifs at hret with hb
  injection hret with e1 e2
  exact ⟨hb, e2.symm⟩

/-- The member `force_requests_to_complete` in a state within bounds: it
returns, having dropped every ready frame. -/
theorem force_requests_to_complete_spec (s : SwitchingBundle) (hw : s.well_formed) :
    ∃ ring1, ring_after_drop s.nbuffers s.first_client s.nclients s.nready s.ring ring1 ∧
      s.force_requests_to_complete =
        .returns () { s with first_client :=
                               wrap s.nbuffers (s.first_client + s.nbuffers - s.nready),
                             nready := s.nready - s.nready, ring := ring1 } := by
  obtain ⟨ring1, hdrop, hring⟩ := drop_frames_spec s hw s.nready s.nready hw.2.2.2.1
    (by rw [if_neg (by omega)])
  refine ⟨ring1, hring, ?_⟩
  unfold SwitchingBundle.force_requests_to_complete
  rw [hdrop]

/-! ## The class invariant -/

theorem map_returns {α β : Type} {f : α → β} {o : Outcome α} {r : β} {s1 : SwitchingBundle}
    (h : o.map f = .returns r s1) : ∃ a, o = .returns a s1 ∧ r = f a := by
  cases o with
  | returns a s2 =>
    simp only [Outcome.map] at h
    injection h with e1 e2
    subst e1 e2
    exact ⟨a, rfl, rfl⟩
  | waits w => simp [Outcome.map] at h
  | aborts a => simp [Outcome.map] at h

/-- In a state within bounds the header equations say that each region starts
at the wrapped end of the one before. -/
theorem contiguous_iff_wrap {s : SwitchingBundle} (hw : s.well_formed) :
    s.contiguous ↔
      wrap s.nbuffers (s.first_compositor + s.ncompositors) = s.first_ready ∧
      wrap s.nbuffers (s.first_ready + s.nready) = s.first_client := by
  obtain ⟨hn1, hnl, hc0, hr0, hk0, hsum, ⟨_, _⟩, ⟨_, _⟩, ⟨hf0, hf1⟩⟩ := hw
  unfold SwitchingBundle.contiguous
  rw [emod_small (x := s.first_compositor + s.ncompositors) (by omega) (by omega),
    emod_small (x := s.first_ready + s.nready) (by omega) (by omega)]
  unfold wrap
  constructor <;> intro h <;> constructor <;> split_ifs at h ⊢ <;> omega

/-- The state after dropping the last `d` ready frames is within bounds. -/
theorem well_formed_after_drop {s : SwitchingBundle} (hw : s.well_formed) {d : Int}
    (hd0 : 0 ≤ d) (hd1 : d ≤ s.nready) {ring1 : List Handle}
    (hl : ring1.length = s.ring.length) :
    SwitchingBundle.well_formed
      { s with first_client := wrap s.nbuffers (s.first_client + s.nbuffers - d),
               nready := s.nready - d, ring := ring1 } := by
  obtain ⟨hn1, hnl, hc0, hr0, hk0, hsum, hfc, hfr, ⟨hf0, hf1⟩⟩ := hw
  have hp := wrap_bounds (n := s.nbuffers) (x := s.first_client + s.nbuffers - d)
    (by omega) (by omega)
  simp only [SwitchingBundle.well_formed]
  rw [hl]
  exact ⟨hn1, hnl, hc0, by omega, hk0, by omega, hfc, hfr, hp⟩

/-- The state after dropping the last `d` ready frames satisfies the header equations. -/
theorem contiguous_after_drop {s : SwitchingBundle} (hw : s.well_formed) (hc : s.contiguous)
    {d : Int} (hd0 : 0 ≤ d) (hd1 : d ≤ s.nready) {ring1 : List Handle}
    (hl : ring1.length = s.ring.length) :
    SwitchingBundle.contiguous
      { s with first_client := wrap s.nbuffers (s.first_client + s.nbuffers - d),
               nready := s.nready - d, ring := ring1 } := by
  rw [contiguous_iff_wrap (well_formed_after_drop hw hd0 hd1 hl)]
  rw [contiguous_iff_wrap hw] at hc
  obtain ⟨hn1, hnl, hc0, hr0, hk0, hsum, hfc, hfr, ⟨hf0, hf1⟩⟩ := hw
  simp only []
  unfold wrap at hc ⊢
  constructor <;> split_ifs at hc ⊢ <;> omega

/-- A returning call that respects the caller-side contract keeps the state within bounds. -/
theorem run_well_formed {c : Call} {s s1 : SwitchingBundle} {r : Option Handle}
    (hw : s.well_formed) (hg : c.holds_buffer s = true) (hret : c.run s = .returns r s1) :
    s1.well_formed := by
  have hw0 := hw
  obtain ⟨hn1, hnl, hc0, hr0, hk0, hsum, ⟨hfc0, hfc1⟩, ⟨hfr0, hfr1⟩, ⟨hf0, hf1⟩⟩ := hw
  have htake : s.ncompositors + s.nready + s.nclients < s.nbuffers →
      SwitchingBundle.well_formed { s with nclients := s.nclients + 1 } := by
    intro hlt
    simp only [SwitchingBundle.well_formed]
    omega
  have hdrop : 0 < s.nready → ∀ ring1 : List Handle,
      ring_after_drop s.nbuffers s.first_client s.nclients 1 s.ring ring1 →
      SwitchingBundle.well_formed
        { s with first_client := wrap s.nbuffers (s.first_client + s.nbuffers - 1),
                 nready := s.nready - 1, nclients := s.nclients + 1, ring := ring1 } := by
    intro hr ring1 hring
    have hp := wrap_bounds (n := s.nbuffers) (x := s.first_client + s.nbuffers - 1)
      (by omega) (by omega)
    simp only [SwitchingBundle.well_formed]
    rw [hring.1]
    omega
  cases c with
  | client_acquire =>
    obtain ⟨h, hret, -⟩ := map_returns hret
    rcases client_acquire_returns hw0 hret with ⟨hlt, -, rfl⟩ | ⟨-, -, -, hr, -, ring1, hring, rfl⟩
    · exact htake hlt
    · exact hdrop hr ring1 hring
  | client_release b =>
    obtain ⟨u, hret, -⟩ := map_returns hret
    obtain ⟨-, rfl⟩ := client_release_returns hw0 hret
    have hp := wrap_bounds (n := s.nbuffers) (x := s.first_client + 1) (by omega) (by omega)
    simp only [Call.holds_buffer, decide_eq_true_eq] at hg
    simp only [SwitchingBundle.well_formed]
    omega
  | compositor_acquire =>
    obtain ⟨h, hret, -⟩ := map_returns hret
    obtain ⟨hr, -, rfl⟩ := compositor_acquire_returns hw0 hret
    have hp := wrap_bounds (n := s.nbuffers) (x := s.first_ready + 1) (by omega) (by omega)
    simp only [SwitchingBundle.well_formed]
    omega
  | compositor_release b =>
    obtain ⟨u, hret, -⟩ := map_returns hret
    obtain ⟨-, rfl⟩ := compositor_release_returns hw0 hret
    have hp := wrap_bounds (n := s.nbuffers) (x := s.first_compositor + 1) (by omega) (by omega)
    simp only [Call.holds_buffer, decide_eq_true_eq] at hg
    simp only [SwitchingBundle.well_formed]
    omega
  | force_requests_to_complete =>
    obtain ⟨u, hret, -⟩ := map_returns hret
    obtain ⟨ring1, hring, heq⟩ := force_requests_to_complete_spec s hw0
    rw [heq] at hret
    injection hret with e1 e2
    subst e2
    exact well_formed_after_drop hw0 hr0 (le_refl _) hring.1
  | allow_framedropping b =>
    simp only [Call.run, SwitchingBundle.allow_framedropping, Outcome.map] at hret
    injection hret with e1 e2
    subst e2
    exact hw0
  | properties =>
    simp only [Call.run, SwitchingBundle.properties, Outcome.map] at hret
    injection hret with e1 e2
    subst e2
    exact hw0
  | resume w =>
    obtain ⟨h, hret, -⟩ := map_returns hret
    cases w with
    | client_nready =>
      obtain ⟨hr, -, ring1, hring, rfl⟩ := client_acquire_drop_returns hw0 hret
      exact hdrop hr ring1 hring
    | client_full =>
      obtain ⟨hlt, -, rfl⟩ := client_acquire_block_returns hw0 hret
      exact htake hlt
    | compositor_nready =>
      obtain ⟨hr, -, rfl⟩ := compositor_acquire_returns hw0 hret
      have hp := wrap_bounds (n := s.nbuffers) (x := s.first_ready + 1) (by omega) (by omega)
      simp only [SwitchingBundle.well_formed]
      omega

/-- A returning call, whatever its argument, leaves the header equations true
when it is made in a state within bounds in which they are true. -/
theorem run_contiguous {c : Call} {s s1 : SwitchingBundle} {r : Option Handle}
    (hw : s.well_formed) (hc : s.contiguous) (hret : c.run s = .returns r s1) :
    s1.contiguous := by
  have hw0 := hw
  have hc0 := hc
  rw [contiguous_iff_wrap hw] at hc
  obtain ⟨hc1, hc2⟩ := hc
  obtain ⟨hn1, hnl, hk0, hr0, hl0, hsum, ⟨hfc0, hfc1⟩, ⟨hfr0, hfr1⟩, ⟨hf0, hf1⟩⟩ := hw
  have hacq : 0 < s.nready →
      SwitchingBundle.contiguous
        { s with first_ready := wrap s.nbuffers (s.first_ready + 1),
                 nready := s.nready - 1, ncompositors := s.ncompositors + 1 } := by
    intro hr
    have hp := wrap_bounds (n := s.nbuffers) (x := s.first_ready + 1) (by omega) (by omega)
    simp only [SwitchingBundle.contiguous]
    rw [emod_small (x := s.first_compositor + (s.ncompositors + 1)) (by omega) (by omega),
      emod_small (x := wrap s.nbuffers (s.first_ready + 1) + (s.nready - 1))
        (by omega) (by omega)]
    unfold wrap at hc1 hc2 hp ⊢
    constructor <;> split_ifs at hc1 hc2 hp ⊢ <;> omega
  cases c with
  | client_acquire =>
    obtain ⟨h, hret, -⟩ := map_returns hret
    rcases client_acquire_returns hw0 hret with ⟨-, -, rfl⟩ | ⟨-, -, -, hr, -, ring1, hring, rfl⟩
    · exact hc0
    · exact contiguous_after_drop hw0 hc0 (by omega) (by omega) hring.1
  | client_release b =>
    obtain ⟨u, hret, -⟩ := map_returns hret
    obtain ⟨-, rfl⟩ := client_release_returns hw0 hret
    have hp := wrap_bounds (n := s.nbuffers) (x := s.first_client + 1) (by omega) (by omega)
    simp only [SwitchingBundle.contiguous]
    rw [emod_small (x := s.first_compositor + s.ncompositors) (by omega) (by omega),
      emod_small (x := s.first_ready + (s.nready + 1)) (by omega) (by omega)]
    unfold wrap at hc1 hc2 hp ⊢
    constructor <;> split_ifs at hc1 hc2 hp ⊢ <;> omega
  | compositor_acquire =>
    obtain ⟨h, hret, -⟩ := map_returns hret
    obtain ⟨hr, -, rfl⟩ := compositor_acquire_returns hw0 hret
    exact hacq hr
  | compositor_release b =>
    obtain ⟨u, hret, -⟩ := map_returns hret
    obtain ⟨-, rfl⟩ := compositor_release_returns hw0 hret
    have hp := wrap_bounds (n := s.nbuffers) (x := s.first_compositor + 1) (by omega) (by omega)
    simp only [SwitchingBundle.contiguous]
    rw [emod_small (x := wrap s.nbuffers (s.first_compositor + 1) + (s.ncompositors - 1))
        (by omega) (by omega),
      emod_small (x := s.first_ready + s.nready) (by omega) (by omega)]
    unfold wrap at hc1 hc2 hp ⊢
    constructor <;> split_ifs at hc1 hc2 hp ⊢ <;> omega
  | force_requests_to_complete =>
    obtain ⟨u, hret, -⟩ := map_returns hret
    obtain ⟨ring1, hring, heq⟩ := force_requests_to_complete_spec s hw0
    rw [heq] at hret
    injection hret with e1 e2
    subst e2
    exact contiguous_after_drop hw0 hc0 hr0 (le_refl _) hring.1
  | allow_framedropping b =>
    simp only [Call.run, SwitchingBundle.allow_framedropping, Outcome.map] at hret
    injection hret with e1 e2
    subst e2
    exact hc0
  | properties =>
    simp only [Call.run, SwitchingBundle.properties, Outcome.map] at hret
    injection hret with e1 e2
    subst e2
    exact hc0
  | resume w =>
    obtain ⟨h, hret, -⟩ := map_returns hret
    cases w with
    | client_nready =>
      obtain ⟨hr, -, ring1, hring, rfl⟩ := client_acquire_drop_returns hw0 hret
      exact contiguous_after_drop hw0 hc0 (by omega) (by omega) hring.1
    | client_full =>
      obtain ⟨-, -, rfl⟩ := client_acquire_block_returns hw0 hret
      exact hc0
    | compositor_nready =>
      obtain ⟨hr, -, rfl⟩ := compositor_acquire_returns hw0 hret
      exact hacq hr

/-- A sequence of returning calls that respect the caller-side contract leads
from a state within bounds that satisfies the header equations to another one. -/
theorem execute_invariant (calls : List Call) :
    ∀ (s s1 : SwitchingBundle) (tr : List (Call × Option Handle)),
      s.well_formed → s.contiguous →
      execute Call.holds_buffer calls s = some (tr, s1) →
      s1.well_formed ∧ s1.contiguous := by
  induction calls with
  | nil =>
    intro s s1 tr hw hc hex
    simp only [execute, Option.some.injEq, Prod.mk.injEq] at hex
    obtain ⟨-, rfl⟩ := hex
    exact ⟨hw, hc⟩
  | cons c cs ih =>
    intro s s1 tr hw hc hex
    unfold execute at hex
    split_ifs at hex with hg
    split at hex
    · rename_i r s2 hrun
      split at hex
      · rename_i tr2 s3 hrest
        simp only [Option.some.injEq, Prod.mk.injEq] at hex
        obtain ⟨-, rfl⟩ := hex
        exact ih s2 s3 tr2 (run_well_formed hw hg hrun) (run_contiguous hw hc hrun) hrest
      · cases hex
    · cases hex

/-- The state the constructor builds is within bounds and satisfies the header equations. -/
theorem construct_invariant {σ : Type} {MAX_BUFFERS : Nat}
    {alloc_buffer : σ → BufferProperties → Handle × σ} {gralloc gralloc1 : σ}
    {property_request : BufferProperties} {s0 : SwitchingBundle}
    (h : SwitchingBundle.construct MAX_BUFFERS alloc_buffer gralloc property_request
      = .ok (s0, gralloc1)) :
    s0.well_formed ∧ s0.contiguous ∧ s0.nbuffers = 2 ∧ s0.ncompositors = 0 ∧ s0.nready = 0 ∧
      s0.nclients = 0 ∧ s0.first_compositor = 0 ∧ s0.first_ready = 0 ∧ s0.first_client = 0 ∧
      s0.framedropping = false := by
  have hlen : ∀ (n : Nat) (g : σ), (alloc_ring alloc_buffer property_request n g).1.length = n := by
    intro n
    induction n with
    | zero => intro g; rfl
    | succ n ih => intro g; simp [alloc_ring, ih]
  unfold SwitchingBundle.construct at h
  simp only [] at h
  split_ifs at h with hM
  injection h with h
  injection h with e1 e2
  subst e1
  simp only [SwitchingBundle.well_formed, SwitchingBundle.contiguous, hlen]
  refine ⟨by omega, by omega, ?_⟩
  simp

/-! ## The claims -/

/-- C1 (capacity bound).  In every state reached from the constructed bundle by
a sequence of calls that return (an acquire only returns when its wait
condition is false, a release only when it is handed the handle of the first
slot of its region; a side only releases a buffer it holds), the three counts
are non-negative and their sum is at most `nbuffers`. -/
theorem capacity_bound {σ : Type} (MAX_BUFFERS : Nat)
    (alloc_buffer : σ → BufferProperties → Handle × σ) (gralloc gralloc1 : σ)
    (property_request : BufferProperties) (s0 s : SwitchingBundle) (calls : List Call)
    (tr : List (Call × Option Handle))
    (hnew : SwitchingBundle.construct MAX_BUFFERS alloc_buffer gralloc property_request
      = .ok (s0, gralloc1))
    (hrun : execute Call.holds_buffer calls s0 = some (tr, s)) :
    0 ≤ s.ncompositors ∧ 0 ≤ s.nready ∧ 0 ≤ s.nclients ∧
      s.ncompositors + s.nready + s.nclients ≤ s.nbuffers := by
  obtain ⟨hw0, hc0, -⟩ := construct_invariant hnew
  obtain ⟨hw, -⟩ := execute_invariant calls s0 s tr hw0 hc0 hrun
  exact ⟨hw.2.2.1, hw.2.2.2.1, hw.2.2.2.2.1, hw.2.2.2.2.2.1⟩

/-- C1, at a concrete run: construct, acquire and release buffer 100 on the
client side, acquire it on the compositor side, acquire buffer 101 on the client side. -/
theorem capacity_bound_witness :
    SwitchingBundle.construct 3 counting_allocator 0 example_properties
        = .ok (example_initial, 3) ∧
      execute Call.holds_buffer
          [.client_acquire, .client_release 100, .compositor_acquire, .client_acquire]
          example_initial
        = some ([(.client_acquire, some 100), (.client_release 100, none),
                 (.compositor_acquire, some 100), (.client_acquire, some 101)],
                example_busy) ∧
      0 ≤ example_busy.ncompositors ∧ 0 ≤ example_busy.nready ∧ 0 ≤ example_busy.nclients ∧
      example_busy.ncompositors + example_busy.nready + example_busy.nclients
        ≤ example_busy.nbuffers :=
  ⟨rfl, rfl,
    capacity_bound 3 counting_allocator 0 3 example_properties example_initial example_busy
      [.client_acquire, .client_release 100, .compositor_acquire, .client_acquire]
      [(.client_acquire, some 100), (.client_release 100, none),
       (.compositor_acquire, some 100), (.client_acquire, some 101)] rfl rfl⟩

/-- The private member `drop_frames`, whatever its argument, leaves the header
equations true when it returns from a state within bounds in which they are true. -/
theorem drop_frames_contiguous {s s1 : SwitchingBundle} {max k : Int}
    (hw : s.well_formed) (hc : s.contiguous) (hret : s.drop_frames max = .ok (k, s1)) :
    s1.contiguous := by
  have hr0 : 0 ≤ s.nready := hw.2.2.2.1
  by_cases hmax : 0 ≤ max
  · obtain ⟨ring1, heq, hring⟩ := drop_frames_spec s hw max _ hmax rfl
    rw [heq] at hret
    injection hret with hret
    injection hret with e1 e2
    subst e2
    exact contiguous_after_drop hw hc (by split_ifs <;> omega) (by split_ifs <;> omega) hring.1
  · unfold SwitchingBundle.drop_frames at hret
    simp only [] at hret
    rw [if_neg (by omega)] at hret
    have h0 : max.toNat = 0 := by omega
    rw [h0] at hret
    simp only [drop_frames_loop, Except.bind] at hret
    injection hret with hret
    injection hret with e1 e2
    subst e2
    exact hc

/-- C2 (region contiguity).  Started in a state within bounds in which
`(first_compositor + ncompositors) mod nbuffers = first_ready` and
`(first_ready + nready) mod nbuffers = first_client`, every member function
that returns (a public one, a woken acquire, or `drop_frames` with any
argument) ends in a state in which both equations hold; and both hold in the
state the constructor builds. -/
theorem region_contiguity (s : SwitchingBundle) (hw : s.well_formed) (hc : s.contiguous) :
    (∀ (c : Call) (r : Option Handle) (s1 : SwitchingBundle),
      c.run s = .returns r s1 → s1.contiguous) ∧
    (∀ (max k : Int) (s1 : SwitchingBundle),
      s.drop_frames max = .ok (k, s1) → s1.contiguous) ∧
    (∀ (σ : Type) (MAX_BUFFERS : Nat) (alloc_buffer : σ → BufferProperties → Handle × σ)
      (gralloc gralloc1 : σ) (property_request : BufferProperties) (s0 : SwitchingBundle),
      SwitchingBundle.construct MAX_BUFFERS alloc_buffer gralloc property_request
        = .ok (s0, gralloc1) → s0.contiguous) :=
  ⟨fun _ _ _ hret => run_contiguous hw hc hret,
   fun _ _ _ hret => drop_frames_contiguous hw hc hret,
   fun _ _ _ _ _ _ _ hnew => (construct_invariant hnew).2.1⟩

/-- C2, at the example bundle with one buffer on each side. -/
theorem region_contiguity_witness :
    example_busy.well_formed ∧ example_busy.contiguous ∧
    ((∀ (c : Call) (r : Option Handle) (s1 : SwitchingBundle),
      c.run example_busy = .returns r s1 → s1.contiguous) ∧
    (∀ (max k : Int) (s1 : SwitchingBundle),
      example_busy.drop_frames max = .ok (k, s1) → s1.contiguous) ∧
    (∀ (σ : Type) (MAX_BUFFERS : Nat) (alloc_buffer : σ → BufferProperties → Handle × σ)
      (gralloc gralloc1 : σ) (property_request : BufferProperties) (s0 : SwitchingBundle),
      SwitchingBundle.construct MAX_BUFFERS alloc_buffer gralloc property_request
        = .ok (s0, gralloc1) → s0.contiguous)) :=
  ⟨by decide, by decide, region_contiguity example_busy (by decide) (by decide)⟩

/-! ## The ready region as a queue -/

theorem emod_wrap_add {n : Int} (x t : Int) : (wrap n x + t) % n = (x + t) % n := by
  unfold wrap
  split_ifs
  · rfl
  · have h : x - n + t = x + t + (-1) * n := by omega
    rw [h, Int.add_mul_emod_self]

theorem emod_succ_wrap {n : Int} (hn : 0 < n) (a : Int) :
    (a + 1) % n = wrap n (a % n + 1) := by
  have h0 := Int.emod_nonneg a (by omega : n ≠ 0)
  have h1 := Int.emod_lt_of_pos a hn
  have h2 : a + 1 = a % n + 1 + n * (a / n) := by
    have := Int.emod_add_ediv a n
    omega
  rw [h2, Int.add_mul_emod_self_left, emod_small (by omega) (by omega)]
  unfold wrap
  split_ifs <;> omega

/-- Lines 121-124 of `client_acquire`, in any state: when they return, only `nclients` has changed. -/
theorem client_acquire_take_state {s s1 : SwitchingBundle} {h : Handle}
    (hret : s.client_acquire_take = .returns h s1) :
    s1 = { s with nclients := s.nclients + 1 } := by
  unfold SwitchingBundle.client_acquire_take at hret
  split at hret
  · cases hret
  · split at hret
    · cases hret
    · injection hret with e1 e2
      exact e2.symm

/-- The member `compositor_release`, in any state: when it returns, only
`first_compositor` and `ncompositors` have changed. -/
theorem compositor_release_state {s s1 : SwitchingBundle} {b : Handle} {u : Unit}
    (hret : s.compositor_release b = .returns u s1) :
    ∃ f, s1 = { s with first_compositor := f, ncompositors := s.ncompositors - 1 } := by
  unfold SwitchingBundle.compositor_release at hret
  split at hret
  · cases hret
  · split_ifs at hret
    split at hret
    · cases hret
    · rename_i f _
      injection hret with e1 e2
      exact ⟨f, e2.symm⟩

/-- The member `client_release` when the client region starts inside the ring:
the call returns exactly when it is handed the handle of slot `first_client`,
and then appends that slot to the ready region. -/
theorem client_release_returns_ready {s s1 : SwitchingBundle} {b : Handle} {u : Unit}
    (hk : s.ready_region_ok) (hret : s.client_release b = .returns u s1) :
    ring_at s.ring s.first_client = some b ∧
      s1 = { s with first_client := wrap s.nbuffers (s.first_client + 1),
                    nclients := s.nclients - 1, nready := s.nready + 1 } := by
  obtain ⟨hn1, hnl, hr0, ⟨_, _⟩, ⟨hf0, hf1⟩, _⟩ := hk
  obtain ⟨h, hh⟩ := ring_at_some s.ring hf0 (by omega)
  unfold SwitchingBundle.client_release at hret
  rw [ring_get_ok hh] at hret
  simp only [] at hret
  rw [cmod_wrap (by omega) (by omega) (by omega)] at hret
  simp only [] at hret
  split_ifs at hret with hb
  injection hret with e1 e2
  subst hb
  exact ⟨hh, e2.symm⟩

/-- The member `compositor_acquire` when the ready region starts inside the
ring: the call returns exactly when there is a ready frame, and then hands out
the first slot of the ready region. -/
theorem compositor_acquire_returns_ready {s s1 : SwitchingBundle} {h : Handle}
    (hk : s.ready_region_ok) (hret : s.compositor_acquire = .returns h s1) :
    0 < s.nready ∧ ring_at s.ring s.first_ready = some h ∧
      s1 = { s with first_ready := wrap s.nbuffers (s.first_ready + 1),
                    nready := s.nready - 1, ncompositors := s.ncompositors + 1 } := by
  obtain ⟨hn1, hnl, hr0, ⟨hf0, hf1⟩, ⟨_, _⟩, _⟩ := hk
  obtain ⟨h1, hh⟩ := ring_at_some s.ring hf0 (by omega)
  unfold SwitchingBundle.compositor_acquire at hret
  split_ifs at hret with hr
  simp only [] at hret
  rw [cmod_wrap (by omega) (by omega) (by omega)] at hret
  simp only [] at hret
  rw [ring_get_ok hh] at hret
  simp only [] at hret
  injection hret with e1 e2
  subst e1
  exact ⟨by omega, hh, e2.symm⟩

/-- Appending a slot to the ready region appends its handle to the ready frames. -/
theorem ready_frames_release {s : SwitchingBundle} {b : Handle} (hk : s.ready_region_ok)
    (hb : ring_at s.ring s.first_client = some b) :
    SwitchingBundle.ready_frames
        { s with first_client := wrap s.nbuffers (s.first_client + 1),
                 nclients := s.nclients - 1, nready := s.nready + 1 }
      = s.ready_frames ++ [some b] := by
  obtain ⟨hn1, hnl, hr0, ⟨_, _⟩, ⟨hf0, hf1⟩, heq⟩ := hk
  have h1 : (s.nready + 1).toNat = s.nready.toNat + 1 := by omega
  have h2 : ((s.nready.toNat : Nat) : Int) = s.nready := Int.toNat_of_nonneg hr0
  simp only [SwitchingBundle.ready_frames]
  rw [h1, List.range_succ, List.map_append, List.map_singleton, h2, heq, hb]

/-- Taking the first slot of the ready region removes the first of the ready frames. -/
theorem ready_frames_acquire {s : SwitchingBundle} {h : Handle} (hk : s.ready_region_ok)
    (hr : 0 < s.nready) (hh : ring_at s.ring s.first_ready = some h) :
    s.ready_frames = some h ::
      SwitchingBundle.ready_frames
        { s with first_ready := wrap s.nbuffers (s.first_ready + 1),
                 nready := s.nready - 1, ncompositors := s.ncompositors + 1 } := by
  obtain ⟨hn1, hnl, hr0, ⟨hf0, hf1⟩, ⟨_, _⟩, heq⟩ := hk
  have h1 : s.nready.toNat = (s.nready - 1).toNat + 1 := by omega
  simp only [SwitchingBundle.ready_frames]
  rw [h1, List.range_succ_eq_map, List.map_cons, List.map_map]
  congr 1
  · simp only [Nat.cast_zero, add_zero]
    rw [Int.emod_eq_of_lt hf0 hf1, hh]
  · apply List.map_congr_left
    intro t _
    simp only [Function.comp, Nat.cast_succ]
    rw [emod_wrap_add]
    congr 2
    omega

theorem released_by_client_cons (c : Call) (r : Option Handle)
    (tr : List (Call × Option Handle)) :
    released_by_client ((c, r) :: tr) = released_by_client [(c, r)] ++ released_by_client tr := by
  cases c <;> simp [released_by_client]

theorem acquired_by_compositor_cons (c : Call) (r : Option Handle)
    (tr : List (Call × Option Handle)) :
    acquired_by_compositor ((c, r) :: tr)
      = acquired_by_compositor [(c, r)] ++ acquired_by_compositor tr := by
  cases c with
  | resume w => cases w <;> cases r <;> simp [acquired_by_compositor]
  | _ => cases r <;> simp [acquired_by_compositor]

/-- One returning call that drops no frame: a released handle joins the ready
frames at the back, an acquired one leaves them at the front, nothing else
touches them. -/
theorem run_fifo_step {c : Call} {s s1 : SwitchingBundle} {r : Option Handle}
    (hk : s.ready_region_ok) (hg : c.drops_nothing s = true) (hret : c.run s = .returns r s1) :
    s1.ready_region_ok ∧
      s.ready_frames ++ (released_by_client [(c, r)]).map some
        = (acquired_by_compositor [(c, r)]).map some ++ s1.ready_frames := by
  have hk0 := hk
  obtain ⟨hn1, hnl, hr0, ⟨hfr0, hfr1⟩, ⟨hf0, hf1⟩, heq⟩ := hk
  have hacq : ∀ h : Handle, s.compositor_acquire = .returns h s1 →
      s1.ready_region_ok ∧ s.ready_frames = some h :: s1.ready_frames := by
    intro h hret
    obtain ⟨hr, hh, rfl⟩ := compositor_acquire_returns_ready hk0 hret
    refine ⟨?_, ready_frames_acquire hk0 hr hh⟩
    have hp := wrap_bounds (n := s.nbuffers) (x := s.first_ready + 1) (by omega) (by omega)
    refine ⟨hn1, hnl, ?_, hp, ⟨hf0, hf1⟩, ?_⟩
    · show 0 ≤ s.nready - 1
      omega
    · show (wrap s.nbuffers (s.first_ready + 1) + (s.nready - 1)) % s.nbuffers = s.first_client
      rw [emod_wrap_add, ← heq]
      congr 1
      omega
  have htake : ∀ h : Handle, s.client_acquire_take = .returns h s1 →
      s1.ready_region_ok ∧ s.ready_frames = s1.ready_frames := by
    intro h hret
    rw [client_acquire_take_state hret]
    exact ⟨hk0, rfl⟩
  have hblock : ∀ h : Handle, s.client_acquire_block = .returns h s1 →
      s1.ready_region_ok ∧ s.ready_frames = s1.ready_frames := by
    intro h hret
    unfold SwitchingBundle.client_acquire_block at hret
    split_ifs at hret
    exact htake h hret
  cases c with
  | client_acquire =>
    obtain ⟨h, hret1, rfl⟩ := map_returns hret
    have hs : s1.ready_region_ok ∧ s.ready_frames = s1.ready_frames := by
      unfold SwitchingBundle.client_acquire at hret1
      split_ifs at hret1 with hpol hfull
      · simp [Call.drops_nothing, hpol.1, hpol.2, hfull] at hg
      · exact htake h hret1
      · exact hblock h hret1
    refine ⟨hs.1, ?_⟩
    simp [released_by_client, acquired_by_compositor, hs.2]
  | client_release b =>
    obtain ⟨u, hret1, rfl⟩ := map_returns hret
    obtain ⟨hb, rfl⟩ := client_release_returns_ready hk0 hret1
    have hp := wrap_bounds (n := s.nbuffers) (x := s.first_client + 1) (by omega) (by omega)
    refine ⟨⟨hn1, hnl, ?_, ⟨hfr0, hfr1⟩, hp, ?_⟩, ?_⟩
    · show 0 ≤ s.nready + 1
      omega
    · show (s.first_ready + (s.nready + 1)) % s.nbuffers = wrap s.nbuffers (s.first_client + 1)
      rw [← Int.add_assoc, emod_succ_wrap (by omega), heq]
    · rw [ready_frames_release hk0 hb]
      simp [released_by_client, acquired_by_compositor]
  | compositor_acquire =>
    obtain ⟨h, hret1, rfl⟩ := map_returns hret
    obtain ⟨hk1, hfr⟩ := hacq h hret1
    refine ⟨hk1, ?_⟩
    simp [released_by_client, acquired_by_compositor, hfr]
  | compositor_release b =>
    obtain ⟨u, hret1, rfl⟩ := map_returns hret
    obtain ⟨f, rfl⟩ := compositor_release_state hret1
    refine ⟨hk0, ?_⟩
    simp [released_by_client, acquired_by_compositor, SwitchingBundle.ready_frames]
  | force_requests_to_complete =>
    obtain ⟨u, hret1, rfl⟩ := map_returns hret
    simp only [Call.drops_nothing, decide_eq_true_eq] at hg
    have hz : s.nready = 0 := by omega
    unfold SwitchingBundle.force_requests_to_complete SwitchingBundle.drop_frames at hret1
    simp only [hz, lt_self_iff_false, if_false, gt_iff_lt, Int.toNat_zero, drop_frames_loop,
      Except.bind] at hret1
    injection hret1 with e1 e2
    subst e2
    refine ⟨hk0, ?_⟩
    simp [released_by_client, acquired_by_compositor]
  | allow_framedropping b =>
    simp only [Call.run, SwitchingBundle.allow_framedropping, Outcome.map] at hret
    injection hret with e1 e2
    subst e1 e2
    refine ⟨hk0, ?_⟩
    simp [released_by_client, acquired_by_compositor, SwitchingBundle.ready_frames]
  | properties =>
    simp only [Call.run, SwitchingBundle.properties, Outcome.map] at hret
    injection hret with e1 e2
    subst e1 e2
    refine ⟨hk0, ?_⟩
    simp [released_by_client, acquired_by_compositor]
  | resume w =>
    obtain ⟨h, hret1, rfl⟩ := map_returns hret
    cases w with
    | client_nready => simp [Call.drops_nothing] at hg
    | client_full =>
      obtain ⟨hk1, hfr⟩ := hblock h hret1
      refine ⟨hk1, ?_⟩
      simp [released_by_client, acquired_by_compositor, hfr]
    | compositor_nready =>
      obtain ⟨hk1, hfr⟩ := hacq h hret1
      refine ⟨hk1, ?_⟩
      simp [released_by_client, acquired_by_compositor, hfr]

/-- Along a run of returning calls that drop no frame, the frames ready at the
start followed by the released handles are the acquired handles followed by
the frames ready at the end. -/
theorem execute_fifo (calls : List Call) :
    ∀ (s s1 : SwitchingBundle) (tr : List (Call × Option Handle)),
      s.ready_region_ok →
      execute Call.drops_nothing calls s = some (tr, s1) →
      s.ready_frames ++ (released_by_client tr).map some
        = (acquired_by_compositor tr).map some ++ s1.ready_frames := by
  induction calls with
  | nil =>
    intro s s1 tr _ hex
    simp only [execute, Option.some.injEq, Prod.mk.injEq] at hex
    obtain ⟨rfl, rfl⟩ := hex
    simp [released_by_client, acquired_by_compositor]
  | cons c cs ih =>
    intro s s1 tr hk hex
    unfold execute at hex
    split_ifs at hex with hg
    split at hex
    · rename_i r s2 hrun
      split at hex
      · rename_i tr2 s3 hrest
        simp only [Option.some.injEq, Prod.mk.injEq] at hex
        obtain ⟨rfl, rfl⟩ := hex
        obtain ⟨hk2, hstep⟩ := run_fifo_step hk hg hrun
        have hih := ih s2 s3 tr2 hk2 hrest
        rw [released_by_client_cons, acquired_by_compositor_cons, List.map_append,
          List.map_append, ← List.append_assoc, hstep, List.append_assoc, hih,
          List.append_assoc]
      · cases hex
    · cases hex

/-- C3 (FIFO handoff).  In every run of returning calls from the constructed
bundle in which no frame is dropped (no `client_acquire` enters the dropping
branch, `force_requests_to_complete` is never called with a ready frame), the
handles returned by `compositor_acquire` are, in order, the first of the
handles passed to `client_release`: the n-th buffer the compositor acquires is
the n-th buffer the client released. -/
theorem fifo_handoff {σ : Type} (MAX_BUFFERS : Nat)
    (alloc_buffer : σ → BufferProperties → Handle × σ) (gralloc gralloc1 : σ)
    (property_request : BufferProperties) (s0 s : SwitchingBundle) (calls : List Call)
    (tr : List (Call × Option Handle))
    (hnew : SwitchingBundle.construct MAX_BUFFERS alloc_buffer gralloc property_request
      = .ok (s0, gralloc1))
    (hrun : execute Call.drops_nothing calls s0 = some (tr, s)) :
    acquired_by_compositor tr <+: released_by_client tr ∧
      ∀ (n : Nat) (h : Handle), (acquired_by_compositor tr)[n]? = some h →
        (released_by_client tr)[n]? = some h := by
  obtain ⟨hw0, hc0, -, -, hr0, -⟩ := construct_invariant hnew
  have hk0 : s0.ready_region_ok :=
    ⟨hw0.1, hw0.2.1, hw0.2.2.2.1, hw0.2.2.2.2.2.2.2.1, hw0.2.2.2.2.2.2.2.2, hc0.2⟩
  have hq := execute_fifo calls s0 s tr hk0 hrun
  have he : s0.ready_frames = [] := by simp [SwitchingBundle.ready_frames, hr0]
  rw [he, List.nil_append] at hq
  have hpre : acquired_by_compositor tr <+: released_by_client tr := by
    have h1 : (acquired_by_compositor tr).map some <+: (released_by_client tr).map some :=
      ⟨_, hq.symm⟩
    have h2 := List.prefix_iff_eq_take.mp h1
    rw [List.length_map, ← List.map_take] at h2
    have h3 := List.map_injective_iff.mpr (Option.some_injective Handle) h2
    rw [h3]
    exact List.take_prefix _ _
  refine ⟨hpre, ?_⟩
  intro n h hn
  obtain ⟨rest, hrest⟩ := hpre
  rw [← hrest, List.getElem?_append_left, hn]
  by_contra hlt
  rw [List.getElem?_eq_none (by omega)] at hn
  cases hn

/-- C3, at a concrete run without drops: the client releases 100 and then 101,
the compositor has acquired 100. -/
theorem fifo_handoff_witness :
    SwitchingBundle.construct 3 counting_allocator 0 example_properties
        = .ok (example_initial, 3) ∧
      execute Call.drops_nothing
          [.client_acquire, .client_release 100, .client_acquire, .compositor_acquire,
           .client_release 101]
          example_initial
        = some ([(.client_acquire, some 100), (.client_release 100, none),
                 (.client_acquire, some 101), (.compositor_acquire, some 100),
                 (.client_release 101, none)],
                example_handed_over) ∧
      ([100] <+: [100, 101] ∧
        ∀ (n : Nat) (h : Handle), [100][n]? = some h → [100, 101][n]? = some h) :=
  ⟨rfl, rfl,
    fifo_handoff 3 counting_allocator 0 3 example_properties example_initial
      example_handed_over
      [.client_acquire, .client_release 100, .client_acquire, .compositor_acquire,
       .client_release 101]
      [(.client_acquire, some 100), (.client_release 100, none),
       (.client_acquire, some 101), (.compositor_acquire, some 100),
       (.client_release 101, none)] rfl rfl⟩

theorem emod_eq_wrap {x n : Int} (h0 : 0 ≤ x) (h1 : x < 2 * n) : x % n = wrap n x := by
  rw [emod_small (by omega) (by omega)]
  unfold wrap
  split_ifs <;> omega

/-- Dropping `d` of the ready frames leaves the first `nready - d` slots of the
ready region as they were. -/
theorem ready_frames_after_drop {s : SwitchingBundle} (hw : s.well_formed) (hc : s.contiguous)
    {d : Int} (hd0 : 0 ≤ d) (hd1 : d ≤ s.nready) {ring1 : List Handle}
    (hring : ring_after_drop s.nbuffers s.first_client s.nclients d s.ring ring1) :
    SwitchingBundle.ready_frames
        { s with first_client := wrap s.nbuffers (s.first_client + s.nbuffers - d),
                 nready := s.nready - d, ring := ring1 }
      = s.ready_frames.take (s.nready - d).toNat := by
  rw [contiguous_iff_wrap hw] at hc
  obtain ⟨hc1, hc2⟩ := hc
  obtain ⟨hn1, hnl, hk0, hr0, hl0, hsum, ⟨hfc0, hfc1⟩, ⟨hfr0, hfr1⟩, ⟨hf0, hf1⟩⟩ := hw
  simp only [SwitchingBundle.ready_frames]
  rw [← List.map_take, List.take_range, Nat.min_eq_left (by omega)]
  apply List.map_congr_left
  intro t ht
  rw [List.mem_range] at ht
  have ht1 : (t : Int) < s.nready - d := by omega
  rw [emod_eq_wrap (by omega) (by omega)]
  apply hring.2.2.2
  clear hring
  unfold in_span wrap at *
  split_ifs at hc1 hc2 ⊢ <;> omega

/-- C4, as amended: `drop_frames` drops the newest ready frames first.  In a
state within bounds that satisfies the header equations and has at least two
ready frames, `drop_frames(d)` with `1 ≤ d < nready` returns `d`; afterwards the
ready region (the slots `(first_ready + i) mod nbuffers`, `i < nready - d`)
holds the previously ready handles with the `d` newest removed, in their
original order, and the next `compositor_acquire` returns the handle that was
the oldest ready one before the call. -/
theorem drop_frames_newest_first (s : SwitchingBundle) (d : Int) (hw : s.well_formed)
    (hc : s.contiguous) (_hn : 2 ≤ s.nready) (hd1 : 1 ≤ d) (hd2 : d < s.nready) :
    ∃ s1, s.drop_frames d = .ok (d, s1) ∧
      s1.nready = s.nready - d ∧ s1.first_ready = s.first_ready ∧
      s1.nbuffers = s.nbuffers ∧
      s1.ready_frames = s.ready_frames.take (s.nready - d).toNat ∧
      ∃ h s2, s.ready_frames.head? = some (some h) ∧
        s1.compositor_acquire = .returns h s2 := by
  obtain ⟨ring1, hdrop, hring⟩ := drop_frames_spec s hw d d (by omega)
    (by rw [if_neg (by omega)])
  have hw1 := well_formed_after_drop hw (by omega : 0 ≤ d) (by omega) hring.1
  have hfr := ready_frames_after_drop hw hc (by omega : 0 ≤ d) (by omega) hring
  obtain ⟨h, hh, hacq⟩ := compositor_acquire_spec _ hw1 (by show 0 < s.nready - d; omega)
  refine ⟨_, hdrop, rfl, rfl, rfl, hfr, h, _, ?_, hacq⟩
  have hfr0 := hw.2.2.2.2.2.2.2.1
  have hhead : s.ready_frames.head? = some (ring_at ring1 s.first_ready) := by
    have h1 : (SwitchingBundle.ready_frames
        { s with first_client := wrap s.nbuffers (s.first_client + s.nbuffers - d),
                 nready := s.nready - d, ring := ring1 }).head?
          = some (ring_at ring1 s.first_ready) := by
      simp only [SwitchingBundle.ready_frames, List.head?_map, List.head?_range]
      rw [if_neg (by omega)]
      simp only [Option.map_some', Nat.cast_zero, add_zero]
      rw [Int.emod_eq_of_lt hfr0.1 hfr0.2]
    rw [hfr] at h1
    rw [← h1, List.head?_take, if_neg (by omega)]
  rw [hhead]
  exact congrArg some hh

/-- C4, at the example bundle with the two ready frames 100 (older) and 101
(newer): `drop_frames(1)` keeps 100, which the compositor acquires next. -/
theorem drop_frames_newest_first_witness :
    example_two_ready.well_formed ∧ example_two_ready.contiguous ∧
      ∃ s1, example_two_ready.drop_frames 1 = .ok (1, s1) ∧
        s1.nready = example_two_ready.nready - 1 ∧
        s1.first_ready = example_two_ready.first_ready ∧
        s1.nbuffers = example_two_ready.nbuffers ∧
        s1.ready_frames = example_two_ready.ready_frames.take
          (example_two_ready.nready - 1).toNat ∧
        ∃ h s2, example_two_ready.ready_frames.head? = some (some h) ∧
          s1.compositor_acquire = .returns h s2 :=
  ⟨by decide, by decide,
    drop_frames_newest_first example_two_ready 1 (by decide) (by decide) (by decide)
      (by decide) (by decide)⟩

/-- C4 as stated fails: with the two ready frames 100 (older) and 101 (newer),
`drop_frames(1)` does not leave the ready frames with the oldest one removed
(that would be 101 alone); it leaves 100, discards 101, and the next
`compositor_acquire` returns 100, not the second oldest frame 101. -/
theorem drop_frames_oldest_first_counterexample :
    execute Call.holds_buffer
        [.client_acquire, .client_release 100, .client_acquire, .client_release 101]
        example_initial
      = some ([(.client_acquire, some 100), (.client_release 100, none),
               (.client_acquire, some 101), (.client_release 101, none)],
              example_two_ready) ∧
      example_two_ready.well_formed ∧ example_two_ready.contiguous ∧
      example_two_ready.ready_frames = [some 100, some 101] ∧
      example_two_ready.drop_frames 1 = .ok (1, example_one_dropped) ∧
      example_one_dropped.ready_frames = [some 100] ∧
      example_one_dropped.ready_frames ≠ example_two_ready.ready_frames.drop 1 ∧
      example_one_dropped.compositor_acquire
        = .returns 100 { example_one_dropped with
                           first_ready := 1, nready := 0, ncompositors := 1 } ∧
      example_two_ready.ready_frames[1]? = some (some 101) := by
  refine ⟨rfl, by decide, by decide, by decide, rfl, by decide, by decide, rfl, by decide⟩

/-- C5, as amended: the capacity bound under the blocking policy.  With
framedropping disabled and every buffer of the ring at the client
(`nclients = nbuffers`), a further `client_acquire` blocks.  After
`client_release` of the oldest client handle (`nclients = nbuffers - 1`,
`nready = 1`) the ring is still full, the wait condition of the blocked call is
still true and it goes on waiting, also after `compositor_acquire` has taken
the frame; once `compositor_release` has given the slot back the wait condition
is false, and the blocked call returns, with that same handle. -/
theorem blocking_capacity_bound (s : SwitchingBundle) (hw : s.well_formed)
    (hc : s.contiguous) (hpol : s.framedropping = false) (hfull : s.nclients = s.nbuffers) :
    s.client_acquire = .waits .client_full ∧
      ∃ b s1, ring_at s.ring s.first_client = some b ∧
        s.client_release b = .returns () s1 ∧
        s1.nclients = s.nbuffers - 1 ∧ s1.nready = 1 ∧
        s1.ncompositors + s1.nready + s1.nclients = s1.nbuffers ∧
        s1.resume .client_full = .waits .client_full ∧
        ∃ s2, s1.compositor_acquire = .returns b s2 ∧
          s2.resume .client_full = .waits .client_full ∧
          ∃ s3, s2.compositor_release b = .returns () s3 ∧
            s3.ncompositors + s3.nready + s3.nclients < s3.nbuffers ∧
            ∃ s4, s3.resume .client_full = .returns b s4 := by
  have hw0 := hw
  rw [contiguous_iff_wrap hw] at hc
  obtain ⟨hc1, hc2⟩ := hc
  obtain ⟨hn1, hnl, hk0, hr0, hl0, hsum, ⟨hfc0, hfc1⟩, ⟨hfr0, hfr1⟩, ⟨hf0, hf1⟩⟩ := hw
  have hk : s.ncompositors = 0 := by omega
  have hr : s.nready = 0 := by omega
  have hfr : s.first_ready = s.first_client := by
    rw [hr] at hc2; unfold wrap at hc2; split_ifs at hc2 <;> omega
  have hfc : s.first_compositor = s.first_client := by
    rw [hk] at hc1; unfold wrap at hc1; split_ifs at hc1 <;> omega
  obtain ⟨b, hb⟩ := ring_at_some s.ring hf0 (by omega)
  have hp := wrap_bounds (n := s.nbuffers) (x := s.first_client + 1) (by omega) (by omega)
  have h1 := client_release_spec s hw0 b
  rw [if_pos hb] at h1
  have hw1 : SwitchingBundle.well_formed
      { s with first_client := wrap s.nbuffers (s.first_client + 1),
               nclients := s.nclients - 1, nready := s.nready + 1 } := by
    simp only [SwitchingBundle.well_formed]; omega
  obtain ⟨b2, hb2, h2⟩ := compositor_acquire_spec _ hw1 (by show 0 < s.nready + 1; omega)
  simp only [] at hb2 h2
  rw [hfr, hb] at hb2
  injection hb2 with hb2
  subst hb2
  have hw2 : SwitchingBundle.well_formed
      { s with first_client := wrap s.nbuffers (s.first_client + 1),
               nclients := s.nclients - 1, nready := s.nready + 1 - 1,
               first_ready := wrap s.nbuffers (s.first_ready + 1),
               ncompositors := s.ncompositors + 1 } := by
    simp only [SwitchingBundle.well_formed]
    have := wrap_bounds (n := s.nbuffers) (x := s.first_ready + 1) (by omega) (by omega)
    omega
  have h3 := compositor_release_spec _ hw2 b
  simp only [] at h3
  rw [if_pos (by rw [hfc]; exact hb)] at h3
  have hw3 : SwitchingBundle.well_formed
      { s with first_client := wrap s.nbuffers (s.first_client + 1),
               nclients := s.nclients - 1, nready := s.nready + 1 - 1,
               first_ready := wrap s.nbuffers (s.first_ready + 1),
               ncompositors := s.ncompositors + 1 - 1,
               first_compositor := wrap s.nbuffers (s.first_compositor + 1) } := by
    simp only [SwitchingBundle.well_formed]
    have := wrap_bounds (n := s.nbuffers) (x := s.first_ready + 1) (by omega) (by omega)
    have := wrap_bounds (n := s.nbuffers) (x := s.first_compositor + 1) (by omega) (by omega)
    omega
  obtain ⟨b4, hb4, h4⟩ := client_acquire_take_spec _ hw3
  simp only [] at hb4 h4
  have hslot : wrap s.nbuffers (wrap s.nbuffers (s.first_client + 1) + (s.nclients - 1))
      = s.first_client := by
    unfold wrap; split_ifs <;> omega
  rw [hslot, hb] at hb4
  injection hb4 with hb4
  subst hb4
  refine ⟨?_, b, _, hb, h1, ?_, ?_, ?_, ?_, _, h2, ?_, _, h3, ?_, ?_⟩
  · unfold SwitchingBundle.client_acquire SwitchingBundle.client_acquire_block
    rw [if_neg (by simp [hpol]), if_pos (by omega)]
  · show s.nclients - 1 = s.nbuffers - 1
    omega
  · show s.nready + 1 = 1
    omega
  · show s.ncompositors + (s.nready + 1) + (s.nclients - 1) = s.nbuffers
    omega
  · show SwitchingBundle.client_acquire_block _ = _
    unfold SwitchingBundle.client_acquire_block
    rw [if_pos (by show s.ncompositors + (s.nready + 1) + (s.nclients - 1) ≥ s.nbuffers; omega)]
  · show SwitchingBundle.client_acquire_block _ = _
    unfold SwitchingBundle.client_acquire_block
    rw [if_pos (by
      show s.ncompositors + 1 + (s.nready + 1 - 1) + (s.nclients - 1) ≥ s.nbuffers; omega)]
  · show s.ncompositors + 1 - 1 + (s.nready + 1 - 1) + (s.nclients - 1) < s.nbuffers
    omega
  · refine ⟨?_, ?_⟩
    swap
    show SwitchingBundle.client_acquire_block _ = _
    unfold SwitchingBundle.client_acquire_block
    rw [if_neg (by
      show ¬ s.ncompositors + 1 - 1 + (s.nready + 1 - 1) + (s.nclients - 1) ≥ s.nbuffers
      omega)]
    exact h4

/-- C5, at the example bundle with both buffers at the client. -/
theorem blocking_capacity_bound_witness :
    example_full.well_formed ∧ example_full.contiguous ∧
      example_full.framedropping = false ∧ example_full.nclients = example_full.nbuffers ∧
      (example_full.client_acquire = .waits .client_full ∧
      ∃ b s1, ring_at example_full.ring example_full.first_client = some b ∧
        example_full.client_release b = .returns () s1 ∧
        s1.nclients = example_full.nbuffers - 1 ∧ s1.nready = 1 ∧
        s1.ncompositors + s1.nready + s1.nclients = s1.nbuffers ∧
        s1.resume .client_full = .waits .client_full ∧
        ∃ s2, s1.compositor_acquire = .returns b s2 ∧
          s2.resume .client_full = .waits .client_full ∧
          ∃ s3, s2.compositor_release b = .returns () s3 ∧
            s3.ncompositors + s3.nready + s3.nclients < s3.nbuffers ∧
            ∃ s4, s3.resume .client_full = .returns b s4) :=
  ⟨by decide, by decide, rfl, rfl,
    blocking_capacity_bound example_full (by decide) (by decide) rfl rfl⟩

/-- C5 as stated fails: with `nbuffers = 2`, dropping disabled and two buffers
acquired, the third `client_acquire` blocks; after `client_release` of the first
handle (`nclients = 1`, `nready = 1`) the three counts still add up to
`nbuffers`, so the woken call finds its wait condition true and blocks again. -/
theorem blocked_acquire_after_release_counterexample :
    execute Call.holds_buffer [.client_acquire, .client_acquire] example_initial
      = some ([(.client_acquire, some 100), (.client_acquire, some 101)], example_full) ∧
      example_full.framedropping = false ∧ example_full.nclients = example_full.nbuffers ∧
      example_full.client_acquire = .waits .client_full ∧
      example_full.client_release 100 = .returns () example_released ∧
      example_released.nclients = example_released.nbuffers - 1 ∧
      example_released.nready = 1 ∧
      example_released.resume .client_full = .waits .client_full := by
  refine ⟨rfl, rfl, rfl, rfl, rfl, by decide, rfl, rfl⟩

/-- C6 (`client_acquire` under the blocking policy).  In a state within bounds
with framedropping disabled or `nbuffers = 1`, `client_acquire` returns
without waiting exactly when `ncompositors + nready + nclients < nbuffers`, and
otherwise waits at line 117; when it returns, the handle is the one in slot
`(first_client + nclients) mod nbuffers`, `nclients` is one more, and nothing
else in the state has changed.  From the constructed state two calls in a row
both return and leave `nclients = 2`. -/
theorem blocking_client_acquire (s : SwitchingBundle) (hw : s.well_formed)
    (hpol : s.framedropping = false ∨ s.nbuffers = 1) :
    ((∃ h s1, s.client_acquire = .returns h s1) ↔
      s.ncompositors + s.nready + s.nclients < s.nbuffers) ∧
    (s.nbuffers ≤ s.ncompositors + s.nready + s.nclients →
      s.client_acquire = .waits .client_full) ∧
    (∀ h s1, s.client_acquire = .returns h s1 →
      ring_at s.ring ((s.first_client + s.nclients) % s.nbuffers) = some h ∧
      s1 = { s with nclients := s.nclients + 1 }) ∧
    (∀ (σ : Type) (MAX_BUFFERS : Nat) (alloc_buffer : σ → BufferProperties → Handle × σ)
      (gralloc gralloc1 : σ) (property_request : BufferProperties) (s0 : SwitchingBundle),
      SwitchingBundle.construct MAX_BUFFERS alloc_buffer gralloc property_request
        = .ok (s0, gralloc1) →
      ∃ h1 s1 h2 s2, s0.client_acquire = .returns h1 s1 ∧
        s1.client_acquire = .returns h2 s2 ∧ s2.nclients = 2) := by
  have hblock : ∀ t : SwitchingBundle, (t.framedropping = false ∨ t.nbuffers = 1) →
      t.client_acquire = t.client_acquire_block := by
    intro t ht
    unfold SwitchingBundle.client_acquire
    rw [if_neg]
    rintro ⟨h1, h2⟩
    rcases ht with ht | ht
    · rw [ht] at h1; cases h1
    · omega
  have hfree : ∀ t : SwitchingBundle, t.well_formed →
      (t.framedropping = false ∨ t.nbuffers = 1) →
      t.ncompositors + t.nready + t.nclients < t.nbuffers →
      ∃ h, ring_at t.ring ((t.first_client + t.nclients) % t.nbuffers) = some h ∧
        t.client_acquire = .returns h { t with nclients := t.nclients + 1 } := by
    intro t htw ht hlt
    obtain ⟨h, hh, heq⟩ := client_acquire_take_spec t htw
    refine ⟨h, ?_, ?_⟩
    · rw [emod_eq_wrap (by have := htw.2.2.2.2.1; have := htw.2.2.2.2.2.2.2.2.1; omega)
        (by have := htw.2.2.2.2.2.1; have := htw.2.2.2.1; have := htw.2.2.1
            have := htw.2.2.2.2.2.2.2.2.2; omega)]
      exact hh
    · rw [hblock t ht]
      unfold SwitchingBundle.client_acquire_block
      rw [if_neg (by omega)]
      exact heq
  have hfull : s.nbuffers ≤ s.ncompositors + s.nready + s.nclients →
      s.client_acquire = .waits .client_full := by
    intro hge
    rw [hblock s hpol]
    unfold SwitchingBundle.client_acquire_block
    rw [if_pos (by omega)]
  refine ⟨⟨?_, ?_⟩, hfull, ?_, ?_⟩
  · rintro ⟨h, s1, hret⟩
    by_contra hge
    rw [hfull (by omega)] at hret
    cases hret
  · intro hlt
    obtain ⟨h, -, heq⟩ := hfree s hw hpol hlt
    exact ⟨h, _, heq⟩
  · intro h s1 hret
    by_cases hlt : s.ncompositors + s.nready + s.nclients < s.nbuffers
    · obtain ⟨h2, hh, heq⟩ := hfree s hw hpol hlt
      rw [heq] at hret
      injection hret with e1 e2
      subst e1 e2
      exact ⟨hh, rfl⟩
    · rw [hfull (by omega)] at hret
      cases hret
  · intro σ M alloc_buffer g g1 p s0 hnew
    obtain ⟨hw0, -, hn, hk, hr, hl, -, -, -, hflag⟩ := construct_invariant hnew
    obtain ⟨h1, -, heq1⟩ := hfree s0 hw0 (Or.inl hflag) (by omega)
    have hw1 : SwitchingBundle.well_formed { s0 with nclients := s0.nclients + 1 } := by
      obtain ⟨a1, a2, a3, a4, a5, a6, a7, a8, a9⟩ := hw0
      simp only [SwitchingBundle.well_formed]
      omega
    obtain ⟨h2, -, heq2⟩ := hfree _ hw1 (Or.inl hflag)
      (by show s0.ncompositors + s0.nready + (s0.nclients + 1) < s0.nbuffers; omega)
    refine ⟨h1, _, h2, _, heq1, heq2, ?_⟩
    show s0.nclients + 1 + 1 = 2
    omega

/-- C6, at the constructed example bundle. -/
theorem blocking_client_acquire_witness :
    example_initial.well_formed ∧
      (example_initial.framedropping = false ∨ example_initial.nbuffers = 1) ∧
      (((∃ h s1, example_initial.client_acquire = .returns h s1) ↔
        example_initial.ncompositors + example_initial.nready + example_initial.nclients
          < example_initial.nbuffers) ∧
      (example_initial.nbuffers
          ≤ example_initial.ncompositors + example_initial.nready + example_initial.nclients →
        example_initial.client_acquire = .waits .client_full) ∧
      (∀ h s1, example_initial.client_acquire = .returns h s1 →
        ring_at example_initial.ring
            ((example_initial.first_client + example_initial.nclients)
              % example_initial.nbuffers) = some h ∧
        s1 = { example_initial with nclients := example_initial.nclients + 1 }) ∧
      (∀ (σ : Type) (MAX_BUFFERS : Nat) (alloc_buffer : σ → BufferProperties → Handle × σ)
        (gralloc gralloc1 : σ) (property_request : BufferProperties) (s0 : SwitchingBundle),
        SwitchingBundle.construct MAX_BUFFERS alloc_buffer gralloc property_request
          = .ok (s0, gralloc1) →
        ∃ h1 s1 h2 s2, s0.client_acquire = .returns h1 s1 ∧
          s1.client_acquire = .returns h2 s2 ∧ s2.nclients = 2)) :=
  ⟨by decide, Or.inl rfl, blocking_client_acquire example_initial (by decide) (Or.inl rfl)⟩

/-- C7 (the dropping policy does not block when a ready frame exists).  In a
state within bounds with framedropping enabled, `nbuffers > 1` and a ready
frame, `client_acquire` returns without waiting; if the ring was full it has
consumed exactly one ready frame: `nready` is one less, `nclients` one more,
`ncompositors` unchanged, and the three counts again add up to `nbuffers`. -/
theorem dropping_client_acquire (s : SwitchingBundle) (hw : s.well_formed)
    (hflag : s.framedropping = true) (hnb : 1 < s.nbuffers) (hr : 0 < s.nready) :
    ∃ h s1, s.client_acquire = .returns h s1 ∧
      (s.ncompositors + s.nready + s.nclients = s.nbuffers →
        s1.nready = s.nready - 1 ∧ s1.nclients = s.nclients + 1 ∧
        s1.ncompositors = s.ncompositors ∧ s1.nbuffers = s.nbuffers ∧
        s1.ncompositors + s1.nready + s1.nclients = s1.nbuffers) := by
  by_cases hfull : s.ncompositors + s.nready + s.nclients ≥ s.nbuffers
  · obtain ⟨h, ring1, -, heq, -⟩ := client_acquire_drop_spec s hw hr
    have hcall : s.client_acquire = s.client_acquire_drop := by
      unfold SwitchingBundle.client_acquire
      rw [if_pos ⟨hflag, by omega⟩, if_pos hfull]
    rw [heq] at hcall
    refine ⟨h, _, hcall, ?_⟩
    intro hsum
    refine ⟨rfl, rfl, rfl, rfl, ?_⟩
    show s.ncompositors + (s.nready - 1) + (s.nclients + 1) = s.nbuffers
    omega
  · obtain ⟨h, -, heq⟩ := client_acquire_take_spec s hw
    have hcall : s.client_acquire = s.client_acquire_take := by
      unfold SwitchingBundle.client_acquire
      rw [if_pos ⟨hflag, by omega⟩, if_neg hfull]
    rw [heq] at hcall
    refine ⟨h, _, hcall, ?_⟩
    intro hsum
    omega

/-- C7, at the example bundle with dropping enabled, buffer 100 ready and
buffer 101 at the client. -/
theorem dropping_client_acquire_witness :
    example_dropping.well_formed ∧ example_dropping.framedropping = true ∧
      1 < example_dropping.nbuffers ∧ 0 < example_dropping.nready ∧
      ∃ h s1, example_dropping.client_acquire = .returns h s1 ∧
        (example_dropping.ncompositors + example_dropping.nready + example_dropping.nclients
            = example_dropping.nbuffers →
          s1.nready = example_dropping.nready - 1 ∧
          s1.nclients = example_dropping.nclients + 1 ∧
          s1.ncompositors = example_dropping.ncompositors ∧
          s1.nbuffers = example_dropping.nbuffers ∧
          s1.ncompositors + s1.nready + s1.nclients = s1.nbuffers) :=
  ⟨by decide, rfl, by decide, by decide,
    dropping_client_acquire example_dropping (by decide) rfl (by decide) (by decide)⟩

/-- C8, the code at the failing input.  From the constructed example bundle,
with dropping enabled, the compositor comes to hold both buffers; the ring is
full and nothing is ready, and `client_acquire` blocks at line 109.  After
`compositor_release(100)` there is a free slot
(`ncompositors + nready + nclients = 1 < 2`), a fresh `client_acquire` would
return it at once, but the blocked call, woken, tests only `nready == 0` and
blocks again. -/
theorem dropping_acquire_ignores_free_slot :
    execute Call.holds_buffer
        [.allow_framedropping true, .client_acquire, .client_release 100,
         .compositor_acquire, .client_acquire, .client_release 101, .compositor_acquire]
        example_initial
      = some ([(.allow_framedropping true, none), (.client_acquire, some 100),
               (.client_release 100, none), (.compositor_acquire, some 100),
               (.client_acquire, some 101), (.client_release 101, none),
               (.compositor_acquire, some 101)],
              example_all_composited) ∧
      example_all_composited.client_acquire = .waits .client_nready ∧
      example_all_composited.compositor_release 100 = .returns () example_slot_freed ∧
      example_slot_freed.ncompositors + example_slot_freed.nready + example_slot_freed.nclients
        < example_slot_freed.nbuffers ∧
      example_slot_freed.resume .client_nready = .waits .client_nready ∧
      example_slot_freed.client_acquire
        = .returns 100 { example_slot_freed with nclients := 1 } := by
  refine ⟨rfl, rfl, rfl, by decide, rfl, rfl⟩

/-- C9 (under the dropping policy a ring that is not full behaves as under the
blocking policy).  In a state within bounds with
`ncompositors + nready + nclients < nbuffers`, `client_acquire` with
framedropping enabled and `client_acquire` with framedropping disabled both
return without waiting, return the same handle (the one in slot
`(first_client + nclients) mod nbuffers`) and leave the same state apart from
the flag: `nclients` one more, `nready` and everything else unchanged. -/
theorem dropping_equals_blocking_when_not_full (s : SwitchingBundle) (hw : s.well_formed)
    (hfree : s.ncompositors + s.nready + s.nclients < s.nbuffers) :
    ∃ h, ring_at s.ring ((s.first_client + s.nclients) % s.nbuffers) = some h ∧
      SwitchingBundle.client_acquire { s with framedropping := true }
        = .returns h { s with framedropping := true, nclients := s.nclients + 1 } ∧
      SwitchingBundle.client_acquire { s with framedropping := false }
        = .returns h { s with framedropping := false, nclients := s.nclients + 1 } := by
  obtain ⟨hn1, hnl, hc0, hr0, hk0, hsum, hfc, hfr, ⟨hf0, hf1⟩⟩ := hw
  have hwt : ∀ b : Bool, SwitchingBundle.well_formed { s with framedropping := b } :=
    fun _ => ⟨hn1, hnl, hc0, hr0, hk0, hsum, hfc, hfr, ⟨hf0, hf1⟩⟩
  obtain ⟨h1, hh1, heq1⟩ := client_acquire_take_spec _ (hwt true)
  obtain ⟨h2, hh2, heq2⟩ := client_acquire_take_spec _ (hwt false)
  simp only [] at hh1 hh2 heq1 heq2
  rw [hh1] at hh2
  injection hh2 with hh2
  subst hh2
  refine ⟨h1, ?_, ?_, ?_⟩
  · rw [emod_eq_wrap (by omega) (by omega)]
    exact hh1
  · unfold SwitchingBundle.client_acquire
    simp only []
    split_ifs with h3 h4
    · omega
    · exact heq1
    · unfold SwitchingBundle.client_acquire_block
      simp only []
      rw [if_neg (by omega)]
      exact heq1
  · unfold SwitchingBundle.client_acquire
    simp only []
    rw [if_neg (by simp)]
    unfold SwitchingBundle.client_acquire_block
    simp only []
    rw [if_neg (by omega)]
    exact heq2

/-- C9, at the constructed example bundle. -/
theorem dropping_equals_blocking_when_not_full_witness :
    example_initial.well_formed ∧
      example_initial.ncompositors + example_initial.nready + example_initial.nclients
        < example_initial.nbuffers ∧
      ∃ h, ring_at example_initial.ring
          ((example_initial.first_client + example_initial.nclients)
            % example_initial.nbuffers) = some h ∧
        SwitchingBundle.client_acquire { example_initial with framedropping := true }
          = .returns h { example_initial with
                           framedropping := true,
                           nclients := example_initial.nclients + 1 } ∧
        SwitchingBundle.client_acquire { example_initial with framedropping := false }
          = .returns h { example_initial with
                           framedropping := false,
                           nclients := example_initial.nclients + 1 } :=
  ⟨by decide, by decide,
    dropping_equals_blocking_when_not_full example_initial (by decide) (by decide)⟩

/-- C10 (`nbuffers = 1` disables dropping).  In a state with `nbuffers = 1`,
`client_acquire` with framedropping enabled does exactly what `client_acquire`
with framedropping disabled does, flag apart: it waits at line 117 when the
single slot is taken, and otherwise returns the same handle and leaves the same
state; it never enters the dropping branch, and when it returns `nready` and
the ring are unchanged. -/
theorem single_buffer_disables_dropping (s : SwitchingBundle) (hw : s.well_formed)
    (hone : s.nbuffers = 1) :
    SwitchingBundle.client_acquire { s with framedropping := true }
        = (SwitchingBundle.client_acquire { s with framedropping := false }).with_framedropping
            true ∧
      (1 ≤ s.ncompositors + s.nready + s.nclients →
        SwitchingBundle.client_acquire { s with framedropping := true }
          = .waits .client_full) ∧
      (s.ncompositors + s.nready + s.nclients < 1 →
        ∃ h, SwitchingBundle.client_acquire { s with framedropping := true }
          = .returns h { s with framedropping := true, nclients := s.nclients + 1 }) ∧
      ∀ h s1, SwitchingBundle.client_acquire { s with framedropping := true }
          = .returns h s1 → s1.nready = s.nready ∧ s1.ring = s.ring := by
  have hcall : SwitchingBundle.client_acquire { s with framedropping := true }
      = SwitchingBundle.client_acquire_block { s with framedropping := true } := by
    unfold SwitchingBundle.client_acquire
    simp only []
    rw [if_neg (by omega)]
  have hwt : SwitchingBundle.well_formed { s with framedropping := true } := hw
  refine ⟨?_, ?_, ?_, ?_⟩
  · rw [hcall]
    unfold SwitchingBundle.client_acquire
    simp only []
    rw [if_neg (by simp)]
    unfold SwitchingBundle.client_acquire_block
    simp only []
    split_ifs
    · rfl
    · unfold SwitchingBundle.client_acquire_take
      simp only []
      cases cmod (s.first_client + s.nclients) s.nbuffers with
      | error a => rfl
      | ok client =>
        simp only []
        cases ring_get s.ring client with
        | error a => rfl
        | ok h => rfl
  · intro hfull
    rw [hcall]
    unfold SwitchingBundle.client_acquire_block
    simp only []
    rw [if_pos (by omega)]
  · intro hfree
    obtain ⟨h, -, heq⟩ := client_acquire_take_spec _ hwt
    refine ⟨h, ?_⟩
    rw [hcall]
    unfold SwitchingBundle.client_acquire_block
    simp only []
    rw [if_neg (by omega)]
    exact heq
  · intro h s1 hret
    rw [hcall] at hret
    unfold SwitchingBundle.client_acquire_block at hret
    split_ifs at hret
    rw [client_acquire_take_state hret]
    exact ⟨rfl, rfl⟩

/-- C10, at a bundle with a single active buffer that is ready: with dropping
enabled the call waits, it does not drop the ready frame. -/
theorem single_buffer_disables_dropping_witness :
    example_single.well_formed ∧ example_single.nbuffers = 1 ∧
      (SwitchingBundle.client_acquire { example_single with framedropping := true }
        = (SwitchingBundle.client_acquire
            { example_single with framedropping := false }).with_framedropping true ∧
      (1 ≤ example_single.ncompositors + example_single.nready + example_single.nclients →
        SwitchingBundle.client_acquire { example_single with framedropping := true }
          = .waits .client_full) ∧
      (example_single.ncompositors + example_single.nready + example_single.nclients < 1 →
        ∃ h, SwitchingBundle.client_acquire { example_single with framedropping := true }
          = .returns h { example_single with
                           framedropping := true,
                           nclients := example_single.nclients + 1 }) ∧
      ∀ h s1, SwitchingBundle.client_acquire { example_single with framedropping := true }
          = .returns h s1 → s1.nready = example_single.nready ∧ s1.ring = example_single.ring) :=
  ⟨by decide, rfl, single_buffer_disables_dropping example_single (by decide) rfl⟩

/-- C11 (`drop_frames` count).  In a state within bounds, for `max ≥ 0`,
`drop_frames(max)` returns `min(max, nready)`, makes `nready` that much
smaller, moves `first_client` back by that amount modulo `nbuffers`, and leaves
`nclients`, `ncompositors`, `first_compositor`, `first_ready`, `nbuffers` and
the policy flag unchanged. -/
theorem drop_frames_count (s : SwitchingBundle) (max : Int) (hw : s.well_formed)
    (hmax : 0 ≤ max) :
    ∃ s1, s.drop_frames max = .ok (min max s.nready, s1) ∧
      s1.nready = s.nready - min max s.nready ∧
      s1.first_client = (s.first_client - min max s.nready) % s.nbuffers ∧
      s1.nclients = s.nclients ∧ s1.ncompositors = s.ncompositors ∧
      s1.first_compositor = s.first_compositor ∧ s1.first_ready = s.first_ready ∧
      s1.nbuffers = s.nbuffers ∧ s1.framedropping = s.framedropping := by
  have hd : min max s.nready = if max > s.nready then s.nready else max := by
    split_ifs <;> omega
  obtain ⟨ring1, hdrop, -⟩ := drop_frames_spec s hw max _ hmax hd
  refine ⟨_, hdrop, rfl, ?_, rfl, rfl, rfl, rfl, rfl, rfl⟩
  obtain ⟨hn1, hnl, hc0, hr0, hk0, hsum, hfc, hfr, ⟨hf0, hf1⟩⟩ := hw
  show wrap s.nbuffers (s.first_client + s.nbuffers - min max s.nready)
    = (s.first_client - min max s.nready) % s.nbuffers
  rw [emod_small (by omega) (by omega)]
  unfold wrap
  split_ifs <;> omega

/-- C11, at the example bundle with two ready frames and `max = 1`. -/
theorem drop_frames_count_witness :
    example_two_ready.well_formed ∧ (0 : Int) ≤ 1 ∧
      ∃ s1, example_two_ready.drop_frames 1 = .ok (min 1 example_two_ready.nready, s1) ∧
        s1.nready = example_two_ready.nready - min 1 example_two_ready.nready ∧
        s1.first_client
          = (example_two_ready.first_client - min 1 example_two_ready.nready)
              % example_two_ready.nbuffers ∧
        s1.nclients = example_two_ready.nclients ∧
        s1.ncompositors = example_two_ready.ncompositors ∧
        s1.first_compositor = example_two_ready.first_compositor ∧
        s1.first_ready = example_two_ready.first_ready ∧
        s1.nbuffers = example_two_ready.nbuffers ∧
        s1.framedropping = example_two_ready.framedropping :=
  ⟨by decide, by decide, drop_frames_count example_two_ready 1 (by decide) (by decide)⟩

/-- C12 (`client_release`).  In a state within bounds in which the client holds
a buffer, `client_release(h)` returns exactly when `h` is the handle in slot
`first_client`; it then sets `first_client` to `(first_client + 1) mod nbuffers`,
makes `nclients` one less and `nready` one more and changes nothing else; for
any other handle the assertion of line 130 fails, which is before any assignment. -/
theorem client_release_contract (s : SwitchingBundle) (h : Handle) (hw : s.well_formed)
    (_hn : 0 < s.nclients) :
    ((∃ s1, s.client_release h = .returns () s1) ↔
      ring_at s.ring s.first_client = some h) ∧
    (ring_at s.ring s.first_client = some h →
      s.client_release h =
        .returns () { s with first_client := (s.first_client + 1) % s.nbuffers,
                             nclients := s.nclients - 1, nready := s.nready + 1 }) ∧
    (ring_at s.ring s.first_client ≠ some h →
      s.client_release h = .aborts .assertion) := by
  have hspec := client_release_spec s hw h
  obtain ⟨hn1, hnl, hc0, hr0, hk0, hsum, hfc, hfr, ⟨hf0, hf1⟩⟩ := hw
  rw [emod_eq_wrap (by omega) (by omega)]
  refine ⟨⟨?_, ?_⟩, ?_, ?_⟩
  · rintro ⟨s1, hret⟩
    by_contra hne
    rw [hspec, if_neg hne] at hret
    cases hret
  · intro hh
    rw [hspec, if_pos hh]
    exact ⟨_, rfl⟩
  · intro hh
    rw [hspec, if_pos hh]
  · intro hne
    rw [hspec, if_neg hne]

/-- C12, at the example bundle with buffer 101 at the client. -/
theorem client_release_contract_witness :
    example_busy.well_formed ∧ 0 < example_busy.nclients ∧
    (((∃ s1, example_busy.client_release 101 = .returns () s1) ↔
      ring_at example_busy.ring example_busy.first_client = some 101) ∧
    (ring_at example_busy.ring example_busy.first_client = some 101 →
      example_busy.client_release 101 =
        .returns () { example_busy with
                        first_client := (example_busy.first_client + 1) % example_busy.nbuffers,
                        nclients := example_busy.nclients - 1,
                        nready := example_busy.nready + 1 }) ∧
    (ring_at example_busy.ring example_busy.first_client ≠ some 101 →
      example_busy.client_release 101 = .aborts .assertion)) :=
  ⟨by decide, by decide, client_release_contract example_busy 101 (by decide) (by decide)⟩

/-- C14 (`compositor_acquire`).  In a state within bounds `compositor_acquire`
returns without waiting exactly when `nready > 0`, and otherwise waits at line
142; when it returns, the handle is the one in slot `first_ready`, `first_ready`
is `(first_ready + 1) mod nbuffers`, `nready` is one less, `ncompositors` one
more, and nothing else has changed. -/
theorem compositor_acquire_contract (s : SwitchingBundle) (hw : s.well_formed) :
    ((∃ h s1, s.compositor_acquire = .returns h s1) ↔ 0 < s.nready) ∧
    (s.nready ≤ 0 → s.compositor_acquire = .waits .compositor_nready) ∧
    (∀ h s1, s.compositor_acquire = .returns h s1 →
      ring_at s.ring s.first_ready = some h ∧
      s1 = { s with first_ready := (s.first_ready + 1) % s.nbuffers,
                    nready := s.nready - 1, ncompositors := s.ncompositors + 1 }) := by
  have hwait : s.nready ≤ 0 → s.compositor_acquire = .waits .compositor_nready := by
    intro hr
    unfold SwitchingBundle.compositor_acquire
    rw [if_pos hr]
  have hfr := hw.2.2.2.2.2.2.2.1
  have hn1 := hw.1
  refine ⟨⟨?_, ?_⟩, hwait, ?_⟩
  · rintro ⟨h, s1, hret⟩
    exact (compositor_acquire_returns hw hret).1
  · intro hr
    obtain ⟨h, -, heq⟩ := compositor_acquire_spec s hw hr
    exact ⟨h, _, heq⟩
  · intro h s1 hret
    rw [emod_eq_wrap (by omega) (by omega)]
    exact (compositor_acquire_returns hw hret).2

/-- C14, at the example bundle with buffer 100 ready. -/
theorem compositor_acquire_contract_witness :
    example_released.well_formed ∧
    (((∃ h s1, example_released.compositor_acquire = .returns h s1) ↔
      0 < example_released.nready) ∧
    (example_released.nready ≤ 0 →
      example_released.compositor_acquire = .waits .compositor_nready) ∧
    (∀ h s1, example_released.compositor_acquire = .returns h s1 →
      ring_at example_released.ring example_released.first_ready = some h ∧
      s1 = { example_released with
               first_ready := (example_released.first_ready + 1) % example_released.nbuffers,
               nready := example_released.nready - 1,
               ncompositors := example_released.ncompositors + 1 })) :=
  ⟨by decide, compositor_acquire_contract example_released (by decide)⟩

/-- C15 (`compositor_release`).  In a state within bounds in which the
compositor holds a buffer, `compositor_release(h)` returns exactly when `h` is
the handle in slot `first_compositor`; it then sets `first_compositor` to
`(first_compositor + 1) mod nbuffers`, makes `ncompositors` one less (the slot is
free again) and changes nothing else; for any other handle the assertion of
line 156 fails, which is before any assignment. -/
theorem compositor_release_contract (s : SwitchingBundle) (h : Handle) (hw : s.well_formed)
    (_hn : 0 < s.ncompositors) :
    ((∃ s1, s.compositor_release h = .returns () s1) ↔
      ring_at s.ring s.first_compositor = some h) ∧
    (ring_at s.ring s.first_compositor = some h →
      s.compositor_release h =
        .returns () { s with first_compositor := (s.first_compositor + 1) % s.nbuffers,
                             ncompositors := s.ncompositors - 1 }) ∧
    (ring_at s.ring s.first_compositor ≠ some h →
      s.compositor_release h = .aborts .assertion) := by
  have hspec := compositor_release_spec s hw h
  obtain ⟨hn1, hnl, hc0, hr0, hk0, hsum, ⟨hf0, hf1⟩, hfr, hfc⟩ := hw
  rw [emod_eq_wrap (by omega) (by omega)]
  refine ⟨⟨?_, ?_⟩, ?_, ?_⟩
  · rintro ⟨s1, hret⟩
    by_contra hne
    rw [hspec, if_neg hne] at hret
    cases hret
  · intro hh
    rw [hspec, if_pos hh]
    exact ⟨_, rfl⟩
  · intro hh
    rw [hspec, if_pos hh]
  · intro hne
    rw [hspec, if_neg hne]

/-- C15, at the example bundle with buffer 100 at the compositor. -/
theorem compositor_release_contract_witness :
    example_busy.well_formed ∧ 0 < example_busy.ncompositors ∧
    (((∃ s1, example_busy.compositor_release 100 = .returns () s1) ↔
      ring_at example_busy.ring example_busy.first_compositor = some 100) ∧
    (ring_at example_busy.ring example_busy.first_compositor = some 100 →
      example_busy.compositor_release 100 =
        .returns () { example_busy with
                        first_compositor :=
                          (example_busy.first_compositor + 1) % example_busy.nbuffers,
                        ncompositors := example_busy.ncompositors - 1 }) ∧
    (ring_at example_busy.ring example_busy.first_compositor ≠ some 100 →
      example_busy.compositor_release 100 = .aborts .assertion)) :=
  ⟨by decide, by decide, compositor_release_contract example_busy 100 (by decide) (by decide)⟩

/-- C16 (drain).  In a state within bounds that satisfies the header equations,
with `nready = k`, `force_requests_to_complete` returns without waiting and
leaves the state that `drop_frames(nready)` leaves; in it `nready = 0`,
`first_client = first_ready`, `nclients` and `ncompositors` are unchanged, and
the number of free slots `nbuffers - (ncompositors + nready + nclients)` is `k`
more than before. -/
theorem drain_correct (s : SwitchingBundle) (hw : s.well_formed) (hc : s.contiguous) :
    ∃ s1, s.force_requests_to_complete = .returns () s1 ∧
      s.drop_frames s.nready = .ok (s.nready, s1) ∧
      s1.nready = 0 ∧ s1.first_client = s1.first_ready ∧
      s1.nclients = s.nclients ∧ s1.ncompositors = s.ncompositors ∧
      s1.nbuffers - (s1.ncompositors + s1.nready + s1.nclients)
        = s.nbuffers - (s.ncompositors + s.nready + s.nclients) + s.nready := by
  have hr0 : 0 ≤ s.nready := hw.2.2.2.1
  obtain ⟨ring1, hdrop, hring⟩ := drop_frames_spec s hw s.nready s.nready hr0
    (by rw [if_neg (by omega)])
  have hc1 := contiguous_after_drop hw hc hr0 (le_refl _) hring.1
  have hfr := hw.2.2.2.2.2.2.2.1
  refine ⟨_, ?_, hdrop, ?_, ?_, rfl, rfl, ?_⟩
  · unfold SwitchingBundle.force_requests_to_complete
    rw [hdrop]
  · show s.nready - s.nready = 0
    omega
  · have h2 := hc1.2
    simp only [] at h2
    rw [← h2, sub_self, add_zero, Int.emod_eq_of_lt hfr.1 hfr.2]
  · show s.nbuffers - (s.ncompositors + (s.nready - s.nready) + s.nclients) = _
    omega

/-- C16, at the example bundle with two ready frames. -/
theorem drain_correct_witness :
    example_two_ready.well_formed ∧ example_two_ready.contiguous ∧
      ∃ s1, example_two_ready.force_requests_to_complete = .returns () s1 ∧
        example_two_ready.drop_frames example_two_ready.nready
          = .ok (example_two_ready.nready, s1) ∧
        s1.nready = 0 ∧ s1.first_client = s1.first_ready ∧
        s1.nclients = example_two_ready.nclients ∧
        s1.ncompositors = example_two_ready.ncompositors ∧
        s1.nbuffers - (s1.ncompositors + s1.nready + s1.nclients)
          = example_two_ready.nbuffers
              - (example_two_ready.ncompositors + example_two_ready.nready
                  + example_two_ready.nclients)
            + example_two_ready.nready :=
  ⟨by decide, by decide, drain_correct example_two_ready (by decide) (by decide)⟩

/-- What the releases do on a side that holds no buffer (the behaviour behind
C13): a release is checked against the handle only.  In a state
within bounds, `client_release(h)` with `nclients = 0` fails for every handle
other than the one in slot `first_client` and returns for that one, leaving
`nclients = -1`; `compositor_release(h)` with `ncompositors = 0` fails for every
handle other than the one in slot `first_compositor` and returns for that one,
leaving `ncompositors = -1`.  A release that returns leaves the count of its
side non-negative when that side held a buffer. -/
theorem release_checks_handle_only (s : SwitchingBundle) (h : Handle) (hw : s.well_formed) :
    (s.nclients = 0 →
      (ring_at s.ring s.first_client ≠ some h → s.client_release h = .aborts .assertion) ∧
      (ring_at s.ring s.first_client = some h →
        ∃ s1, s.client_release h = .returns () s1 ∧ s1.nclients = -1)) ∧
    (s.ncompositors = 0 →
      (ring_at s.ring s.first_compositor ≠ some h →
        s.compositor_release h = .aborts .assertion) ∧
      (ring_at s.ring s.first_compositor = some h →
        ∃ s1, s.compositor_release h = .returns () s1 ∧ s1.ncompositors = -1)) ∧
    (0 < s.nclients → ∀ s1, s.client_release h = .returns () s1 → 0 ≤ s1.nclients) ∧
    (0 < s.ncompositors →
      ∀ s1, s.compositor_release h = .returns () s1 → 0 ≤ s1.ncompositors) := by
  have h1 := client_release_spec s hw h
  have h2 := compositor_release_spec s hw h
  refine ⟨?_, ?_, ?_, ?_⟩
  · intro hz
    refine ⟨fun hne => by rw [h1, if_neg hne], fun hh => ?_⟩
    rw [h1, if_pos hh]
    refine ⟨_, rfl, ?_⟩
    show s.nclients - 1 = -1
    omega
  · intro hz
    refine ⟨fun hne => by rw [h2, if_neg hne], fun hh => ?_⟩
    rw [h2, if_pos hh]
    refine ⟨_, rfl, ?_⟩
    show s.ncompositors - 1 = -1
    omega
  · intro hpos s1 hret
    obtain ⟨-, rfl⟩ := client_release_returns hw hret
    show 0 ≤ s.nclients - 1
    omega
  · intro hpos s1 hret
    obtain ⟨-, rfl⟩ := compositor_release_returns hw hret
    show 0 ≤ s.ncompositors - 1
    omega

/-- The releases at the constructed example bundle, where neither side holds a buffer. -/
theorem release_checks_handle_only_witness :
    example_initial.well_formed ∧
    ((example_initial.nclients = 0 →
      (ring_at example_initial.ring example_initial.first_client ≠ some 100 →
        example_initial.client_release 100 = .aborts .assertion) ∧
      (ring_at example_initial.ring example_initial.first_client = some 100 →
        ∃ s1, example_initial.client_release 100 = .returns () s1 ∧ s1.nclients = -1)) ∧
    (example_initial.ncompositors = 0 →
      (ring_at example_initial.ring example_initial.first_compositor ≠ some 100 →
        example_initial.compositor_release 100 = .aborts .assertion) ∧
      (ring_at example_initial.ring example_initial.first_compositor = some 100 →
        ∃ s1, example_initial.compositor_release 100 = .returns () s1 ∧
          s1.ncompositors = -1)) ∧
    (0 < example_initial.nclients →
      ∀ s1, example_initial.client_release 100 = .returns () s1 → 0 ≤ s1.nclients) ∧
    (0 < example_initial.ncompositors →
      ∀ s1, example_initial.compositor_release 100 = .returns () s1 →
        0 ≤ s1.ncompositors)) :=
  ⟨by decide, release_checks_handle_only example_initial 100 (by decide)⟩

/-- C13, the code at the failing input.  After two complete round trips (buffers
100 and 101) the example bundle is in its constructed state again and neither
side holds a buffer.  A second `client_release(100)` passes the assertion of
line 130, because 100 is the handle in slot `first_client`, and leaves
`nclients = -1`; a second `compositor_release(100)` passes the assertion of line
156 and leaves `ncompositors = -1`. -/
theorem release_without_buffer_accepted :
    execute Call.holds_buffer
        [.client_acquire, .client_release 100, .compositor_acquire, .compositor_release 100,
         .client_acquire, .client_release 101, .compositor_acquire, .compositor_release 101]
        example_initial
      = some ([(.client_acquire, some 100), (.client_release 100, none),
               (.compositor_acquire, some 100), (.compositor_release 100, none),
               (.client_acquire, some 101), (.client_release 101, none),
               (.compositor_acquire, some 101), (.compositor_release 101, none)],
              example_initial) ∧
      example_initial.well_formed ∧ example_initial.contiguous ∧
      example_initial.nclients = 0 ∧ example_initial.ncompositors = 0 ∧
      example_initial.client_release 100
        = .returns () { example_initial with
                          first_client := 1, nclients := -1, nready := 1 } ∧
      example_initial.compositor_release 100
        = .returns () { example_initial with first_compositor := 1, ncompositors := -1 } := by
  refine ⟨rfl, by decide, by decide, rfl, rfl, rfl, rfl⟩

/-- C17, as amended: what `force_requests_to_complete` does for blocked
threads.  In a state within bounds it returns without waiting and leaves
`nready = 0`.  In the state it leaves, a thread blocked in `client_acquire` on a
full ring (line 117) finds its wait condition false, and returns, exactly when
`ncompositors + nclients < nbuffers`, so in particular whenever there was a
ready frame before the call; the wait condition `nready <= 0` of
`compositor_acquire` is true, so a thread blocked there goes on waiting. -/
theorem force_requests_unblocks_client_only (s : SwitchingBundle) (hw : s.well_formed) :
    ∃ s1, s.force_requests_to_complete = .returns () s1 ∧ s1.nready = 0 ∧
      ((∃ h s2, s1.resume .client_full = .returns h s2) ↔
        s.ncompositors + s.nclients < s.nbuffers) ∧
      (s.nbuffers ≤ s.ncompositors + s.nclients →
        s1.resume .client_full = .waits .client_full) ∧
      (0 < s.nready → ∃ h s2, s1.resume .client_full = .returns h s2) ∧
      s1.compositor_acquire = .waits .compositor_nready := by
  obtain ⟨ring1, hring, heq⟩ := force_requests_to_complete_spec s hw
  have hr0 : 0 ≤ s.nready := hw.2.2.2.1
  have hsum := hw.2.2.2.2.2.1
  have hw1 := well_formed_after_drop hw hr0 (le_refl _) hring.1
  have hfull : s.nbuffers ≤ s.ncompositors + s.nclients →
      SwitchingBundle.resume
        { s with first_client := wrap s.nbuffers (s.first_client + s.nbuffers - s.nready),
                 nready := s.nready - s.nready, ring := ring1 } .client_full
        = .waits .client_full := by
    intro hge
    show SwitchingBundle.client_acquire_block _ = _
    unfold SwitchingBundle.client_acquire_block
    rw [if_pos (by show s.ncompositors + (s.nready - s.nready) + s.nclients ≥ s.nbuffers; omega)]
  have hfree : s.ncompositors + s.nclients < s.nbuffers →
      ∃ h s2, SwitchingBundle.resume
        { s with first_client := wrap s.nbuffers (s.first_client + s.nbuffers - s.nready),
                 nready := s.nready - s.nready, ring := ring1 } .client_full
        = .returns h s2 := by
    intro hlt
    obtain ⟨h, -, htake⟩ := client_acquire_take_spec _ hw1
    have hb : SwitchingBundle.resume
        { s with first_client := wrap s.nbuffers (s.first_client + s.nbuffers - s.nready),
                 nready := s.nready - s.nready, ring := ring1 } .client_full
        = SwitchingBundle.client_acquire_take
            { s with first_client := wrap s.nbuffers (s.first_client + s.nbuffers - s.nready),
                     nready := s.nready - s.nready, ring := ring1 } := by
      show SwitchingBundle.client_acquire_block _ = _
      unfold SwitchingBundle.client_acquire_block
      rw [if_neg (by
        show ¬ s.ncompositors + (s.nready - s.nready) + s.nclients ≥ s.nbuffers; omega)]
    rw [htake] at hb
    exact ⟨h, _, hb⟩
  refine ⟨_, heq, ?_, ⟨?_, hfree⟩, hfull, ?_, ?_⟩
  · show s.nready - s.nready = 0
    omega
  · rintro ⟨h, s2, hret⟩
    by_contra hge
    rw [hfull (by omega)] at hret
    cases hret
  · intro hr
    exact hfree (by omega)
  · unfold SwitchingBundle.compositor_acquire
    rw [if_pos (by show s.nready - s.nready ≤ 0; omega)]

/-- C17, at the example bundle with buffer 100 ready and buffer 101 at the client. -/
theorem force_requests_unblocks_client_only_witness :
    example_released.well_formed ∧
      ∃ s1, example_released.force_requests_to_complete = .returns () s1 ∧ s1.nready = 0 ∧
        ((∃ h s2, s1.resume .client_full = .returns h s2) ↔
          example_released.ncompositors + example_released.nclients
            < example_released.nbuffers) ∧
        (example_released.nbuffers
            ≤ example_released.ncompositors + example_released.nclients →
          s1.resume .client_full = .waits .client_full) ∧
        (0 < example_released.nready → ∃ h s2, s1.resume .client_full = .returns h s2) ∧
        s1.compositor_acquire = .waits .compositor_nready :=
  ⟨by decide, force_requests_unblocks_client_only example_released (by decide)⟩

/-- C17 as stated fails.  After `force_requests_to_complete` on the example
bundle with one ready frame, `nready` is 0 and a thread blocked in
`compositor_acquire` finds its wait condition true and blocks again; and on the
example bundle with both buffers at the client the call changes nothing, so a
thread blocked in `client_acquire` on the full ring blocks again as well. -/
theorem force_requests_leaves_threads_blocked_counterexample :
    example_released.well_formed ∧ example_released.contiguous ∧
      example_released.force_requests_to_complete = .returns () example_drained ∧
      example_drained.nready = 0 ∧
      example_drained.resume .compositor_nready = .waits .compositor_nready ∧
      example_full.well_formed ∧ example_full.contiguous ∧
      example_full.force_requests_to_complete = .returns () example_full ∧
      example_full.resume .client_full = .waits .client_full := by
  refine ⟨by decide, by decide, rfl, rfl, rfl, by decide, by decide, rfl, rfl⟩

/-! ## Round trips -/

/-- On a ring that is not full `client_acquire` goes straight to lines 121-124,
whatever the policy. -/
theorem client_acquire_eq_take {s : SwitchingBundle}
    (hfree : s.ncompositors + s.nready + s.nclients < s.nbuffers) :
    s.client_acquire = s.client_acquire_take := by
  unfold SwitchingBundle.client_acquire SwitchingBundle.client_acquire_block
  split_ifs <;> first | rfl | omega

/-- The four calls of a round trip from an idle bundle whose regions start at
slot `f`: each returns, the buffer is the one in slot `f`, and the bundle is
idle again with its regions starting at the next slot. -/
theorem round_trip_steps (s : SwitchingBundle) (f : Int) (hn1 : 1 ≤ s.nbuffers)
    (hnl : s.nbuffers ≤ s.ring.length) (hf0 : 0 ≤ f) (hf1 : f < s.nbuffers) :
    ∃ h, ring_at s.ring f = some h ∧
      (s.idle_at f).client_acquire = .returns h { s.idle_at f with nclients := 1 } ∧
      SwitchingBundle.client_release { s.idle_at f with nclients := 1 } h
        = .returns () { s.idle_at f with
                          first_client := wrap s.nbuffers (f + 1), nready := 1 } ∧
      SwitchingBundle.compositor_acquire
          { s.idle_at f with first_client := wrap s.nbuffers (f + 1), nready := 1 }
        = .returns h { s.idle_at f with
                         first_client := wrap s.nbuffers (f + 1),
                         first_ready := wrap s.nbuffers (f + 1), ncompositors := 1 } ∧
      SwitchingBundle.compositor_release
          { s.idle_at f with
              first_client := wrap s.nbuffers (f + 1),
              first_ready := wrap s.nbuffers (f + 1), ncompositors := 1 } h
        = .returns () (s.idle_at (wrap s.nbuffers (f + 1))) := by
  obtain ⟨h, hh⟩ := ring_at_some s.ring hf0 (by omega)
  have hp := wrap_bounds (n := s.nbuffers) (x := f + 1) (by omega) (by omega)
  refine ⟨h, hh, ?_, ?_, ?_, ?_⟩
  · rw [client_acquire_eq_take (by simp only [SwitchingBundle.idle_at]; omega)]
    unfold SwitchingBundle.client_acquire_take
    simp only [SwitchingBundle.idle_at, add_zero]
    rw [cmod_wrap (by omega) (by omega) (by omega), wrap_of_lt hf1]
    simp only []
    rw [ring_get_ok hh]
    rfl
  · unfold SwitchingBundle.client_release
    simp only [SwitchingBundle.idle_at]
    rw [ring_get_ok hh]
    simp only [if_true]
    rw [cmod_wrap (by omega) (by omega) (by omega)]
    rfl
  · unfold SwitchingBundle.compositor_acquire
    simp only [SwitchingBundle.idle_at]
    rw [if_neg (by omega), cmod_wrap (by omega) (by omega) (by omega)]
    simp only []
    rw [ring_get_ok hh]
    rfl
  · unfold SwitchingBundle.compositor_release
    simp only [SwitchingBundle.idle_at]
    rw [ring_get_ok hh]
    simp only [if_true]
    rw [cmod_wrap (by omega) (by omega) (by omega)]
    rfl

/-- A round trip from an idle bundle hands the buffer of slot `f` to both
sides and leaves the bundle idle at the next slot. -/
theorem round_trip_idle (s : SwitchingBundle) (f : Int) (hn1 : 1 ≤ s.nbuffers)
    (hnl : s.nbuffers ≤ s.ring.length) (hf0 : 0 ≤ f) (hf1 : f < s.nbuffers) :
    ∃ h, ring_at s.ring f = some h ∧
      (s.idle_at f).round_trip = some (h, s.idle_at (wrap s.nbuffers (f + 1))) := by
  obtain ⟨h, hh, h1, h2, h3, h4⟩ := round_trip_steps s f hn1 hnl hf0 hf1
  refine ⟨h, hh, ?_⟩
  unfold SwitchingBundle.round_trip
  rw [h1]
  simp only []
  rw [h2]
  simp only []
  rw [h3]
  simp only [if_true]
  rw [h4]

/-- After `k` round trips an idle bundle is idle `k` slots further round the ring. -/
theorem round_trips_idle (s : SwitchingBundle) (hn1 : 1 ≤ s.nbuffers)
    (hnl : s.nbuffers ≤ s.ring.length) (k : Nat) :
    ∀ f : Int, 0 ≤ f → f < s.nbuffers →
      round_trips k (s.idle_at f) = some (s.idle_at ((f + k) % s.nbuffers)) := by
  induction k with
  | zero =>
    intro f hf0 hf1
    simp only [round_trips, Nat.cast_zero, add_zero]
    rw [Int.emod_eq_of_lt hf0 hf1]
  | succ k ih =>
    intro f hf0 hf1
    obtain ⟨h, -, htrip⟩ := round_trip_idle s f hn1 hnl hf0 hf1
    have hp := wrap_bounds (n := s.nbuffers) (x := f + 1) (by omega) (by omega)
    have hstep := ih (wrap s.nbuffers (f + 1)) hp.1 hp.2
    rw [emod_wrap_add] at hstep
    unfold round_trips
    rw [htrip]
    simp only []
    rw [hstep]
    congr 3
    push_cast
    omega

/-- A bundle within bounds that satisfies the header equations and has no
buffer out is idle at `first_client`. -/
theorem idle_of_counts_zero {s : SwitchingBundle} (hw : s.well_formed) (hc : s.contiguous)
    (hk : s.ncompositors = 0) (hr : s.nready = 0) (hl : s.nclients = 0) :
    s = s.idle_at s.first_client := by
  rw [contiguous_iff_wrap hw] at hc
  obtain ⟨hc1, hc2⟩ := hc
  obtain ⟨hn1, hnl, -, -, -, -, ⟨hfc0, hfc1⟩, ⟨hfr0, hfr1⟩, ⟨hf0, hf1⟩⟩ := hw
  rw [hk, add_zero, wrap_of_lt hfc1] at hc1
  rw [hr, add_zero, wrap_of_lt hfr1] at hc2
  cases s
  simp only [SwitchingBundle.idle_at] at *
  subst hk hr hl hc1 hc2
  rfl

/-- C18 (round trip).  From a state within bounds that satisfies the header
equations and has no buffer out, `client_acquire` returns a handle `h`,
`client_release(h)` is accepted, `compositor_acquire` returns the same `h` and
`compositor_release(h)` is accepted.  The state after the four calls has all
three counts 0, the same ring, and each of the three start indices advanced by
one modulo `nbuffers`, and nothing else differs.  After `nbuffers` such round
trips the state is the starting state again, in which `client_acquire` returns
`h` as before. -/
theorem round_trip_identity (s : SwitchingBundle) (hw : s.well_formed) (hc : s.contiguous)
    (hk : s.ncompositors = 0) (hr : s.nready = 0) (hl : s.nclients = 0) :
    ∃ h s1 s2 s3 s4,
      s.client_acquire = .returns h s1 ∧ s1.client_release h = .returns () s2 ∧
      s2.compositor_acquire = .returns h s3 ∧ s3.compositor_release h = .returns () s4 ∧
      s.round_trip = some (h, s4) ∧
      s4.ncompositors = 0 ∧ s4.nready = 0 ∧ s4.nclients = 0 ∧ s4.ring = s.ring ∧
      s4.first_compositor = (s.first_compositor + 1) % s.nbuffers ∧
      s4.first_ready = (s.first_ready + 1) % s.nbuffers ∧
      s4.first_client = (s.first_client + 1) % s.nbuffers ∧
      s4 = { s with first_compositor := (s.first_compositor + 1) % s.nbuffers,
                    first_ready := (s.first_ready + 1) % s.nbuffers,
                    first_client := (s.first_client + 1) % s.nbuffers } ∧
      round_trips s.nbuffers.toNat s = some s := by
  have hs := idle_of_counts_zero hw hc hk hr hl
  have hcw := (contiguous_iff_wrap hw).mp hc
  obtain ⟨hn1, hnl, -, -, -, -, ⟨hfc0, hfc1⟩, ⟨hfr0, hfr1⟩, ⟨hf0, hf1⟩⟩ := hw
  have e1 : s.first_compositor = s.first_client := by
    have h1 := hcw.1
    have h2 := hcw.2
    rw [hk, add_zero, wrap_of_lt hfc1] at h1
    rw [hr, add_zero, wrap_of_lt hfr1] at h2
    omega
  have e2 : s.first_ready = s.first_client := by
    have h2 := hcw.2
    rw [hr, add_zero, wrap_of_lt hfr1] at h2
    exact h2
  obtain ⟨h, hh, h1, h2, h3, h4⟩ := round_trip_steps s s.first_client hn1 hnl hf0 hf1
  obtain ⟨h5, hh5, htrip⟩ := round_trip_idle s s.first_client hn1 hnl hf0 hf1
  rw [hh] at hh5
  injection hh5 with hh5
  subst hh5
  have hall := round_trips_idle s hn1 hnl s.nbuffers.toNat s.first_client hf0 hf1
  have hnb : ((s.nbuffers.toNat : Nat) : Int) = s.nbuffers := Int.toNat_of_nonneg (by omega)
  rw [hnb, Int.add_emod_self, Int.emod_eq_of_lt hf0 hf1, ← hs] at hall
  rw [← hs] at h1 h2 h3 h4 htrip
  have hm : (s.first_client + 1) % s.nbuffers = wrap s.nbuffers (s.first_client + 1) :=
    emod_eq_wrap (by omega) (by omega)
  refine ⟨h, _, _, _, _, h1, h2, h3, h4, htrip, rfl, rfl, rfl, rfl, ?_, ?_, ?_, ?_, hall⟩
  · rw [e1, hm]; rfl
  · rw [e2, hm]; rfl
  · rw [hm]; rfl
  · rw [e1, e2, hm]
    cases s
    simp only [SwitchingBundle.idle_at] at *
    subst hk hr hl
    rfl

/-- C18, at the constructed example bundle. -/
theorem round_trip_identity_witness :
    example_initial.well_formed ∧ example_initial.contiguous ∧
      ∃ h s1 s2 s3 s4,
        example_initial.client_acquire = .returns h s1 ∧
        s1.client_release h = .returns () s2 ∧
        s2.compositor_acquire = .returns h s3 ∧ s3.compositor_release h = .returns () s4 ∧
        example_initial.round_trip = some (h, s4) ∧
        s4.ncompositors = 0 ∧ s4.nready = 0 ∧ s4.nclients = 0 ∧
        s4.ring = example_initial.ring ∧
        s4.first_compositor
          = (example_initial.first_compositor + 1) % example_initial.nbuffers ∧
        s4.first_ready = (example_initial.first_ready + 1) % example_initial.nbuffers ∧
        s4.first_client = (example_initial.first_client + 1) % example_initial.nbuffers ∧
        s4 = { example_initial with
                 first_compositor :=
                   (example_initial.first_compositor + 1) % example_initial.nbuffers,
                 first_ready := (example_initial.first_ready + 1) % example_initial.nbuffers,
                 first_client :=
                   (example_initial.first_client + 1) % example_initial.nbuffers } ∧
        round_trips example_initial.nbuffers.toNat example_initial = some example_initial :=
  ⟨by decide, by decide,
    round_trip_identity example_initial (by decide) (by decide) rfl rfl rfl⟩

/-! ## The ring as a permutation of the constructed handles -/

/-- Reading a list of slots through an injective renumbering of the slot
indices gives a permutation of the list. -/
theorem perm_of_reindex (n : Nat) (F1 F2 : Int → Option Handle) (σ : Int → Int)
    (hrange : ∀ j : Int, 0 ≤ j → j < n → 0 ≤ σ j ∧ σ j < n)
    (hinj : ∀ j1 j2 : Int, 0 ≤ j1 → j1 < n → 0 ≤ j2 → j2 < n → σ j1 = σ j2 → j1 = j2)
    (hpt : ∀ j : Int, 0 ≤ j → j < n → F1 j = F2 (σ j)) :
    ((List.range n).map fun (t : Nat) => F1 (t : Int)).Perm
      ((List.range n).map fun (t : Nat) => F2 (t : Int)) := by
  have h1 : ((List.range n).map fun (t : Nat) => F1 (t : Int))
      = ((List.range n).map fun (t : Nat) => (σ (t : Int)).toNat).map
          fun (m : Nat) => F2 (m : Int) := by
    rw [List.map_map]
    apply List.map_congr_left
    intro t ht
    rw [List.mem_range] at ht
    have hr := hrange t (by omega) (by omega)
    simp only [Function.comp]
    rw [hpt t (by omega) (by omega), Int.toNat_of_nonneg hr.1]
  have h2 : ((List.range n).map fun (t : Nat) => (σ (t : Int)).toNat).Perm (List.range n) := by
    apply List.Subperm.perm_of_length_le
    · apply List.subperm_of_subset
      · apply List.Nodup.map_on _ (List.nodup_range n)
        intro x hx y hy hxy
        rw [List.mem_range] at hx hy
        have hrx := hrange x (by omega) (by omega)
        have hry := hrange y (by omega) (by omega)
        have := hinj x y (by omega) (by omega) (by omega) (by omega) (by omega)
        omega
      · intro m hm
        rw [List.mem_map] at hm
        obtain ⟨t, ht, rfl⟩ := hm
        rw [List.mem_range] at ht ⊢
        have hr := hrange t (by omega) (by omega)
        omega
    · simp
  rw [h1]
  exact h2.map _

/-- One round of `drop_frames` permutes the active slots and touches no other slot. -/
theorem drop_frames_body_perm {s s1 : SwitchingBundle} (hw : s.well_formed)
    (hr : 0 < s.nready) (hret : s.drop_frames_body = .ok s1) :
    s1 = { s with first_client := wrap s.nbuffers (s.first_client + s.nbuffers - 1),
                  nready := s.nready - 1, ring := s1.ring } ∧
      s1.ring.length = s.ring.length ∧ s1.slots.Perm s.slots ∧
      ∀ j, s.nbuffers ≤ j → ring_at s1.ring j = ring_at s.ring j := by
  obtain ⟨ring1, heq, hlen, hat⟩ := drop_frames_body_spec s hw hr
  rw [heq] at hret
  injection hret with hret
  subst hret
  obtain ⟨hn1, hnl, hc0, hr0, hk0, hsum, hfc, hfr, ⟨hf0, hf1⟩⟩ := hw
  have hp := wrap_bounds (n := s.nbuffers) (x := s.first_client + s.nbuffers - 1)
    (by omega) (by omega)
  have hnb : ((s.nbuffers.toNat : Nat) : Int) = s.nbuffers := Int.toNat_of_nonneg (by omega)
  refine ⟨rfl, hlen, ?_, ?_⟩
  · simp only [SwitchingBundle.slots]
    apply perm_of_reindex s.nbuffers.toNat (ring_at ring1) (ring_at s.ring)
      (fun j => if in_span s.nbuffers (wrap s.nbuffers (s.first_client + s.nbuffers - 1))
          s.nclients j then wrap s.nbuffers (j + 1)
        else if j = wrap s.nbuffers
            (wrap s.nbuffers (s.first_client + s.nbuffers - 1) + s.nclients)
        then wrap s.nbuffers (s.first_client + s.nbuffers - 1) else j)
    · intro j hj0 hj1
      rw [hnb] at hj1 ⊢
      clear hat
      generalize wrap s.nbuffers (s.first_client + s.nbuffers - 1) = p at hp ⊢
      simp only [in_span, wrap]
      split_ifs <;> omega
    · intro j1 j2 h10 h11 h20 h21
      rw [hnb] at h11 h21
      clear hat
      generalize wrap s.nbuffers (s.first_client + s.nbuffers - 1) = p at hp ⊢
      simp only [in_span, wrap]
      split_ifs <;> omega
    · intro j hj0 hj1
      rw [hat j]
      split_ifs <;> rfl
  · intro j hj
    rw [hat j, if_neg, if_neg]
    · clear hat
      generalize wrap s.nbuffers (s.first_client + s.nbuffers - 1) = p at hp ⊢
      unfold wrap
      split_ifs <;> omega
    · clear hat
      generalize wrap s.nbuffers (s.first_client + s.nbuffers - 1) = p at hp ⊢
      unfold in_span
      omega

/-- The loop of `drop_frames`, run for at most `nready` rounds, permutes the
active slots and touches no other slot. -/
theorem drop_frames_loop_perm (d : Nat) :
    ∀ s s1 : SwitchingBundle, s.well_formed → (d : Int) ≤ s.nready →
      drop_frames_loop d s = .ok s1 →
      s1.nbuffers = s.nbuffers ∧ s1.slots.Perm s.slots ∧
        ∀ j, s.nbuffers ≤ j → ring_at s1.ring j = ring_at s.ring j := by
  induction d with
  | zero =>
    intro s s1 _ _ hret
    simp only [drop_frames_loop] at hret
    injection hret with hret
    subst hret
    exact ⟨rfl, List.Perm.refl _, fun _ _ => rfl⟩
  | succ d ih =>
    intro s s1 hw hd hret
    obtain ⟨ring1, heq, hlen, -⟩ := drop_frames_body_spec s hw (by omega)
    obtain ⟨-, -, hperm, hout⟩ := drop_frames_body_perm hw (by omega) heq
    have hw1 := well_formed_after_drop hw (by omega : (0 : Int) ≤ 1) (by omega) hlen
    rw [drop_frames_loop, heq] at hret
    simp only [Except.bind] at hret
    obtain ⟨hnb, hperm2, hout2⟩ := ih _ s1 hw1 (by show (d : Int) ≤ s.nready - 1; omega) hret
    refine ⟨hnb, hperm2.trans hperm, ?_⟩
    intro j hj
    rw [hout2 j hj, hout j hj]

/-- The private member `drop_frames`, with any argument, permutes the active
slots and touches no other slot. -/
theorem drop_frames_perm {s s1 : SwitchingBundle} {max k : Int} (hw : s.well_formed)
    (hret : s.drop_frames max = .ok (k, s1)) :
    s1.nbuffers = s.nbuffers ∧ s1.slots.Perm s.slots ∧
      ∀ j, s.nbuffers ≤ j → ring_at s1.ring j = ring_at s.ring j := by
  have hr0 : 0 ≤ s.nready := hw.2.2.2.1
  unfold SwitchingBundle.drop_frames at hret
  simp only [] at hret
  cases hloop : drop_frames_loop (if max > s.nready then s.nready else max).toNat s with
  | error a =>
    rw [hloop] at hret
    cases hret
  | ok s2 =>
    rw [hloop] at hret
    simp only [Except.bind] at hret
    injection hret with hret
    injection hret with e1 e2
    subst e2
    exact drop_frames_loop_perm _ s s2 hw (by split_ifs <;> omega) hloop

/-- A call of `client_acquire_drop` that returns has run `drop_frames(1)` and
then lines 121-124. -/
theorem client_acquire_drop_inv {s s2 : SwitchingBundle} {h : Handle}
    (hret : s.client_acquire_drop = .returns h s2) :
    ∃ k s1, s.drop_frames 1 = .ok (k, s1) ∧ s1.client_acquire_take = .returns h s2 := by
  unfold SwitchingBundle.client_acquire_drop at hret
  split_ifs at hret
  split at hret
  · cases hret
  · rename_i k s1 hdrop
    exact ⟨k, s1, hdrop, hret⟩

/-- A returning call permutes the active slots and touches no other slot. -/
theorem run_perm {c : Call} {s s1 : SwitchingBundle} {r : Option Handle}
    (hw : s.well_formed) (hret : c.run s = .returns r s1) :
    s1.nbuffers = s.nbuffers ∧ s1.slots.Perm s.slots ∧
      ∀ j, s.nbuffers ≤ j → ring_at s1.ring j = ring_at s.ring j := by
  have hsame : ∀ t : SwitchingBundle, t.nbuffers = s.nbuffers → t.ring = s.ring →
      t.nbuffers = s.nbuffers ∧ t.slots.Perm s.slots ∧
        ∀ j, s.nbuffers ≤ j → ring_at t.ring j = ring_at s.ring j := by
    intro t h1 h2
    refine ⟨h1, ?_, fun _ _ => by rw [h2]⟩
    simp only [SwitchingBundle.slots, h1, h2]
    exact List.Perm.refl _
  have hdrop : ∀ h : Handle, s.client_acquire_drop = .returns h s1 →
      s1.nbuffers = s.nbuffers ∧ s1.slots.Perm s.slots ∧
        ∀ j, s.nbuffers ≤ j → ring_at s1.ring j = ring_at s.ring j := by
    intro h hret
    obtain ⟨k, s2, hd, htake⟩ := client_acquire_drop_inv hret
    have hp := drop_frames_perm hw hd
    rw [client_acquire_take_state htake]
    exact hp
  cases c with
  | client_acquire =>
    obtain ⟨h, hret1, -⟩ := map_returns hret
    unfold SwitchingBundle.client_acquire at hret1
    split_ifs at hret1
    · exact hdrop h hret1
    · rw [client_acquire_take_state hret1]
      exact hsame _ rfl rfl
    · obtain ⟨-, -, rfl⟩ := client_acquire_block_returns hw hret1
      exact hsame _ rfl rfl
  | client_release b =>
    obtain ⟨u, hret1, -⟩ := map_returns hret
    obtain ⟨-, rfl⟩ := client_release_returns hw hret1
    exact hsame _ rfl rfl
  | compositor_acquire =>
    obtain ⟨h, hret1, -⟩ := map_returns hret
    obtain ⟨-, -, rfl⟩ := compositor_acquire_returns hw hret1
    exact hsame _ rfl rfl
  | compositor_release b =>
    obtain ⟨u, hret1, -⟩ := map_returns hret
    obtain ⟨-, rfl⟩ := compositor_release_returns hw hret1
    exact hsame _ rfl rfl
  | force_requests_to_complete =>
    obtain ⟨u, hret1, -⟩ := map_returns hret
    unfold SwitchingBundle.force_requests_to_complete at hret1
    split at hret1
    · cases hret1
    · rename_i k s2 hd
      injection hret1 with e1 e2
      subst e2
      exact drop_frames_perm hw hd
  | allow_framedropping b =>
    simp only [Call.run, SwitchingBundle.allow_framedropping, Outcome.map] at hret
    injection hret with e1 e2
    subst e2
    exact hsame _ rfl rfl
  | properties =>
    simp only [Call.run, SwitchingBundle.properties, Outcome.map] at hret
    injection hret with e1 e2
    subst e2
    exact hsame _ rfl rfl
  | resume w =>
    obtain ⟨h, hret1, -⟩ := map_returns hret
    cases w with
    | client_nready => exact hdrop h hret1
    | client_full =>
      obtain ⟨-, -, rfl⟩ := client_acquire_block_returns hw hret1
      exact hsame _ rfl rfl
    | compositor_nready =>
      obtain ⟨-, -, rfl⟩ := compositor_acquire_returns hw hret1
      exact hsame _ rfl rfl

/-- A returning call that drops no frame leaves the ring as it is. -/
theorem run_ring_unchanged {c : Call} {s s1 : SwitchingBundle} {r : Option Handle}
    (hw : s.well_formed) (hg : c.drops_nothing s = true) (hret : c.run s = .returns r s1) :
    s1.ring = s.ring := by
  cases c with
  | client_acquire =>
    obtain ⟨h, hret1, -⟩ := map_returns hret
    unfold SwitchingBundle.client_acquire at hret1
    split_ifs at hret1 with hpol hfull
    · simp [Call.drops_nothing, hpol.1, hpol.2, hfull] at hg
    · rw [client_acquire_take_state hret1]
    · obtain ⟨-, -, rfl⟩ := client_acquire_block_returns hw hret1
      rfl
  | client_release b =>
    obtain ⟨u, hret1, -⟩ := map_returns hret
    obtain ⟨-, rfl⟩ := client_release_returns hw hret1
    rfl
  | compositor_acquire =>
    obtain ⟨h, hret1, -⟩ := map_returns hret
    obtain ⟨-, -, rfl⟩ := compositor_acquire_returns hw hret1
    rfl
  | compositor_release b =>
    obtain ⟨u, hret1, -⟩ := map_returns hret
    obtain ⟨-, rfl⟩ := compositor_release_returns hw hret1
    rfl
  | force_requests_to_complete =>
    obtain ⟨u, hret1, -⟩ := map_returns hret
    simp only [Call.drops_nothing, decide_eq_true_eq] at hg
    have hr0 : 0 ≤ s.nready := hw.2.2.2.1
    have hz : s.nready = 0 := by omega
    unfold SwitchingBundle.force_requests_to_complete SwitchingBundle.drop_frames at hret1
    simp only [hz, lt_self_iff_false, if_false, gt_iff_lt, Int.toNat_zero, drop_frames_loop,
      Except.bind] at hret1
    injection hret1 with e1 e2
    subst e2
    rfl
  | allow_framedropping b =>
    simp only [Call.run, SwitchingBundle.allow_framedropping, Outcome.map] at hret
    injection hret with e1 e2
    subst e2
    rfl
  | properties =>
    simp only [Call.run, SwitchingBundle.properties, Outcome.map] at hret
    injection hret with e1 e2
    subst e2
    rfl
  | resume w =>
    obtain ⟨h, hret1, -⟩ := map_returns hret
    cases w with
    | client_nready => simp [Call.drops_nothing] at hg
    | client_full =>
      obtain ⟨-, -, rfl⟩ := client_acquire_block_returns hw hret1
      rfl
    | compositor_nready =>
      obtain ⟨-, -, rfl⟩ := compositor_acquire_returns hw hret1
      rfl

theorem mem_region {ring : List Handle} {n first count : Int} {x : Option Handle}
    (hx : x ∈ region ring n first count) :
    ∃ t : Int, 0 ≤ t ∧ t < count ∧ x = ring_at ring ((first + t) % n) := by
  unfold region at hx
  rw [List.mem_map] at hx
  obtain ⟨t, ht, rfl⟩ := hx
  rw [List.mem_range] at ht
  exact ⟨t, by omega, by omega, rfl⟩

/-- When the active slots hold pairwise different contents, different active
slots hold different contents. -/
theorem slots_injective {s : SwitchingBundle} (hnd : s.slots.Nodup) {j1 j2 : Int}
    (h10 : 0 ≤ j1) (h11 : j1 < s.nbuffers) (h20 : 0 ≤ j2) (h21 : j2 < s.nbuffers)
    (heq : ring_at s.ring j1 = ring_at s.ring j2) : j1 = j2 := by
  have h := List.inj_on_of_nodup_map hnd (x := j1.toNat) (by rw [List.mem_range]; omega)
    (y := j2.toNat) (by rw [List.mem_range]; omega)
    (by
      show ring_at s.ring ((j1.toNat : Nat) : Int) = ring_at s.ring ((j2.toNat : Nat) : Int)
      rw [Int.toNat_of_nonneg h10, Int.toNat_of_nonneg h20]; exact heq)
  omega

/-- The handle a returning `client_acquire` hands out sits in the last slot of
the client region of the state it leaves. -/
theorem client_acquire_returned_slot {s s1 : SwitchingBundle} {h : Handle}
    (hw : s.well_formed) (hret : s.client_acquire = .returns h s1) :
    ring_at s1.ring (wrap s1.nbuffers (s1.first_client + (s1.nclients - 1))) = some h := by
  rcases client_acquire_returns hw hret with
    ⟨-, hh, rfl⟩ | ⟨-, -, -, hr, hh, ring1, hring, rfl⟩
  · show ring_at s.ring (wrap s.nbuffers (s.first_client + (s.nclients + 1 - 1))) = some h
    rw [← hh]
    congr 2
    omega
  · have h0 := hring.2.2.1 0 (le_refl _) (by omega)
    obtain ⟨hn1, hnl, hc0, hr0, hk0, hsum, hfc, hfr, ⟨hf0, hf1⟩⟩ := hw
    have hp := wrap_bounds (n := s.nbuffers) (x := s.first_client + s.nbuffers - 1)
      (by omega) (by omega)
    simp only [add_zero] at h0
    rw [wrap_of_lt hp.2, hh] at h0
    show ring_at ring1 (wrap s.nbuffers
      (wrap s.nbuffers (s.first_client + s.nbuffers - 1) + (s.nclients + 1 - 1))) = some h
    rw [← h0]
    congr 3
    omega

/-- The handle a returning `client_acquire` hands out is in no other slot of
the three regions, when the active slots hold pairwise different handles. -/
theorem client_acquire_fresh {s s1 : SwitchingBundle} {h : Handle} (hw : s.well_formed)
    (hc : s.contiguous) (hnd : s.slots.Nodup) (hret : s.client_acquire = .returns h s1) :
    (∀ x ∈ s1.compositor_frames, x ≠ some h) ∧ (∀ x ∈ s1.ready_frames, x ≠ some h) ∧
      (∀ x ∈ region s1.ring s1.nbuffers s1.first_client (s1.nclients - 1), x ≠ some h) := by
  have hrun : Call.run .client_acquire s = .returns (some h) s1 := by
    simp only [Call.run, hret, Outcome.map]
  have hw1 := run_well_formed (c := Call.client_acquire) hw rfl hrun
  have hc1 := (contiguous_iff_wrap hw1).mp (run_contiguous hw hc hrun)
  have hnd1 : s1.slots.Nodup := ((run_perm hw hrun).2.1.nodup_iff).mpr hnd
  have hslot := client_acquire_returned_slot hw hret
  have hpos : 1 ≤ s1.nclients := by
    rcases client_acquire_returns hw hret with ⟨-, -, rfl⟩ | ⟨-, -, -, -, -, ring1, -, rfl⟩
    · show 1 ≤ s.nclients + 1
      have := hw.2.2.2.2.1
      omega
    · show 1 ≤ s.nclients + 1
      have := hw.2.2.2.2.1
      omega
  obtain ⟨hn1, hnl, hk0, hr0, hl0, hsum, ⟨hfc0, hfc1⟩, ⟨hfr0, hfr1⟩, ⟨hf0, hf1⟩⟩ := hw1
  obtain ⟨hc11, hc12⟩ := hc1
  have hq := wrap_bounds (n := s1.nbuffers) (x := s1.first_client + (s1.nclients - 1))
    (by omega) (by omega)
  have key : ∀ (first t : Int), 0 ≤ first → first < s1.nbuffers → 0 ≤ t → t < s1.nbuffers →
      wrap s1.nbuffers (first + t)
        ≠ wrap s1.nbuffers (s1.first_client + (s1.nclients - 1)) →
      ring_at s1.ring ((first + t) % s1.nbuffers) ≠ some h := by
    intro first t hf0' hf1' ht0 ht1 hne heq
    rw [emod_eq_wrap (by omega) (by omega), ← hslot] at heq
    have hb := wrap_bounds (n := s1.nbuffers) (x := first + t) (by omega) (by omega)
    exact hne (slots_injective hnd1 hb.1 hb.2 hq.1 hq.2 heq)
  refine ⟨?_, ?_, ?_⟩
  · intro x hx
    obtain ⟨t, ht0, ht1, rfl⟩ := mem_region hx
    apply key _ _ hfc0 hfc1 ht0 (by omega)
    clear key hslot hq
    unfold wrap at hc11 hc12 ⊢
    split_ifs at hc11 hc12 ⊢ <;> omega
  · intro x hx
    obtain ⟨t, ht0, ht1, rfl⟩ := mem_region hx
    apply key _ _ hfr0 hfr1 ht0 (by omega)
    clear key hslot hq
    unfold wrap at hc11 hc12 ⊢
    split_ifs at hc11 hc12 ⊢ <;> omega
  · intro x hx
    obtain ⟨t, ht0, ht1, rfl⟩ := mem_region hx
    apply key _ _ hf0 hf1 ht0 (by omega)
    clear key hslot hq
    unfold wrap at hc11 hc12 ⊢
    split_ifs at hc11 hc12 ⊢ <;> omega

/-- Along a run of returning calls that respect the caller-side contract the
active slots keep pairwise different contents. -/
theorem execute_slots_nodup (calls : List Call) :
    ∀ (s s1 : SwitchingBundle) (tr : List (Call × Option Handle)),
      s.well_formed → s.contiguous → s.slots.Nodup →
      execute Call.holds_buffer calls s = some (tr, s1) → s1.slots.Nodup := by
  induction calls with
  | nil =>
    intro s s1 tr _ _ hnd hex
    simp only [execute, Option.some.injEq, Prod.mk.injEq] at hex
    obtain ⟨-, rfl⟩ := hex
    exact hnd
  | cons c cs ih =>
    intro s s1 tr hw hc hnd hex
    unfold execute at hex
    split_ifs at hex with hg
    split at hex
    · rename_i r s2 hrun
      split at hex
      · rename_i tr2 s3 hrest
        simp only [Option.some.injEq, Prod.mk.injEq] at hex
        obtain ⟨-, rfl⟩ := hex
        exact ih s2 s3 tr2 (run_well_formed hw hg hrun) (run_contiguous hw hc hrun)
          (((run_perm hw hrun).2.1.nodup_iff).mpr hnd) hrest
      · cases hex
    · cases hex

/-- When the allocator has handed out pairwise different buffers, the active
slots of the constructed bundle hold pairwise different handles. -/
theorem slots_nodup_of_ring_nodup {s : SwitchingBundle} (hw : s.well_formed)
    (hnd : s.ring.Nodup) : s.slots.Nodup := by
  have hn1 := hw.1
  have hnl := hw.2.1
  unfold SwitchingBundle.slots
  apply List.Nodup.map_on _ (List.nodup_range _)
  intro x hx y hy hxy
  rw [List.mem_range] at hx hy
  have hx1 : x < s.ring.length := by omega
  have hy1 : y < s.ring.length := by omega
  simp only [ring_at, Int.toNat_ofNat, Int.ofNat_zero_le, if_true] at hxy
  rw [List.getElem?_eq_getElem hx1, List.getElem?_eq_getElem hy1] at hxy
  injection hxy with hxy
  exact (hnd.getElem_inj_iff).mp hxy

/-- C19 (no duplication, loss or double ownership of handles).  In a state
within bounds, every member function that returns (a public one, a woken
acquire, or `drop_frames` with any argument) leaves the active slots
`ring[0..nbuffers)` a permutation of what they were and does not touch a slot at
index `nbuffers` or above; a call that drops no frame leaves the whole ring as
it is.  So when the allocator handed out pairwise different handles, the active
slots of every reachable state hold pairwise different handles, and the handle
a returning `client_acquire` hands out differs from every handle then in the
compositor region, in the ready region and in the rest of the client region. -/
theorem no_duplication_or_loss (s : SwitchingBundle) (hw : s.well_formed) :
    (∀ (c : Call) (r : Option Handle) (s1 : SwitchingBundle), c.run s = .returns r s1 →
      s1.slots.Perm s.slots ∧ (∀ j, s.nbuffers ≤ j → ring_at s1.ring j = ring_at s.ring j) ∧
      (c.drops_nothing s = true → s1.ring = s.ring)) ∧
    (∀ (max k : Int) (s1 : SwitchingBundle), s.drop_frames max = .ok (k, s1) →
      s1.slots.Perm s.slots ∧ ∀ j, s.nbuffers ≤ j → ring_at s1.ring j = ring_at s.ring j) ∧
    (s.contiguous → s.slots.Nodup → ∀ (h : Handle) (s1 : SwitchingBundle),
      s.client_acquire = .returns h s1 →
      (∀ x ∈ s1.compositor_frames, x ≠ some h) ∧ (∀ x ∈ s1.ready_frames, x ≠ some h) ∧
      (∀ x ∈ region s1.ring s1.nbuffers s1.first_client (s1.nclients - 1), x ≠ some h)) ∧
    (∀ (σ : Type) (MAX_BUFFERS : Nat) (alloc_buffer : σ → BufferProperties → Handle × σ)
      (gralloc gralloc1 : σ) (property_request : BufferProperties) (s0 : SwitchingBundle)
      (calls : List Call) (tr : List (Call × Option Handle)),
      SwitchingBundle.construct MAX_BUFFERS alloc_buffer gralloc property_request
        = .ok (s0, gralloc1) →
      s0.ring.Nodup → execute Call.holds_buffer calls s0 = some (tr, s) →
      s.contiguous ∧ s.slots.Nodup) := by
  refine ⟨?_, ?_, ?_, ?_⟩
  · intro c r s1 hret
    obtain ⟨-, hperm, hout⟩ := run_perm hw hret
    exact ⟨hperm, hout, fun hg => run_ring_unchanged hw hg hret⟩
  · intro max k s1 hret
    obtain ⟨-, hperm, hout⟩ := drop_frames_perm hw hret
    exact ⟨hperm, hout⟩
  · intro hc hnd h s1 hret
    exact client_acquire_fresh hw hc hnd hret
  · intro σ M alloc_buffer g g1 p s0 calls tr hnew hnd hrun
    obtain ⟨hw0, hc0, -⟩ := construct_invariant hnew
    exact ⟨(execute_invariant calls s0 s tr hw0 hc0 hrun).2,
      execute_slots_nodup calls s0 s tr hw0 hc0 (slots_nodup_of_ring_nodup hw0 hnd) hrun⟩

/-- C19, at the example bundle with dropping enabled, buffer 100 ready and
buffer 101 at the client. -/
theorem no_duplication_or_loss_witness :
    example_dropping.well_formed ∧
    ((∀ (c : Call) (r : Option Handle) (s1 : SwitchingBundle),
      c.run example_dropping = .returns r s1 →
      s1.slots.Perm example_dropping.slots ∧
      (∀ j, example_dropping.nbuffers ≤ j →
        ring_at s1.ring j = ring_at example_dropping.ring j) ∧
      (c.drops_nothing example_dropping = true → s1.ring = example_dropping.ring)) ∧
    (∀ (max k : Int) (s1 : SwitchingBundle), example_dropping.drop_frames max = .ok (k, s1) →
      s1.slots.Perm example_dropping.slots ∧
      ∀ j, example_dropping.nbuffers ≤ j →
        ring_at s1.ring j = ring_at example_dropping.ring j) ∧
    (example_dropping.contiguous → example_dropping.slots.Nodup →
      ∀ (h : Handle) (s1 : SwitchingBundle),
      example_dropping.client_acquire = .returns h s1 →
      (∀ x ∈ s1.compositor_frames, x ≠ some h) ∧ (∀ x ∈ s1.ready_frames, x ≠ some h) ∧
      (∀ x ∈ region s1.ring s1.nbuffers s1.first_client (s1.nclients - 1), x ≠ some h)) ∧
    (∀ (σ : Type) (MAX_BUFFERS : Nat) (alloc_buffer : σ → BufferProperties → Handle × σ)
      (gralloc gralloc1 : σ) (property_request : BufferProperties) (s0 : SwitchingBundle)
      (calls : List Call) (tr : List (Call × Option Handle)),
      SwitchingBundle.construct MAX_BUFFERS alloc_buffer gralloc property_request
        = .ok (s0, gralloc1) →
      s0.ring.Nodup →
      execute Call.holds_buffer calls s0 = some (tr, example_dropping) →
      example_dropping.contiguous ∧ example_dropping.slots.Nodup)) :=
  ⟨by decide, no_duplication_or_loss example_dropping (by decide)⟩

/-! ## The client and compositor regions as queues -/

theorem region_push (ring : List Handle) (n first : Int) {count : Int} (h0 : 0 ≤ count) :
    region ring n first (count + 1)
      = region ring n first count ++ [ring_at ring ((first + count) % n)] := by
  have h1 : (count + 1).toNat = count.toNat + 1 := by omega
  have h2 : ((count.toNat : Nat) : Int) = count := Int.toNat_of_nonneg h0
  unfold region
  rw [h1, List.range_succ, List.map_append, List.map_singleton, h2]

theorem region_pop (ring : List Handle) {n first count : Int} (hf0 : 0 ≤ first)
    (hf1 : first < n) (hpos : 0 < count) :
    region ring n first count
      = ring_at ring first :: region ring n (wrap n (first + 1)) (count - 1) := by
  have h1 : count.toNat = (count - 1).toNat + 1 := by omega
  unfold region
  rw [h1, List.range_succ_eq_map, List.map_cons, List.map_map]
  congr 1
  · simp only [Nat.cast_zero, add_zero]
    rw [Int.emod_eq_of_lt hf0 hf1]
  · apply List.map_congr_left
    intro t _
    simp only [Function.comp, Nat.cast_succ]
    rw [emod_wrap_add]
    congr 2
    omega

theorem region_congr {ring ring1 : List Handle} {n f f1 count : Int}
    (h : ∀ t : Int, 0 ≤ t → t < count →
      ring_at ring1 ((f1 + t) % n) = ring_at ring ((f + t) % n)) :
    region ring1 n f1 count = region ring n f count := by
  unfold region
  apply List.map_congr_left
  intro t ht
  rw [List.mem_range] at ht
  exact h t (by omega) (by omega)

theorem region_head {ring : List Handle} {n first count : Int} {x : Option Handle}
    {rest : List (Option Handle)} (hf0 : 0 ≤ first) (hf1 : first < n)
    (h : region ring n first count = x :: rest) :
    0 < count ∧ x = ring_at ring first := by
  have hpos : 0 < count := by
    by_contra hle
    have hz : count.toNat = 0 := by omega
    unfold region at h
    rw [hz] at h
    simp at h
  rw [region_pop ring hf0 hf1 hpos] at h
  injection h with h1 h2
  exact ⟨hpos, h1.symm⟩

/-- Dropping `d` ready frames moves the client region but not its contents. -/
theorem client_region_after_drop {s : SwitchingBundle} (hw : s.well_formed) {d : Int}
    (hd0 : 0 ≤ d) (hd1 : d ≤ s.nready) {ring1 : List Handle}
    (hring : ring_after_drop s.nbuffers s.first_client s.nclients d s.ring ring1) :
    region ring1 s.nbuffers (wrap s.nbuffers (s.first_client + s.nbuffers - d)) s.nclients
      = region s.ring s.nbuffers s.first_client s.nclients := by
  obtain ⟨hn1, hnl, hc0, hr0, hk0, hsum, hfc, hfr, ⟨hf0, hf1⟩⟩ := hw
  have hp := wrap_bounds (n := s.nbuffers) (x := s.first_client + s.nbuffers - d)
    (by omega) (by omega)
  apply region_congr
  intro t ht0 ht1
  rw [emod_eq_wrap (by omega) (by omega), emod_eq_wrap (by omega) (by omega)]
  exact hring.2.1 t ht0 ht1

/-- Dropping `d` ready frames does not touch the compositor region. -/
theorem compositor_region_after_drop {s : SwitchingBundle} (hw : s.well_formed)
    (hc : s.contiguous) {d : Int} (_hd0 : 0 ≤ d) (hd1 : d ≤ s.nready) {ring1 : List Handle}
    (hring : ring_after_drop s.nbuffers s.first_client s.nclients d s.ring ring1) :
    region ring1 s.nbuffers s.first_compositor s.ncompositors
      = region s.ring s.nbuffers s.first_compositor s.ncompositors := by
  rw [contiguous_iff_wrap hw] at hc
  obtain ⟨hc1, hc2⟩ := hc
  obtain ⟨hn1, hnl, hk0, hr0, hl0, hsum, ⟨hfc0, hfc1⟩, ⟨hfr0, hfr1⟩, ⟨hf0, hf1⟩⟩ := hw
  apply region_congr
  intro t ht0 ht1
  rw [emod_eq_wrap (by omega) (by omega)]
  apply hring.2.2.2
  clear hring
  unfold in_span wrap at *
  split_ifs at hc1 hc2 ⊢ <;> omega

theorem client_holds_cons (held : List Handle) (c : Call) (r : Option Handle)
    (tr : List (Call × Option Handle)) :
    client_holds held ((c, r) :: tr) = client_holds (client_holds held [(c, r)]) tr := by
  cases c with
  | resume w => cases w <;> cases r <;> rfl
  | _ => cases r <;> rfl

theorem compositor_holds_cons (held : List Handle) (c : Call) (r : Option Handle)
    (tr : List (Call × Option Handle)) :
    compositor_holds held ((c, r) :: tr)
      = compositor_holds (compositor_holds held [(c, r)]) tr := by
  cases c with
  | resume w => cases w <;> cases r <;> rfl
  | _ => cases r <;> rfl

/-- One returning call that respects the caller-side contract: an acquire
appends the handle it hands out to the region of its side, a release removes
the first handle of the region of its side, and nothing else changes what the
two regions read, drops included. -/
theorem run_holds_step {c : Call} {s s1 : SwitchingBundle} {r : Option Handle}
    (hw : s.well_formed) (hc : s.contiguous) (hg : c.holds_buffer s = true)
    (hret : c.run s = .returns r s1) (ch kh : List Handle)
    (hcf : s.client_frames = ch.map some) (hkf : s.compositor_frames = kh.map some) :
    s1.client_frames = (client_holds ch [(c, r)]).map some ∧
      s1.compositor_frames = (compositor_holds kh [(c, r)]).map some := by
  have hw0 := hw
  obtain ⟨hn1, hnl, hk0, hr0, hl0, hsum, ⟨hfc0, hfc1⟩, ⟨hfr0, hfr1⟩, ⟨hf0, hf1⟩⟩ := hw
  have htake : ∀ h : Handle,
      ring_at s.ring (wrap s.nbuffers (s.first_client + s.nclients)) = some h →
      SwitchingBundle.client_frames { s with nclients := s.nclients + 1 }
        = (ch ++ [h]).map some := by
    intro h hh
    show region s.ring s.nbuffers s.first_client (s.nclients + 1) = _
    rw [region_push _ _ _ hl0, emod_eq_wrap (by omega) (by omega), hh, List.map_append, ← hcf]
    rfl
  have hdrop : ∀ (h : Handle) (ring1 : List Handle), 0 < s.nready →
      ring_at s.ring (wrap s.nbuffers (s.first_client + s.nbuffers - 1)) = some h →
      ring_after_drop s.nbuffers s.first_client s.nclients 1 s.ring ring1 →
      SwitchingBundle.client_frames
          { s with first_client := wrap s.nbuffers (s.first_client + s.nbuffers - 1),
                   nready := s.nready - 1, nclients := s.nclients + 1, ring := ring1 }
        = (ch ++ [h]).map some ∧
      SwitchingBundle.compositor_frames
          { s with first_client := wrap s.nbuffers (s.first_client + s.nbuffers - 1),
                   nready := s.nready - 1, nclients := s.nclients + 1, ring := ring1 }
        = kh.map some := by
    intro h ring1 hr hh hring
    have hp := wrap_bounds (n := s.nbuffers) (x := s.first_client + s.nbuffers - 1)
      (by omega) (by omega)
    constructor
    · show region ring1 s.nbuffers (wrap s.nbuffers (s.first_client + s.nbuffers - 1))
        (s.nclients + 1) = _
      have h0 := hring.2.2.1 0 (le_refl _) (by omega)
      simp only [add_zero] at h0
      rw [wrap_of_lt hp.2, hh] at h0
      rw [region_push _ _ _ hl0, emod_eq_wrap (by omega) (by omega), h0,
        client_region_after_drop hw0 (by omega) (by omega) hring, List.map_append, ← hcf]
      rfl
    · show region ring1 s.nbuffers s.first_compositor s.ncompositors = _
      rw [compositor_region_after_drop hw0 hc (by omega : (0 : Int) ≤ 1) (by omega) hring,
        ← hkf]
      rfl
  have hcacq : ∀ h : Handle, ring_at s.ring s.first_ready = some h →
      SwitchingBundle.compositor_frames
          { s with first_ready := wrap s.nbuffers (s.first_ready + 1),
                   nready := s.nready - 1, ncompositors := s.ncompositors + 1 }
        = (kh ++ [h]).map some := by
    intro h hh
    show region s.ring s.nbuffers s.first_compositor (s.ncompositors + 1) = _
    rw [region_push _ _ _ hk0, hc.1, hh, List.map_append, ← hkf]
    rfl
  cases c with
  | client_acquire =>
    obtain ⟨h, hret1, rfl⟩ := map_returns hret
    rcases client_acquire_returns hw0 hret1 with
      ⟨-, hh, rfl⟩ | ⟨-, -, -, hr, hh, ring1, hring, rfl⟩
    · exact ⟨htake h hh, hkf⟩
    · exact hdrop h ring1 hr hh hring
  | client_release b =>
    obtain ⟨u, hret1, rfl⟩ := map_returns hret
    obtain ⟨hb, rfl⟩ := client_release_returns hw0 hret1
    simp only [Call.holds_buffer, decide_eq_true_eq] at hg
    refine ⟨?_, hkf⟩
    have hpop := region_pop s.ring hf0 hf1 hg
    rw [hb] at hpop
    have hcf2 : region s.ring s.nbuffers s.first_client s.nclients = ch.map some := hcf
    rw [hpop] at hcf2
    cases ch with
    | nil => simp at hcf2
    | cons a rest =>
      simp only [List.map_cons, List.cons.injEq, Option.some.injEq] at hcf2
      obtain ⟨rfl, hrest⟩ := hcf2
      show region s.ring s.nbuffers (wrap s.nbuffers (s.first_client + 1)) (s.nclients - 1) = _
      rw [hrest]
      simp [client_holds]
  | compositor_acquire =>
    obtain ⟨h, hret1, rfl⟩ := map_returns hret
    obtain ⟨-, hh, rfl⟩ := compositor_acquire_returns hw0 hret1
    exact ⟨hcf, hcacq h hh⟩
  | compositor_release b =>
    obtain ⟨u, hret1, rfl⟩ := map_returns hret
    obtain ⟨hb, rfl⟩ := compositor_release_returns hw0 hret1
    simp only [Call.holds_buffer, decide_eq_true_eq] at hg
    refine ⟨hcf, ?_⟩
    have hpop := region_pop s.ring hfc0 hfc1 hg
    rw [hb] at hpop
    have hkf2 : region s.ring s.nbuffers s.first_compositor s.ncompositors = kh.map some := hkf
    rw [hpop] at hkf2
    cases kh with
    | nil => simp at hkf2
    | cons a rest =>
      simp only [List.map_cons, List.cons.injEq, Option.some.injEq] at hkf2
      obtain ⟨rfl, hrest⟩ := hkf2
      show region s.ring s.nbuffers (wrap s.nbuffers (s.first_compositor + 1))
        (s.ncompositors - 1) = _
      rw [hrest]
      simp [compositor_holds]
  | force_requests_to_complete =>
    obtain ⟨u, hret1, rfl⟩ := map_returns hret
    obtain ⟨ring1, hring, heq⟩ := force_requests_to_complete_spec s hw0
    rw [heq] at hret1
    injection hret1 with e1 e2
    subst e2
    constructor
    · show region ring1 s.nbuffers (wrap s.nbuffers (s.first_client + s.nbuffers - s.nready))
        s.nclients = _
      rw [client_region_after_drop hw0 hr0 (le_refl _) hring]
      exact hcf
    · show region ring1 s.nbuffers s.first_compositor s.ncompositors = _
      rw [compositor_region_after_drop hw0 hc hr0 (le_refl _) hring]
      exact hkf
  | allow_framedropping b =>
    simp only [Call.run, SwitchingBundle.allow_framedropping, Outcome.map] at hret
    injection hret with e1 e2
    subst e1 e2
    exact ⟨hcf, hkf⟩
  | properties =>
    simp only [Call.run, SwitchingBundle.properties, Outcome.map] at hret
    injection hret with e1 e2
    subst e1 e2
    exact ⟨hcf, hkf⟩
  | resume w =>
    obtain ⟨h, hret1, rfl⟩ := map_returns hret
    cases w with
    | client_nready =>
      obtain ⟨hr, hh, ring1, hring, rfl⟩ := client_acquire_drop_returns hw0 hret1
      exact hdrop h ring1 hr hh hring
    | client_full =>
      obtain ⟨-, hh, rfl⟩ := client_acquire_block_returns hw0 hret1
      exact ⟨htake h hh, hkf⟩
    | compositor_nready =>
      obtain ⟨-, hh, rfl⟩ := compositor_acquire_returns hw0 hret1
      exact ⟨hcf, hcacq h hh⟩

/-- Along a run of returning calls that respect the caller-side contract, the
client region and the compositor region read the handles their side holds. -/
theorem execute_holds (calls : List Call) :
    ∀ (s s1 : SwitchingBundle) (tr : List (Call × Option Handle)) (ch kh : List Handle),
      s.well_formed → s.contiguous →
      s.client_frames = ch.map some → s.compositor_frames = kh.map some →
      execute Call.holds_buffer calls s = some (tr, s1) →
      s1.client_frames = (client_holds ch tr).map some ∧
        s1.compositor_frames = (compositor_holds kh tr).map some := by
  induction calls with
  | nil =>
    intro s s1 tr ch kh _ _ hcf hkf hex
    simp only [execute, Option.some.injEq, Prod.mk.injEq] at hex
    obtain ⟨rfl, rfl⟩ := hex
    exact ⟨hcf, hkf⟩
  | cons c cs ih =>
    intro s s1 tr ch kh hw hc hcf hkf hex
    unfold execute at hex
    split_ifs at hex with hg
    split at hex
    · rename_i r s2 hrun
      split at hex
      · rename_i tr2 s3 hrest
        simp only [Option.some.injEq, Prod.mk.injEq] at hex
        obtain ⟨rfl, rfl⟩ := hex
        obtain ⟨h1, h2⟩ := run_holds_step hw hc hg hrun ch kh hcf hkf
        rw [client_holds_cons, compositor_holds_cons]
        exact ih s2 s3 tr2 _ _ (run_well_formed hw hg hrun) (run_contiguous hw hc hrun)
          h1 h2 hrest
      · cases hex
    · cases hex

/-- C20 (in-order release is always accepted, drops included).  In every state
reached from the constructed bundle by returning calls that respect the
caller-side contract, the slots `(first_client + i) mod nbuffers`, `i < nclients`,
hold exactly the handles returned by `client_acquire` and not yet released, in
acquisition order, and the slots `(first_compositor + i) mod nbuffers`,
`i < ncompositors`, hold exactly those returned by `compositor_acquire` and not
yet released, in acquisition order.  So the release of the handle a side has
held longest passes the release assertion, whatever frames were dropped in between. -/
theorem in_order_release_accepted {σ : Type} (MAX_BUFFERS : Nat)
    (alloc_buffer : σ → BufferProperties → Handle × σ) (gralloc gralloc1 : σ)
    (property_request : BufferProperties) (s0 s : SwitchingBundle) (calls : List Call)
    (tr : List (Call × Option Handle))
    (hnew : SwitchingBundle.construct MAX_BUFFERS alloc_buffer gralloc property_request
      = .ok (s0, gralloc1))
    (hrun : execute Call.holds_buffer calls s0 = some (tr, s)) :
    s.client_frames = (client_holds [] tr).map some ∧
      s.compositor_frames = (compositor_holds [] tr).map some ∧
      (∀ h rest, client_holds [] tr = h :: rest →
        ∃ s1, s.client_release h = .returns () s1) ∧
      (∀ h rest, compositor_holds [] tr = h :: rest →
        ∃ s1, s.compositor_release h = .returns () s1) := by
  obtain ⟨hw0, hc0, -, hk, -, hl, -⟩ := construct_invariant hnew
  have hcf0 : s0.client_frames = ([] : List Handle).map some := by
    simp [SwitchingBundle.client_frames, region, hl]
  have hkf0 : s0.compositor_frames = ([] : List Handle).map some := by
    simp [SwitchingBundle.compositor_frames, region, hk]
  obtain ⟨hcf, hkf⟩ := execute_holds calls s0 s tr [] [] hw0 hc0 hcf0 hkf0 hrun
  obtain ⟨hw, -⟩ := execute_invariant calls s0 s tr hw0 hc0 hrun
  have hfc := hw.2.2.2.2.2.2.1
  have hf := hw.2.2.2.2.2.2.2.2
  refine ⟨hcf, hkf, ?_, ?_⟩
  · intro h rest hheld
    rw [hheld] at hcf
    obtain ⟨-, hx⟩ := region_head hf.1 hf.2 hcf
    rw [client_release_spec s hw h, if_pos hx.symm]
    exact ⟨_, rfl⟩
  · intro h rest hheld
    rw [hheld] at hkf
    obtain ⟨-, hx⟩ := region_head hfc.1 hfc.2 hkf
    rw [compositor_release_spec s hw h, if_pos hx.symm]
    exact ⟨_, rfl⟩

/-- C20, at a concrete run with a drop: with dropping enabled the client
releases 100, acquires 101 and acquires on the full ring, which drops the ready
frame 100 and hands it out again; the client region reads 101, 100. -/
theorem in_order_release_accepted_witness :
    SwitchingBundle.construct 3 counting_allocator 0 example_properties
        = .ok (example_initial, 3) ∧
      execute Call.holds_buffer
          [.allow_framedropping true, .client_acquire, .client_release 100,
           .client_acquire, .client_acquire]
          example_initial
        = some ([(.allow_framedropping true, none), (.client_acquire, some 100),
                 (.client_release 100, none), (.client_acquire, some 101),
                 (.client_acquire, some 100)],
                example_recycled) ∧
      (example_recycled.client_frames = [some 101, some 100] ∧
        example_recycled.compositor_frames = [] ∧
        (∀ h rest, [101, 100] = h :: rest →
          ∃ s1, example_recycled.client_release h = .returns () s1) ∧
        (∀ h rest, ([] : List Handle) = h :: rest →
          ∃ s1, example_recycled.compositor_release h = .returns () s1)) :=
  ⟨rfl, rfl,
    in_order_release_accepted 3 counting_allocator 0 3 example_properties example_initial
      example_recycled
      [.allow_framedropping true, .client_acquire, .client_release 100,
       .client_acquire, .client_acquire]
      [(.allow_framedropping true, none), (.client_acquire, some 100),
       (.client_release 100, none), (.client_acquire, some 101),
       (.client_acquire, some 100)] rfl rfl⟩

/-! ## What no member function touches -/

theorem except_bind_ok {ε α β : Type} {x : Except ε α} {f : α → Except ε β} {b : β}
    (h : x.bind f = .ok b) : ∃ a, x = .ok a ∧ f a = .ok b := by
  cases x with
  | error e => cases h
  | ok a => exact ⟨a, rfl, h⟩

/-- One round of `drop_frames`, in any state: when it returns it has changed
only `first_client`, `nready` and the ring. -/
theorem drop_frames_body_frame {s s1 : SwitchingBundle} (h : s.drop_frames_body = .ok s1) :
    ∃ f ring1, s1 = { s with first_client := f, nready := s.nready - 1, ring := ring1 } := by
  unfold SwitchingBundle.drop_frames_body at h
  obtain ⟨f, -, h⟩ := except_bind_ok h
  simp only [] at h
  obtain ⟨tmp, -, h⟩ := except_bind_ok h
  obtain ⟨e, -, h⟩ := except_bind_ok h
  obtain ⟨ring1, -, h⟩ := except_bind_ok h
  obtain ⟨ring2, -, h⟩ := except_bind_ok h
  injection h with h
  exact ⟨f, ring2, h.symm⟩

/-- The loop of `drop_frames`, in any state: when it returns it has left the
construction-time properties, `nbuffers`, the policy flag, `nclients`, the
compositor region and `first_ready` as they were. -/
theorem drop_frames_loop_frame (d : Nat) :
    ∀ s s1 : SwitchingBundle, drop_frames_loop d s = .ok s1 →
      s1.bundle_properties = s.bundle_properties ∧ s1.nbuffers = s.nbuffers ∧
      s1.framedropping = s.framedropping ∧ s1.nclients = s.nclients ∧
      s1.ncompositors = s.ncompositors ∧ s1.first_compositor = s.first_compositor ∧
      s1.first_ready = s.first_ready ∧ s1.nready = s.nready - d := by
  induction d with
  | zero =>
    intro s s1 h
    simp only [drop_frames_loop] at h
    injection h with h
    subst h
    simp
  | succ d ih =>
    intro s s1 h
    rw [drop_frames_loop] at h
    obtain ⟨s2, hbody, h⟩ := except_bind_ok h
    obtain ⟨f, ring1, rfl⟩ := drop_frames_body_frame hbody
    obtain ⟨h1, h2, h3, h4, h5, h6, h7, h8⟩ := ih _ s1 h
    refine ⟨h1, h2, h3, h4, h5, h6, h7, ?_⟩
    rw [h8]
    push_cast
    show s.nready - 1 - (d : Int) = s.nready - ((d : Int) + 1)
    omega

/-- The private member `drop_frames`, in any state and with any argument. -/
theorem drop_frames_frame {s s1 : SwitchingBundle} {max k : Int}
    (h : s.drop_frames max = .ok (k, s1)) :
    s1.bundle_properties = s.bundle_properties ∧ s1.nbuffers = s.nbuffers ∧
      s1.framedropping = s.framedropping ∧ s1.nclients = s.nclients ∧
      s1.ncompositors = s.ncompositors ∧ s1.first_compositor = s.first_compositor ∧
      s1.first_ready = s.first_ready := by
  unfold SwitchingBundle.drop_frames at h
  obtain ⟨s2, hloop, h⟩ := except_bind_ok h
  injection h with h
  injection h with e1 e2
  subst e2
  obtain ⟨h1, h2, h3, h4, h5, h6, h7, -⟩ := drop_frames_loop_frame _ s s2 hloop
  exact ⟨h1, h2, h3, h4, h5, h6, h7⟩

/-- A returning call, in any state, leaves the construction-time properties
and `nbuffers` as they were. -/
theorem run_frame {c : Call} {s s1 : SwitchingBundle} {r : Option Handle}
    (hret : c.run s = .returns r s1) :
    s1.bundle_properties = s.bundle_properties ∧ s1.nbuffers = s.nbuffers := by
  have hdrop : ∀ h : Handle, s.client_acquire_drop = .returns h s1 →
      s1.bundle_properties = s.bundle_properties ∧ s1.nbuffers = s.nbuffers := by
    intro h hret
    obtain ⟨k, s2, hd, htake⟩ := client_acquire_drop_inv hret
    obtain ⟨h1, h2, -⟩ := drop_frames_frame hd
    rw [client_acquire_take_state htake]
    exact ⟨h1, h2⟩
  have hblock : ∀ h : Handle, s.client_acquire_block = .returns h s1 →
      s1.bundle_properties = s.bundle_properties ∧ s1.nbuffers = s.nbuffers := by
    intro h hret
    unfold SwitchingBundle.client_acquire_block at hret
    split_ifs at hret
    rw [client_acquire_take_state hret]
    exact ⟨rfl, rfl⟩
  have hcacq : ∀ h : Handle, s.compositor_acquire = .returns h s1 →
      s1.bundle_properties = s.bundle_properties ∧ s1.nbuffers = s.nbuffers := by
    intro h hret
    unfold SwitchingBundle.compositor_acquire at hret
    split_ifs at hret
    simp only [] at hret
    split at hret
    · cases hret
    · split at hret
      · cases hret
      · injection hret with e1 e2
        subst e2
        exact ⟨rfl, rfl⟩
  cases c with
  | client_acquire =>
    obtain ⟨h, hret1, -⟩ := map_returns hret
    unfold SwitchingBundle.client_acquire at hret1
    split_ifs at hret1
    · exact hdrop h hret1
    · rw [client_acquire_take_state hret1]
      exact ⟨rfl, rfl⟩
    · exact hblock h hret1
  | client_release b =>
    obtain ⟨u, hret1, -⟩ := map_returns hret
    unfold SwitchingBundle.client_release at hret1
    split at hret1
    · cases hret1
    · split_ifs at hret1
      split at hret1
      · cases hret1
      · injection hret1 with e1 e2
        subst e2
        exact ⟨rfl, rfl⟩
  | compositor_acquire =>
    obtain ⟨h, hret1, -⟩ := map_returns hret
    exact hcacq h hret1
  | compositor_release b =>
    obtain ⟨u, hret1, -⟩ := map_returns hret
    obtain ⟨f, rfl⟩ := compositor_release_state hret1
    exact ⟨rfl, rfl⟩
  | force_requests_to_complete =>
    obtain ⟨u, hret1, -⟩ := map_returns hret
    unfold SwitchingBundle.force_requests_to_complete at hret1
    split at hret1
    · cases hret1
    · rename_i k s2 hd
      injection hret1 with e1 e2
      subst e2
      obtain ⟨h1, h2, -⟩ := drop_frames_frame hd
      exact ⟨h1, h2⟩
  | allow_framedropping b =>
    simp only [Call.run, SwitchingBundle.allow_framedropping, Outcome.map] at hret
    injection hret with e1 e2
    subst e2
    exact ⟨rfl, rfl⟩
  | properties =>
    simp only [Call.run, SwitchingBundle.properties, Outcome.map] at hret
    injection hret with e1 e2
    subst e2
    exact ⟨rfl, rfl⟩
  | resume w =>
    obtain ⟨h, hret1, -⟩ := map_returns hret
    cases w with
    | client_nready => exact hdrop h hret1
    | client_full => exact hblock h hret1
    | compositor_nready => exact hcacq h hret1

/-- A run of returning calls, from any state and whatever the calls, leaves the
construction-time properties as they were. -/
theorem execute_frame (guard : Call → SwitchingBundle → Bool) (calls : List Call) :
    ∀ (s s1 : SwitchingBundle) (tr : List (Call × Option Handle)),
      execute guard calls s = some (tr, s1) →
      s1.bundle_properties = s.bundle_properties ∧ s1.nbuffers = s.nbuffers := by
  induction calls with
  | nil =>
    intro s s1 tr hex
    simp only [execute, Option.some.injEq, Prod.mk.injEq] at hex
    obtain ⟨-, rfl⟩ := hex
    exact ⟨rfl, rfl⟩
  | cons c cs ih =>
    intro s s1 tr hex
    unfold execute at hex
    split_ifs at hex with hg
    split at hex
    · rename_i r s2 hrun
      split at hex
      · rename_i tr2 s3 hrest
        simp only [Option.some.injEq, Prod.mk.injEq] at hex
        obtain ⟨-, rfl⟩ := hex
        obtain ⟨h1, h2⟩ := run_frame hrun
        obtain ⟨h3, h4⟩ := ih s2 s3 tr2 hrest
        exact ⟨h3.trans h1, h4.trans h2⟩
      · cases hex
    · cases hex

/-! ## Construction and the two members that move no buffer -/

/-- The allocation loop run on a recording allocator: the same handles and the
same allocator state as without the record, and one record entry per slot, in
slot order, each with the properties the loop was given. -/
theorem alloc_ring_recording {σ : Type} (alloc_buffer : σ → BufferProperties → Handle × σ)
    (p : BufferProperties) (n : Nat) :
    ∀ (g : σ) (log : List (BufferProperties × Handle)),
      alloc_ring (recording alloc_buffer) p n (g, log) =
        ((alloc_ring alloc_buffer p n g).1,
          ((alloc_ring alloc_buffer p n g).2,
            log ++ (alloc_ring alloc_buffer p n g).1.map fun h => (p, h))) := by
  induction n with
  | zero => intro g log; simp [alloc_ring]
  | succ n ih =>
    intro g log
    simp only [alloc_ring, recording, ih, List.map_cons, List.append_assoc,
      List.singleton_append]

theorem alloc_ring_length {σ : Type} (alloc_buffer : σ → BufferProperties → Handle × σ)
    (p : BufferProperties) (n : Nat) :
    ∀ g : σ, (alloc_ring alloc_buffer p n g).1.length = n := by
  induction n with
  | zero => intro g; rfl
  | succ n ih => intro g; simp [alloc_ring, ih]

/-- The constructor told step by step yields what `SwitchingBundle.construct`
yields, and the allocator state that comes with a constructed bundle. -/
theorem construct_steps_eq {σ : Type} (MAX_BUFFERS : Nat)
    (alloc_buffer : σ → BufferProperties → Handle × σ) (gralloc : σ)
    (property_request : BufferProperties) :
    SwitchingBundle.construct MAX_BUFFERS alloc_buffer gralloc property_request =
      match SwitchingBundle.construct_steps MAX_BUFFERS alloc_buffer gralloc
          property_request with
      | (.ok s0, gralloc1) => .ok (s0, gralloc1)
      | (.error a, _) => .error a := by
  unfold SwitchingBundle.construct SwitchingBundle.construct_steps
  simp only []
  split_ifs <;> rfl

/-- C21 (construction).  When `MAX_BUFFERS` is at least 2 the constructor
returns, whatever the allocator; run on the same allocator with a record of its
calls it builds the same bundle, and the record then has exactly `MAX_BUFFERS`
entries, entry `i` being the construction-time properties and the handle in
`ring[i]`.  The bundle has the construction-time properties, `nbuffers` 2, all
start indices and counts 0 and frame dropping disabled.  When `MAX_BUFFERS` is
below 2 the assertion of line 72 fails, whatever the allocator, and the
allocator is left as it was, its record empty: the check comes before any
allocation. -/
theorem constructor_contract {σ : Type} (MAX_BUFFERS : Nat)
    (alloc_buffer : σ → BufferProperties → Handle × σ) (gralloc : σ)
    (property_request : BufferProperties) :
    (2 ≤ MAX_BUFFERS →
      ∃ s0 gralloc1,
        SwitchingBundle.construct MAX_BUFFERS alloc_buffer gralloc property_request
          = .ok (s0, gralloc1) ∧
        SwitchingBundle.construct MAX_BUFFERS (recording alloc_buffer) (gralloc, [])
            property_request
          = .ok (s0, (gralloc1, s0.ring.map fun h => (property_request, h))) ∧
        SwitchingBundle.construct_steps MAX_BUFFERS (recording alloc_buffer) (gralloc, [])
            property_request
          = (.ok s0, (gralloc1, s0.ring.map fun h => (property_request, h))) ∧
        s0.ring.length = MAX_BUFFERS ∧
        s0.bundle_properties = property_request ∧ s0.nbuffers = 2 ∧
        s0.first_compositor = 0 ∧ s0.ncompositors = 0 ∧
        s0.first_ready = 0 ∧ s0.nready = 0 ∧
        s0.first_client = 0 ∧ s0.nclients = 0 ∧ s0.framedropping = false) ∧
    (MAX_BUFFERS < 2 →
      SwitchingBundle.construct MAX_BUFFERS alloc_buffer gralloc property_request
        = .error .assertion ∧
      SwitchingBundle.construct_steps MAX_BUFFERS alloc_buffer gralloc property_request
        = (.error .assertion, gralloc) ∧
      SwitchingBundle.construct_steps MAX_BUFFERS (recording alloc_buffer) (gralloc, [])
          property_request
        = (.error .assertion, (gralloc, []))) := by
  constructor
  · intro hM
    have hM2 : (2 : Int) > 0 ∧ (2 : Int) ≤ (MAX_BUFFERS : Int) := by omega
    refine ⟨{ bundle_properties := property_request,
              ring := (alloc_ring alloc_buffer property_request MAX_BUFFERS gralloc).1,
              nbuffers := 2,
              first_compositor := 0, ncompositors := 0,
              first_ready := 0, nready := 0,
              first_client := 0, nclients := 0,
              framedropping := false },
      (alloc_ring alloc_buffer property_request MAX_BUFFERS gralloc).2, ?_, ?_, ?_, ?_⟩
    · unfold SwitchingBundle.construct
      simp only []
      rw [if_pos hM2]
    · unfold SwitchingBundle.construct
      simp only []
      rw [if_pos hM2, alloc_ring_recording]
      simp
    · unfold SwitchingBundle.construct_steps
      simp only []
      rw [if_pos hM2, alloc_ring_recording]
      simp
    · simp [alloc_ring_length]
  · intro hM
    have hM2 : ¬ ((2 : Int) > 0 ∧ (2 : Int) ≤ (MAX_BUFFERS : Int)) := by omega
    refine ⟨?_, ?_, ?_⟩
    · unfold SwitchingBundle.construct
      simp only []
      rw [if_neg hM2]
    · unfold SwitchingBundle.construct_steps
      simp only []
      rw [if_neg hM2]
    · unfold SwitchingBundle.construct_steps
      simp only []
      rw [if_neg hM2]

/-- C21, at the counting allocator: with `MAX_BUFFERS` 3 it is asked three
times and the bundle is `example_initial`; with `MAX_BUFFERS` 1 the assertion
fails and the allocator has not been asked. -/
theorem constructor_contract_witness :
    SwitchingBundle.construct 3 counting_allocator 0 example_properties
        = .ok (example_initial, 3) ∧
      SwitchingBundle.construct 3 (recording counting_allocator) (0, []) example_properties
        = .ok (example_initial,
            (3, [(example_properties, 100), (example_properties, 101),
                 (example_properties, 102)])) ∧
      SwitchingBundle.construct 1 counting_allocator 0 example_properties
        = .error .assertion ∧
      SwitchingBundle.construct_steps 1 (recording counting_allocator) (0, [])
          example_properties
        = (.error .assertion, (0, [])) := by
  obtain ⟨hok, hfail⟩ := constructor_contract 3 counting_allocator 0 example_properties
  obtain ⟨s0, g1, h1, h2, -⟩ := hok (by decide)
  have e : SwitchingBundle.construct 3 counting_allocator 0 example_properties
      = .ok (example_initial, 3) := rfl
  rw [e] at h1
  injection h1 with h1
  injection h1 with e1 e2
  subst e1 e2
  obtain ⟨k1, -, k3⟩ :=
    (constructor_contract 1 counting_allocator 0 example_properties).2 (by decide)
  exact ⟨e, h2, k1, k3⟩

/-- C22 (properties).  On the constructed bundle and after any sequence of
returning calls, with any arguments and in any order, `properties` returns the
descriptor that was passed to the constructor and leaves the state as it is. -/
theorem properties_constant {σ : Type} (MAX_BUFFERS : Nat)
    (alloc_buffer : σ → BufferProperties → Handle × σ) (gralloc gralloc1 : σ)
    (property_request : BufferProperties) (s0 s : SwitchingBundle)
    (guard : Call → SwitchingBundle → Bool) (calls : List Call)
    (tr : List (Call × Option Handle))
    (hnew : SwitchingBundle.construct MAX_BUFFERS alloc_buffer gralloc property_request
      = .ok (s0, gralloc1))
    (hex : execute guard calls s0 = some (tr, s)) :
    s0.properties = .returns property_request s0 ∧
      s.properties = .returns property_request s := by
  have h0 : s0.bundle_properties = property_request := by
    unfold SwitchingBundle.construct at hnew
    simp only [] at hnew
    split_ifs at hnew
    injection hnew with hnew
    injection hnew with e1 e2
    subst e1
    rfl
  obtain ⟨h1, -⟩ := execute_frame guard calls s0 s tr hex
  unfold SwitchingBundle.properties
  rw [h1, h0]
  exact ⟨rfl, rfl⟩

/-- C22, at the example bundle: after frame dropping is switched on, two
acquires, two releases, a third acquire that drops a frame and a drain,
`properties` still returns the construction-time descriptor. -/
theorem properties_constant_witness :
    example_initial.properties = .returns example_properties example_initial ∧
      ({ example_initial with ring := [101, 100, 102], nclients := 1, framedropping := true }
          : SwitchingBundle).properties
        = .returns example_properties
            { example_initial with ring := [101, 100, 102], nclients := 1,
                                   framedropping := true } :=
  properties_constant 3 counting_allocator 0 3 example_properties example_initial _
    (fun _ _ => true)
    [.allow_framedropping true, .client_acquire, .client_acquire, .client_release 100,
     .client_release 101, .client_acquire, .force_requests_to_complete, .properties]
    [(.allow_framedropping true, none), (.client_acquire, some 100),
     (.client_acquire, some 101), (.client_release 100, none), (.client_release 101, none),
     (.client_acquire, some 101), (.force_requests_to_complete, none), (.properties, none)]
    rfl (by decide)

/-- One round of `drop_frames` does not look at the policy flag. -/
theorem drop_frames_body_flag (s : SwitchingBundle) (b : Bool) :
    SwitchingBundle.drop_frames_body { s with framedropping := b } =
      (s.drop_frames_body).map fun t => { t with framedropping := b } := by
  unfold SwitchingBundle.drop_frames_body
  simp only []
  cases cmod (s.first_client + s.nbuffers - 1) s.nbuffers with
  | error a => rfl
  | ok f =>
    simp only [Except.bind]
    cases ring_get s.ring f with
    | error a => rfl
    | ok tmp =>
      simp only []
      cases cmod (f + s.nclients) s.nbuffers with
      | error a => rfl
      | ok e =>
        simp only []
        cases shift_loop s.nbuffers e s.nbuffers.natAbs f s.ring with
        | error a => rfl
        | ok ring1 =>
          simp only []
          cases ring_set ring1 e tmp with
          | error a => rfl
          | ok ring2 => rfl

theorem drop_frames_loop_flag (d : Nat) (b : Bool) :
    ∀ s : SwitchingBundle, drop_frames_loop d { s with framedropping := b } =
      (drop_frames_loop d s).map fun t => { t with framedropping := b } := by
  induction d with
  | zero => intro s; rfl
  | succ d ih =>
    intro s
    rw [drop_frames_loop, drop_frames_loop, drop_frames_body_flag]
    cases s.drop_frames_body with
    | error a => rfl
    | ok t => exact ih t

theorem client_acquire_take_flag (s : SwitchingBundle) (b : Bool) :
    SwitchingBundle.client_acquire_take { s with framedropping := b } =
      (s.client_acquire_take).with_framedropping b := by
  unfold SwitchingBundle.client_acquire_take
  simp only []
  cases cmod (s.first_client + s.nclients) s.nbuffers with
  | error a => rfl
  | ok client =>
    simp only []
    cases ring_get s.ring client with
    | error a => rfl
    | ok h => rfl

/-- A thread woken in one of the three wait loops goes on without looking at
the policy flag: a changed flag changes nothing but the flag of the state left. -/
theorem resume_flag (s : SwitchingBundle) (b : Bool) (w : WaitLoop) :
    SwitchingBundle.resume { s with framedropping := b } w =
      (s.resume w).with_framedropping b := by
  cases w with
  | client_nready =>
    show SwitchingBundle.client_acquire_drop { s with framedropping := b } = _
    unfold SwitchingBundle.resume SwitchingBundle.client_acquire_drop
      SwitchingBundle.drop_frames
    simp only []
    by_cases hr : s.nready = 0
    · rw [if_pos hr, if_pos hr]; rfl
    · rw [if_neg hr, if_neg hr, drop_frames_loop_flag]
      cases drop_frames_loop (if 1 > s.nready then s.nready else 1).toNat s with
      | error a => rfl
      | ok t => exact client_acquire_take_flag t b
  | client_full =>
    show SwitchingBundle.client_acquire_block { s with framedropping := b } = _
    unfold SwitchingBundle.resume SwitchingBundle.client_acquire_block
    simp only []
    by_cases hf : s.ncompositors + s.nready + s.nclients ≥ s.nbuffers
    · rw [if_pos hf, if_pos hf]; rfl
    · rw [if_neg hf, if_neg hf]
      exact client_acquire_take_flag s b
  | compositor_nready =>
    show SwitchingBundle.compositor_acquire { s with framedropping := b } = _
    unfold SwitchingBundle.resume SwitchingBundle.compositor_acquire
    simp only []
    by_cases hr : s.nready ≤ 0
    · rw [if_pos hr, if_pos hr]; rfl
    · rw [if_neg hr, if_neg hr]
      cases cmod (s.first_ready + 1) s.nbuffers with
      | error a => rfl
      | ok f =>
        simp only []
        cases ring_get s.ring s.first_ready with
        | error a => rfl
        | ok h => rfl

/-- C23 (allow_framedropping).  In any state `allow_framedropping(b)` returns
at once and changes nothing but the policy flag, which becomes `b`.  A
`client_acquire` made next goes into the frame-dropping branch (lines 105-113:
drop when the ring is full, else take a free slot) when `b` is true and
`nbuffers > 1`, and into the blocking branch (lines 115-119) otherwise.  When
the flag already is `b` the call leaves the state as it is.  A thread woken in
a wait loop after the call goes on as it would have without it. -/
theorem allow_framedropping_contract (s : SwitchingBundle) (b : Bool) :
    s.allow_framedropping b = .returns () { s with framedropping := b } ∧
      (b = true ∧ 1 < s.nbuffers →
        SwitchingBundle.client_acquire { s with framedropping := b } =
          if s.ncompositors + s.nready + s.nclients ≥ s.nbuffers
          then SwitchingBundle.client_acquire_drop { s with framedropping := b }
          else SwitchingBundle.client_acquire_take { s with framedropping := b }) ∧
      (¬ (b = true ∧ 1 < s.nbuffers) →
        SwitchingBundle.client_acquire { s with framedropping := b } =
          SwitchingBundle.client_acquire_block { s with framedropping := b }) ∧
      (s.framedropping = b → s.allow_framedropping b = .returns () s) ∧
      ∀ w, SwitchingBundle.resume { s with framedropping := b } w =
        (s.resume w).with_framedropping b := by
  refine ⟨rfl, ?_, ?_, ?_, resume_flag s b⟩
  · intro hb
    unfold SwitchingBundle.client_acquire
    rw [if_pos (show b = true ∧ s.nbuffers > 1 from ⟨hb.1, hb.2⟩)]
  · intro hb
    unfold SwitchingBundle.client_acquire
    rw [if_neg (show ¬ (b = true ∧ s.nbuffers > 1) from fun h => hb ⟨h.1, h.2⟩)]
  · intro hb
    subst hb
    rfl

/-- C23, at the example bundle with buffer 100 ready and buffer 101 at the
client: after `allow_framedropping(true)` the next `client_acquire` drops the
ready frame and returns buffer 100, after `allow_framedropping(false)` it blocks
at line 117, and `allow_framedropping(false)` changes nothing there. -/
theorem allow_framedropping_contract_witness :
    example_released.allow_framedropping true = .returns () example_dropping ∧
      example_dropping.client_acquire = .returns 100 example_recycled ∧
      example_released.client_acquire = .waits .client_full ∧
      example_released.allow_framedropping false = .returns () example_released := by
  obtain ⟨h1, h2, h3, h4, -⟩ := allow_framedropping_contract example_released true
  obtain ⟨-, -, k3, k4, -⟩ := allow_framedropping_contract example_released false
  refine ⟨h1, ?_, ?_, k4 rfl⟩
  · exact (h2 (by decide)).trans (by decide)
  · exact (k3 (by decide)).trans (by decide)

/-- C24 (deadlock freedom at the state level).  In every state within bounds
some handoff call returns without waiting: with a buffer at the client,
`client_release` of the handle in `ring[first_client]`; with a buffer at the
compositor, `compositor_release` of the handle in `ring[first_compositor]`;
with a ready frame, `compositor_acquire`; and with all three counts 0 a fresh
`client_acquire`. -/
theorem deadlock_freedom (s : SwitchingBundle) (hw : s.well_formed) :
    (0 < s.nclients →
      ∃ h s1, ring_at s.ring s.first_client = some h ∧
        s.client_release h = .returns () s1) ∧
    (0 < s.ncompositors →
      ∃ h s1, ring_at s.ring s.first_compositor = some h ∧
        s.compositor_release h = .returns () s1) ∧
    (0 < s.nready → ∃ h s1, s.compositor_acquire = .returns h s1) ∧
    (s.nclients = 0 ∧ s.ncompositors = 0 ∧ s.nready = 0 →
      ∃ h s1, s.client_acquire = .returns h s1) ∧
    ∃ (c : Call) (r : Option Handle) (s1 : SwitchingBundle),
      c.holds_buffer s = true ∧ c.run s = .returns r s1 ∧
      (c = Call.client_acquire ∨ c = Call.compositor_acquire ∨
        (∃ h, c = Call.client_release h) ∨ ∃ h, c = Call.compositor_release h) := by
  obtain ⟨h1, h2, h3, h4, h5, h6, ⟨h7, h8⟩, ⟨h9, h10⟩, h11, h12⟩ := hw
  have hw : s.well_formed := ⟨h1, h2, h3, h4, h5, h6, ⟨h7, h8⟩, ⟨h9, h10⟩, h11, h12⟩
  have hcr : 0 < s.nclients →
      ∃ h s1, ring_at s.ring s.first_client = some h ∧
        s.client_release h = .returns () s1 := by
    intro _
    obtain ⟨h, hh⟩ := ring_at_some s.ring h11 (by omega)
    have hcall := client_release_spec s hw h
    rw [if_pos hh] at hcall
    exact ⟨h, _, hh, hcall⟩
  have hcmr : 0 < s.ncompositors →
      ∃ h s1, ring_at s.ring s.first_compositor = some h ∧
        s.compositor_release h = .returns () s1 := by
    intro _
    obtain ⟨h, hh⟩ := ring_at_some s.ring h7 (by omega)
    have hcall := compositor_release_spec s hw h
    rw [if_pos hh] at hcall
    exact ⟨h, _, hh, hcall⟩
  have hca : 0 < s.nready → ∃ h s1, s.compositor_acquire = .returns h s1 := by
    intro hr
    obtain ⟨h, -, hh⟩ := compositor_acquire_spec s hw hr
    exact ⟨h, _, hh⟩
  have hcl : s.nclients = 0 ∧ s.ncompositors = 0 ∧ s.nready = 0 →
      ∃ h s1, s.client_acquire = .returns h s1 := by
    intro h0
    obtain ⟨h, -, hh⟩ := client_acquire_take_spec s hw
    rw [← client_acquire_eq_take (by omega)] at hh
    exact ⟨h, _, hh⟩
  refine ⟨hcr, hcmr, hca, hcl, ?_⟩
  by_cases c1 : 0 < s.nclients
  · obtain ⟨h, s1, -, hh⟩ := hcr c1
    refine ⟨.client_release h, none, s1, ?_, ?_, Or.inr (Or.inr (Or.inl ⟨h, rfl⟩))⟩
    · simp [Call.holds_buffer, c1]
    · simp [Call.run, hh, Outcome.map]
  · by_cases c2 : 0 < s.ncompositors
    · obtain ⟨h, s1, -, hh⟩ := hcmr c2
      refine ⟨.compositor_release h, none, s1, ?_, ?_, Or.inr (Or.inr (Or.inr ⟨h, rfl⟩))⟩
      · simp [Call.holds_buffer, c2]
      · simp [Call.run, hh, Outcome.map]
    · by_cases c3 : 0 < s.nready
      · obtain ⟨h, s1, hh⟩ := hca c3
        refine ⟨.compositor_acquire, some h, s1, rfl, ?_, Or.inr (Or.inl rfl)⟩
        simp [Call.run, hh, Outcome.map]
      · obtain ⟨h, s1, hh⟩ := hcl ⟨by omega, by omega, by omega⟩
        refine ⟨.client_acquire, some h, s1, rfl, ?_, Or.inl rfl⟩
        simp [Call.run, hh, Outcome.map]

/-- C24, at the example bundle with buffer 100 at the compositor and buffer 101
at the client, where a `client_acquire` would wait: both releases return. -/
theorem deadlock_freedom_witness :
    example_busy.well_formed ∧
      (∃ h s1, ring_at example_busy.ring example_busy.first_client = some h ∧
        example_busy.client_release h = .returns () s1) ∧
      (∃ h s1, ring_at example_busy.ring example_busy.first_compositor = some h ∧
        example_busy.compositor_release h = .returns () s1) :=
  ⟨by decide, (deadlock_freedom example_busy (by decide)).1 (by decide),
    (deadlock_freedom example_busy (by decide)).2.1 (by decide)⟩

/-! ## What a drop does to the ring -/

/-- C26 (rotation on drop keeps the other regions intact).  In a state within
bounds whose regions are contiguous and which has a ready frame,
`drop_frames(1)` returns 1 and moves `first_client` one slot back; after it
(a) the client region reads the same handles in the same order from its new
start, (b) the handle of the discarded frame, which was in the last ready slot
(the slot that is the new `first_client`), sits in the slot right after the
client region, which is the first free slot, and (c) every slot of the
compositor region, of the remaining ready region and of the region that was
free before holds the handle it held. -/
theorem rotation_keeps_regions (s : SwitchingBundle) (hw : s.well_formed)
    (hc : s.contiguous) (hr : 0 < s.nready) :
    ∃ s1, s.drop_frames 1 = .ok (1, s1) ∧
      s1.first_client = (s.first_client - 1) % s.nbuffers ∧
      s1.nclients = s.nclients ∧ s1.nready = s.nready - 1 ∧
      s1.ncompositors = s.ncompositors ∧ s1.first_compositor = s.first_compositor ∧
      s1.first_ready = s.first_ready ∧ s1.nbuffers = s.nbuffers ∧
      (∀ t, 0 ≤ t → t < s.nclients →
        ring_at s1.ring ((s1.first_client + t) % s.nbuffers) =
          ring_at s.ring ((s.first_client + t) % s.nbuffers)) ∧
      (s1.first_client = (s.first_ready + (s.nready - 1)) % s.nbuffers ∧
        ring_at s1.ring ((s1.first_client + s1.nclients) % s.nbuffers) =
          ring_at s.ring ((s.first_ready + (s.nready - 1)) % s.nbuffers)) ∧
      (∀ t, 0 ≤ t → t < s.ncompositors →
        ring_at s1.ring ((s.first_compositor + t) % s.nbuffers) =
          ring_at s.ring ((s.first_compositor + t) % s.nbuffers)) ∧
      (∀ t, 0 ≤ t → t < s.nready - 1 →
        ring_at s1.ring ((s.first_ready + t) % s.nbuffers) =
          ring_at s.ring ((s.first_ready + t) % s.nbuffers)) ∧
      (∀ t, 0 ≤ t → t < s.nbuffers - (s.ncompositors + s.nready + s.nclients) →
        ring_at s1.ring ((s.first_client + s.nclients + t) % s.nbuffers) =
          ring_at s.ring ((s.first_client + s.nclients + t) % s.nbuffers)) := by
  obtain ⟨hc1, hc2⟩ := (contiguous_iff_wrap hw).1 hc
  obtain ⟨h1, h2, h3, h4, h5, h6, ⟨h7, h8⟩, ⟨h9, h10⟩, h11, h12⟩ := hw
  have hw : s.well_formed := ⟨h1, h2, h3, h4, h5, h6, ⟨h7, h8⟩, ⟨h9, h10⟩, h11, h12⟩
  obtain ⟨ring1, hcall, -, ha, hb, hrest⟩ :=
    drop_frames_spec s hw 1 1 (by omega) (by rw [if_neg (by omega)])
  refine ⟨_, hcall, ?_, rfl, rfl, rfl, rfl, rfl, rfl, ?_, ⟨?_, ?_⟩, ?_, ?_, ?_⟩
  · show wrap s.nbuffers (s.first_client + s.nbuffers - 1) = _
    rw [emod_small (by omega) (by omega)]
    unfold wrap
    split_ifs <;> omega
  · intro t ht0 ht1
    show ring_at ring1 ((wrap s.nbuffers (s.first_client + s.nbuffers - 1) + t) % s.nbuffers) = _
    have e1 : (wrap s.nbuffers (s.first_client + s.nbuffers - 1) + t) % s.nbuffers
        = wrap s.nbuffers (wrap s.nbuffers (s.first_client + s.nbuffers - 1) + t) := by
      apply emod_eq_wrap
      · unfold wrap; split_ifs <;> omega
      · unfold wrap; split_ifs <;> omega
    have e2 : (s.first_client + t) % s.nbuffers = wrap s.nbuffers (s.first_client + t) :=
      emod_eq_wrap (by omega) (by omega)
    rw [e1, e2]
    exact ha t ht0 ht1
  · show wrap s.nbuffers (s.first_client + s.nbuffers - 1) = _
    rw [emod_small (by omega) (by omega)]
    unfold wrap at hc2 ⊢
    split_ifs at hc2 ⊢ <;> omega
  · show ring_at ring1
      ((wrap s.nbuffers (s.first_client + s.nbuffers - 1) + s.nclients) % s.nbuffers) = _
    have e1 : (wrap s.nbuffers (s.first_client + s.nbuffers - 1) + s.nclients) % s.nbuffers
        = wrap s.nbuffers (wrap s.nbuffers (s.first_client + s.nbuffers - 1)
            + (s.nclients + 0)) := by
      rw [add_zero]
      apply emod_eq_wrap
      · unfold wrap; split_ifs <;> omega
      · unfold wrap; split_ifs <;> omega
    have e2 : (s.first_ready + (s.nready - 1)) % s.nbuffers
        = wrap s.nbuffers (wrap s.nbuffers (s.first_client + s.nbuffers - 1) + 0) := by
      rw [emod_small (by omega) (by omega)]
      unfold wrap at hc2 ⊢
      split_ifs at hc2 ⊢ <;> omega
    rw [e1, e2]
    exact hb 0 (le_refl 0) (by omega)
  · intro t ht0 ht1
    apply hrest
    rw [emod_small (by omega) (by omega)]
    unfold in_span wrap
    unfold wrap at hc1 hc2
    split_ifs at hc1 hc2 ⊢ <;> omega
  · intro t ht0 ht1
    apply hrest
    rw [emod_small (by omega) (by omega)]
    unfold in_span wrap
    unfold wrap at hc1 hc2
    split_ifs at hc1 hc2 ⊢ <;> omega
  · intro t ht0 ht1
    apply hrest
    rw [emod_small (by omega) (by omega)]
    unfold in_span wrap
    unfold wrap at hc1 hc2
    split_ifs at hc1 hc2 ⊢ <;> omega

/-- C26, at the bundle of five buffers with every region in use: the ready
frame 102 is dropped and lands behind the client's buffer 103. -/
theorem rotation_keeps_regions_witness :
    example_five.well_formed ∧ example_five.contiguous ∧ 0 < example_five.nready ∧
      example_five.drop_frames 1 = .ok (1, example_five_dropped) ∧
      ∃ s1, example_five.drop_frames 1 = .ok (1, s1) ∧
        s1.first_client = (example_five.first_client - 1) % example_five.nbuffers ∧
        s1.nclients = example_five.nclients ∧ s1.nready = example_five.nready - 1 := by
  obtain ⟨s1, h, k1, k2, k3, -⟩ :=
    rotation_keeps_regions example_five (by decide) (by decide) (by decide)
  exact ⟨by decide, by decide, by decide, rfl, s1, h, k1, k2, k3⟩

/-- C27 (a dropped frame is recycled directly to the acquiring client).  In a
state within bounds whose regions are contiguous, with frame dropping enabled,
`nbuffers > 1`, a full ring and a ready frame, `client_acquire` returns without
waiting, and the handle it returns is the handle of the frame that
`drop_frames(1)` discards: the one in the last ready slot, which
`drop_frames(1)` leaves in the slot right after the client region.  The ready
region after the call is the old one without that last frame, and when the
handles in the active ring are pairwise distinct the returned handle is not in it. -/
theorem dropped_frame_recycled (s : SwitchingBundle) (hw : s.well_formed)
    (hc : s.contiguous) (hflag : s.framedropping = true) (hnb : 1 < s.nbuffers)
    (hfull : s.nbuffers ≤ s.ncompositors + s.nready + s.nclients) (hr : 0 < s.nready) :
    ∃ h s1 sd, s.drop_frames 1 = .ok (1, sd) ∧
      ring_at s.ring ((s.first_ready + (s.nready - 1)) % s.nbuffers) = some h ∧
      ring_at sd.ring ((sd.first_client + sd.nclients) % sd.nbuffers) = some h ∧
      s.client_acquire = .returns h s1 ∧
      s1.nready = s.nready - 1 ∧
      s1.ready_frames = s.ready_frames.take (s.nready - 1).toNat ∧
      (s.slots.Nodup → ∀ x ∈ s1.ready_frames, x ≠ some h) := by
  obtain ⟨hc1, hc2⟩ := (contiguous_iff_wrap hw).1 hc
  obtain ⟨h1, h2, h3, h4, h5, h6, ⟨h7, h8⟩, ⟨h9, h10⟩, h11, h12⟩ := hw
  have hw : s.well_formed := ⟨h1, h2, h3, h4, h5, h6, ⟨h7, h8⟩, ⟨h9, h10⟩, h11, h12⟩
  obtain ⟨ring1, hcall, hring⟩ :=
    drop_frames_spec s hw 1 1 (by omega) (by rw [if_neg (by omega)])
  have hlen : ring1.length = s.ring.length := hring.1
  have hwd := well_formed_after_drop hw (d := 1) (by omega) (by omega) hlen
  obtain ⟨h, hslot, htake⟩ := client_acquire_take_spec _ hwd
  have hacq0 : s.client_acquire = SwitchingBundle.client_acquire_take
      { s with first_client := wrap s.nbuffers (s.first_client + s.nbuffers - 1),
               nready := s.nready - 1, ring := ring1 } := by
    unfold SwitchingBundle.client_acquire SwitchingBundle.client_acquire_drop
    rw [if_pos ⟨hflag, by omega⟩, if_pos (by omega), if_neg (by omega), hcall]
  have hacq := hacq0.trans htake
  have hready := ready_frames_after_drop hw hc (d := 1) (by omega) (by omega) hring
  have hlast : ring_at s.ring ((s.first_ready + (s.nready - 1)) % s.nbuffers) = some h := by
    rw [← hslot]
    have e2 : (s.first_ready + (s.nready - 1)) % s.nbuffers
        = wrap s.nbuffers (wrap s.nbuffers (s.first_client + s.nbuffers - 1) + 0) := by
      rw [emod_small (by omega) (by omega)]
      unfold wrap at hc2 ⊢
      split_ifs at hc2 ⊢ <;> omega
    rw [e2]
    have hb := hring.2.2.1 0 (le_refl 0) (by omega)
    rw [add_zero] at hb
    exact hb.symm
  refine ⟨h, _, _, hcall, hlast, ?_, hacq, rfl, hready, ?_⟩
  · rw [← hslot]
    show ring_at ring1
      ((wrap s.nbuffers (s.first_client + s.nbuffers - 1) + s.nclients) % s.nbuffers) = _
    congr 1
    apply emod_eq_wrap
    · unfold wrap; split_ifs <;> omega
    · unfold wrap; split_ifs <;> omega
  · intro hnd
    exact (client_acquire_fresh hw hc hnd hacq).2.1

/-- C27, at the example bundle with dropping enabled, buffer 100 ready and
buffer 101 at the client: the frame 100 is dropped and buffer 100 is what the
client gets; no frame is ready afterwards. -/
theorem dropped_frame_recycled_witness :
    example_dropping.well_formed ∧ example_dropping.contiguous ∧
      example_dropping.client_acquire = .returns 100 example_recycled ∧
      example_recycled.ready_frames = [] ∧
      ∃ h s1 sd, example_dropping.drop_frames 1 = .ok (1, sd) ∧
        ring_at example_dropping.ring
          ((example_dropping.first_ready + (example_dropping.nready - 1))
            % example_dropping.nbuffers) = some h ∧
        ring_at sd.ring ((sd.first_client + sd.nclients) % sd.nbuffers) = some h ∧
        example_dropping.client_acquire = .returns h s1 := by
  obtain ⟨h, s1, sd, k1, k2, k3, k4, -⟩ :=
    dropped_frame_recycled example_dropping (by decide) (by decide) rfl (by decide)
      (by decide) (by decide)
  exact ⟨by decide, by decide, rfl, by decide, h, s1, sd, k1, k2, k3, k4⟩

/-! ## Termination and cost of `drop_frames` -/

/-- The counted inner loop is the inner loop: it makes the same ring, or fails
the same way. -/
theorem shift_loop_counted_ring (n e : Int) :
    ∀ (fuel : Nat) (i : Int) (ring : List Handle),
      (shift_loop_counted n e fuel i ring).map Prod.fst = shift_loop n e fuel i ring := by
  intro fuel
  induction fuel with
  | zero =>
    intro i ring
    unfold shift_loop_counted shift_loop
    split_ifs <;> rfl
  | succ fuel ih =>
    intro i ring
    rw [shift_loop_counted, shift_loop]
    split_ifs
    · rfl
    · cases cmod (i + 1) n with
      | error a => rfl
      | ok j =>
        simp only [Except.bind]
        cases ring_get ring j with
        | error a => rfl
        | ok h =>
          simp only []
          cases ring_set ring i h with
          | error a => rfl
          | ok ring1 =>
            simp only []
            rw [← ih j ring1]
            cases shift_loop_counted n e fuel j ring1 with
            | error a => rfl
            | ok r => rfl

/-- The inner loop started `k` slots before `end`, `k < nbuffers`, executes its
body exactly `k` times. -/
theorem shift_loop_counted_spec (n : Int) (k : Nat) :
    ∀ (fuel : Nat) (i : Int) (ring : List Handle),
      0 ≤ i → i < n → n ≤ ring.length → (k : Int) < n → k ≤ fuel →
      shift_loop_counted n (wrap n (i + k)) fuel i ring =
        (shift_loop n (wrap n (i + k)) fuel i ring).map fun r => (r, k) := by
  induction k with
  | zero =>
    intro fuel i ring h0 h1 _ _ _
    have he : wrap n (i + ((0 : Nat) : Int)) = i := by unfold wrap; simp; omega
    rw [he]
    cases fuel <;> simp [shift_loop, shift_loop_counted, Except.map]
  | succ k ih =>
    intro fuel i ring h0 h1 hlen hk hfuel
    obtain ⟨fuel, rfl⟩ : ∃ f, fuel = f + 1 := ⟨fuel - 1, by omega⟩
    have hne : i ≠ wrap n (i + ((k + 1 : Nat) : Int)) := by
      unfold wrap; split <;> omega
    have hj0 : 0 ≤ wrap n (i + 1) := by unfold wrap; split <;> omega
    have hj1 : wrap n (i + 1) < n := by unfold wrap; split <;> omega
    obtain ⟨h, hh⟩ := ring_at_some ring hj0 (by omega)
    have hlen1 : n ≤ ((ring.set i.toNat h).length : Int) := by simpa using hlen
    have hrec := ih fuel (wrap n (i + 1)) (ring.set i.toNat h) hj0 hj1 hlen1 (by omega)
      (by omega)
    have he : wrap n (wrap n (i + 1) + (k : Int)) = wrap n (i + ((k + 1 : Nat) : Int)) := by
      unfold wrap; push_cast; split <;> split <;> split <;> omega
    rw [he] at hrec
    rw [shift_loop_counted, shift_loop, if_neg hne, if_neg hne,
      cmod_wrap (by omega) (by omega) (by omega)]
    simp only [Except.bind]
    rw [ring_get_ok hh]
    simp only []
    rw [ring_set_ok h0 (by omega)]
    simp only []
    rw [hrec]
    cases shift_loop n (wrap n (i + ((k + 1 : Nat) : Int))) fuel (wrap n (i + 1))
      (ring.set i.toNat h) with
    | error a => rfl
    | ok r => rfl

/-- One round of `drop_frames` in a state within bounds with a ready frame: the
counted round is the round, and its inner loop makes `nclients` assignments. -/
theorem drop_frames_body_counted_spec (s : SwitchingBundle) (hw : s.well_formed)
    (hr : 0 < s.nready) :
    s.drop_frames_body_counted = (s.drop_frames_body).map fun t => (t, s.nclients.toNat) := by
  obtain ⟨hn1, hnl, hc0, hr0, hk0, hsum, ⟨_, _⟩, ⟨_, _⟩, ⟨hf0, hf1⟩⟩ := hw
  have hp0 : 0 ≤ wrap s.nbuffers (s.first_client + s.nbuffers - 1) := by
    unfold wrap; split <;> omega
  have hp1 : wrap s.nbuffers (s.first_client + s.nbuffers - 1) < s.nbuffers := by
    unfold wrap; split <;> omega
  obtain ⟨tmp, htmp⟩ := ring_at_some s.ring hp0 (by omega)
  have hkc : ((s.nclients.toNat : Nat) : Int) = s.nclients := Int.toNat_of_nonneg hk0
  have hcount := shift_loop_counted_spec s.nbuffers s.nclients.toNat s.nbuffers.natAbs
    (wrap s.nbuffers (s.first_client + s.nbuffers - 1)) s.ring hp0 hp1 hnl
    (by omega) (by omega)
  rw [hkc] at hcount
  unfold SwitchingBundle.drop_frames_body_counted SwitchingBundle.drop_frames_body
  rw [cmod_wrap (by omega) (by omega) (by omega)]
  simp only [Except.bind]
  rw [ring_get_ok htmp]
  simp only []
  rw [cmod_wrap (by omega) (by omega) (by omega)]
  simp only []
  rw [hcount]
  cases shift_loop s.nbuffers
      (wrap s.nbuffers (wrap s.nbuffers (s.first_client + s.nbuffers - 1) + s.nclients))
      s.nbuffers.natAbs (wrap s.nbuffers (s.first_client + s.nbuffers - 1)) s.ring with
  | error a => rfl
  | ok ring1 =>
    simp only [Except.map]
    cases ring_set ring1
        (wrap s.nbuffers (wrap s.nbuffers (s.first_client + s.nbuffers - 1) + s.nclients))
        tmp with
    | error a => rfl
    | ok ring2 => rfl

/-- The loop of `drop_frames` run for `d` rounds, `d` at most the number of
ready frames, in a state within bounds: the counted loop is the loop, and each
round makes `nclients` assignments. -/
theorem drop_frames_loop_counted_spec (d : Nat) :
    ∀ s : SwitchingBundle, s.well_formed → (d : Int) ≤ s.nready →
      drop_frames_loop_counted d s =
        (drop_frames_loop d s).map fun t => (t, List.replicate d s.nclients.toNat) := by
  induction d with
  | zero => intro s _ _; rfl
  | succ d ih =>
    intro s hw hd
    obtain ⟨ring1, hbody, hl1, -⟩ := drop_frames_body_spec s hw (by omega)
    have hw1 := well_formed_after_drop hw (d := 1) (by omega) (by omega) hl1
    have hrec := ih _ hw1 (by show (d : Int) ≤ s.nready - 1; omega)
    rw [drop_frames_loop_counted, drop_frames_loop, drop_frames_body_counted_spec s hw (by omega),
      hbody]
    simp only [Except.map, Except.bind]
    rw [hrec]
    cases drop_frames_loop d
      { s with first_client := wrap s.nbuffers (s.first_client + s.nbuffers - 1),
               nready := s.nready - 1, ring := ring1 } with
    | error a => rfl
    | ok t => rfl

/-- C29 (drop_frames terminates with work proportional to nclients).  In every
state within bounds and for every argument `max`, `drop_frames(max)` returns:
it neither loops for ever nor leaves the array.  The number of frames it drops
is `min(max, nready)` when that is positive and none otherwise, and for each
dropped frame the inner loop of lines 91-92 executes its assignment exactly
`nclients` times, so not at all when `nclients` is 0. -/
theorem drop_frames_terminates (s : SwitchingBundle) (hw : s.well_formed) (max : Int) :
    ∃ d s1, s.drop_frames max = .ok (d, s1) ∧
      d = (if max > s.nready then s.nready else max) ∧
      s.drop_frames_counted max
        = .ok (d, s1, List.replicate d.toNat s.nclients.toNat) ∧
      (s.nclients = 0 → s.drop_frames_counted max = .ok (d, s1, List.replicate d.toNat 0)) := by
  have hr0 : 0 ≤ s.nready := hw.2.2.2.1
  have hd : (((if max > s.nready then s.nready else max).toNat : Nat) : Int) ≤ s.nready := by
    split_ifs <;> omega
  have hret : ∃ s1, drop_frames_loop (if max > s.nready then s.nready else max).toNat s
      = .ok s1 := by
    obtain ⟨ring1, hloop, -⟩ := drop_frames_loop_spec _ s hw hd
    exact ⟨_, hloop⟩
  obtain ⟨s1, hloop⟩ := hret
  have hcount := drop_frames_loop_counted_spec _ s hw hd
  rw [hloop] at hcount
  have hcall : s.drop_frames max = .ok (if max > s.nready then s.nready else max, s1) := by
    unfold SwitchingBundle.drop_frames
    simp only []
    rw [hloop]
    rfl
  have hcalc : s.drop_frames_counted max = .ok (if max > s.nready then s.nready else max, s1,
      List.replicate (if max > s.nready then s.nready else max).toNat s.nclients.toNat) := by
    unfold SwitchingBundle.drop_frames_counted
    simp only []
    rw [hcount]
    rfl
  refine ⟨_, s1, hcall, rfl, hcalc, ?_⟩
  intro h0
  rw [hcalc, h0]
  rfl

/-- C29, at the bundle of five buffers with two ready frames and one buffer at
the client: `drop_frames(7)` drops both frames with one assignment each, and
`drop_frames(-1)` drops none. -/
theorem drop_frames_terminates_witness :
    example_five.well_formed ∧
      example_five.drop_frames_counted 7
        = .ok (2, { example_five with ring := [100, 103, 101, 102, 104], nready := 0,
                                      first_client := 1 }, [1, 1]) ∧
      example_five.drop_frames_counted (-1) = .ok (-1, example_five, []) ∧
      ∃ d s1, example_five.drop_frames 7 = .ok (d, s1) ∧
        d = (if 7 > example_five.nready then example_five.nready else 7) ∧
        example_five.drop_frames_counted 7
          = .ok (d, s1, List.replicate d.toNat example_five.nclients.toNat) := by
  obtain ⟨d, s1, k1, k2, k3, -⟩ := drop_frames_terminates example_five (by decide) 7
  exact ⟨by decide, rfl, rfl, d, s1, k1, k2, k3⟩

/-! ## Index safety -/

theorem ring_at_take (ring : List Handle) (n : Nat) (j : Int) :
    ring_at (ring.take n) j = if j < (n : Int) then ring_at ring j else none := by
  unfold ring_at
  by_cases h0 : 0 ≤ j
  · rw [if_pos h0, if_pos h0, List.getElem?_take]
    by_cases h1 : j < (n : Int)
    · rw [if_pos h1, if_pos (by omega)]
    · rw [if_neg h1, if_neg (by omega)]
  · rw [if_neg h0, if_neg h0]
    split_ifs <;> rfl

theorem ring_at_ext {a b : List Handle} (h : ∀ j : Int, ring_at a j = ring_at b j) : a = b := by
  apply List.ext_getElem?
  intro i
  have hi := h (i : Int)
  unfold ring_at at hi
  rw [if_pos (by omega), if_pos (by omega)] at hi
  simpa using hi

/-- Reading an active slot of the cut-down array gives what the full array holds there. -/
theorem ring_at_trimmed (s : SwitchingBundle) (hn : 0 ≤ s.nbuffers) {j : Int}
    (hj : j < s.nbuffers) : ring_at s.trimmed.ring j = ring_at s.ring j := by
  show ring_at (s.ring.take s.nbuffers.toNat) j = _
  rw [ring_at_take, if_pos (by omega)]

theorem trimmed_well_formed {s : SwitchingBundle} (hw : s.well_formed) :
    s.trimmed.well_formed := by
  obtain ⟨h1, h2, h3, h4, h5, h6, h7, h8, h9⟩ := hw
  refine ⟨h1, ?_, h3, h4, h5, h6, h7, h8, h9⟩
  show s.nbuffers ≤ ((s.ring.take s.nbuffers.toNat).length : Int)
  rw [List.length_take]
  omega

/-- The array of the cut-down bundle has exactly `nbuffers` slots. -/
theorem trimmed_length {s : SwitchingBundle} (hw : s.well_formed) :
    (s.trimmed.ring.length : Int) = s.nbuffers := by
  obtain ⟨h1, h2, -⟩ := hw
  show ((s.ring.take s.nbuffers.toNat).length : Int) = _
  rw [List.length_take]
  omega

theorem client_acquire_take_trimmed (s : SwitchingBundle) (hw : s.well_formed) :
    s.trimmed.client_acquire_take = (s.client_acquire_take).trimmed := by
  obtain ⟨h, hh, hcall⟩ := client_acquire_take_spec s hw
  obtain ⟨h1, hh1, hcall1⟩ := client_acquire_take_spec s.trimmed (trimmed_well_formed hw)
  obtain ⟨k1, k2, k3, k4, k5, k6, ⟨k7, k8⟩, ⟨k9, k10⟩, k11, k12⟩ := hw
  have hq := wrap_bounds (n := s.nbuffers) (x := s.first_client + s.nclients)
    (by omega) (by omega)
  have e : ring_at s.trimmed.ring (wrap s.nbuffers (s.first_client + s.nclients))
      = ring_at s.ring (wrap s.nbuffers (s.first_client + s.nclients)) :=
    ring_at_trimmed s (by omega) hq.2
  have hh2 : ring_at s.trimmed.ring (wrap s.nbuffers (s.first_client + s.nclients))
      = some h1 := hh1
  rw [e, hh] at hh2
  injection hh2 with hh2
  subst hh2
  rw [hcall1, hcall]
  rfl

theorem client_release_trimmed (s : SwitchingBundle) (hw : s.well_formed) (b : Handle) :
    s.trimmed.client_release b = (s.client_release b).trimmed := by
  rw [client_release_spec s hw b, client_release_spec s.trimmed (trimmed_well_formed hw) b]
  have e : ring_at s.trimmed.ring s.trimmed.first_client = ring_at s.ring s.first_client :=
    ring_at_trimmed s (by have := hw.1; omega) hw.2.2.2.2.2.2.2.2.2
  rw [e]
  split_ifs <;> rfl

theorem compositor_release_trimmed (s : SwitchingBundle) (hw : s.well_formed) (b : Handle) :
    s.trimmed.compositor_release b = (s.compositor_release b).trimmed := by
  rw [compositor_release_spec s hw b,
    compositor_release_spec s.trimmed (trimmed_well_formed hw) b]
  have e : ring_at s.trimmed.ring s.trimmed.first_compositor
      = ring_at s.ring s.first_compositor :=
    ring_at_trimmed s (by have := hw.1; omega) hw.2.2.2.2.2.2.1.2
  rw [e]
  split_ifs <;> rfl

theorem compositor_acquire_trimmed (s : SwitchingBundle) (hw : s.well_formed) :
    s.trimmed.compositor_acquire = (s.compositor_acquire).trimmed := by
  by_cases hr : s.nready ≤ 0
  · unfold SwitchingBundle.compositor_acquire
    rw [if_pos hr, if_pos (show s.trimmed.nready ≤ 0 from hr)]
    rfl
  · obtain ⟨h, hh, hcall⟩ := compositor_acquire_spec s hw (by omega)
    obtain ⟨h1, hh1, hcall1⟩ := compositor_acquire_spec s.trimmed (trimmed_well_formed hw)
      (show 0 < s.nready by omega)
    have e : ring_at s.trimmed.ring s.first_ready = ring_at s.ring s.first_ready :=
      ring_at_trimmed s (by have := hw.1; omega) hw.2.2.2.2.2.2.2.1.2
    have hh2 : ring_at s.trimmed.ring s.first_ready = some h1 := hh1
    rw [e, hh] at hh2
    injection hh2 with hh2
    subst hh2
    rw [hcall1, hcall]
    rfl

theorem drop_frames_body_trimmed (s : SwitchingBundle) (hw : s.well_formed)
    (hr : 0 < s.nready) :
    s.trimmed.drop_frames_body = (s.drop_frames_body).map SwitchingBundle.trimmed := by
  obtain ⟨ring1, hbody, hl, hat⟩ := drop_frames_body_spec s hw hr
  obtain ⟨ring2, hbody2, hl2, hat2⟩ :=
    drop_frames_body_spec s.trimmed (trimmed_well_formed hw) hr
  obtain ⟨k1, k2, k3, k4, k5, k6, ⟨k7, k8⟩, ⟨k9, k10⟩, k11, k12⟩ := hw
  have hp := wrap_bounds (n := s.nbuffers) (x := s.first_client + s.nbuffers - 1)
    (by omega) (by omega)
  have he := wrap_bounds (n := s.nbuffers)
    (x := wrap s.nbuffers (s.first_client + s.nbuffers - 1) + s.nclients)
    (by omega) (by omega)
  have hn : ((s.nbuffers.toNat : Nat) : Int) = s.nbuffers := Int.toNat_of_nonneg (by omega)
  have hat3 : ∀ j, ring_at ring2 j =
      if in_span s.nbuffers (wrap s.nbuffers (s.first_client + s.nbuffers - 1)) s.nclients j
      then ring_at (s.ring.take s.nbuffers.toNat) (wrap s.nbuffers (j + 1))
      else if j = wrap s.nbuffers
          (wrap s.nbuffers (s.first_client + s.nbuffers - 1) + s.nclients)
      then ring_at (s.ring.take s.nbuffers.toNat)
        (wrap s.nbuffers (s.first_client + s.nbuffers - 1))
      else ring_at (s.ring.take s.nbuffers.toNat) j := hat2
  have hring : ring2 = ring1.take s.nbuffers.toNat := by
    apply ring_at_ext
    intro j
    rw [hat3 j, ring_at_take ring1, hat j]
    simp only [ring_at_take, hn]
    generalize wrap s.nbuffers (wrap s.nbuffers (s.first_client + s.nbuffers - 1) + s.nclients)
      = e at he
    generalize wrap s.nbuffers (s.first_client + s.nbuffers - 1) = p at hp
    by_cases hP : in_span s.nbuffers p s.nclients j
    · have hj : 0 ≤ j ∧ j < s.nbuffers := by unfold in_span at hP; omega
      have hq : wrap s.nbuffers (j + 1) < s.nbuffers := by unfold wrap; split_ifs <;> omega
      simp only [if_pos hP, if_pos hj.2, if_pos hq]
    · by_cases hQ : j = e
      · subst hQ
        simp only [if_neg hP, if_pos hp.2, if_pos he.2, if_true]
      · simp only [if_neg hP, if_neg hQ]
  subst hring
  rw [hbody2, hbody]
  rfl

theorem drop_frames_loop_trimmed (d : Nat) :
    ∀ s : SwitchingBundle, s.well_formed → (d : Int) ≤ s.nready →
      drop_frames_loop d s.trimmed = (drop_frames_loop d s).map SwitchingBundle.trimmed := by
  induction d with
  | zero => intro s _ _; rfl
  | succ d ih =>
    intro s hw hd
    obtain ⟨ring1, hbody, hl1, -⟩ := drop_frames_body_spec s hw (by omega)
    have hw1 := well_formed_after_drop hw (d := 1) (by omega) (by omega) hl1
    have hrec := ih _ hw1 (by show (d : Int) ≤ s.nready - 1; omega)
    rw [drop_frames_loop, drop_frames_loop, drop_frames_body_trimmed s hw (by omega), hbody]
    exact hrec

/-- The private member `drop_frames(max)` in a state within bounds: on the
array cut down to the active slots it does what it does on the full array. -/
theorem drop_frames_trimmed (s : SwitchingBundle) (hw : s.well_formed) (max : Int) :
    s.trimmed.drop_frames max =
      (s.drop_frames max).map fun r => (r.1, r.2.trimmed) := by
  have hr0 : 0 ≤ s.nready := hw.2.2.2.1
  have hd : (((if max > s.nready then s.nready else max).toNat : Nat) : Int) ≤ s.nready := by
    split_ifs <;> omega
  have hloop := drop_frames_loop_trimmed _ s hw hd
  unfold SwitchingBundle.drop_frames
  simp only []
  show (drop_frames_loop (if max > s.nready then s.nready else max).toNat s.trimmed).bind _ = _
  rw [hloop]
  cases drop_frames_loop (if max > s.nready then s.nready else max).toNat s with
  | error a => rfl
  | ok t => rfl

theorem client_acquire_drop_trimmed (s : SwitchingBundle) (hw : s.well_formed) :
    s.trimmed.client_acquire_drop = (s.client_acquire_drop).trimmed := by
  by_cases hr : s.nready = 0
  · unfold SwitchingBundle.client_acquire_drop
    rw [if_pos hr, if_pos (show s.trimmed.nready = 0 from hr)]
    rfl
  · have hr0 : 0 ≤ s.nready := hw.2.2.2.1
    obtain ⟨ring1, hcall, hring⟩ :=
      drop_frames_spec s hw 1 1 (by omega) (by rw [if_neg (by omega)])
    have hwd := well_formed_after_drop hw (d := 1) (by omega) (by omega) hring.1
    have htake := client_acquire_take_trimmed _ hwd
    unfold SwitchingBundle.client_acquire_drop
    rw [if_neg hr, if_neg (show ¬ s.trimmed.nready = 0 from hr), drop_frames_trimmed s hw 1,
      hcall]
    exact htake

theorem client_acquire_block_trimmed (s : SwitchingBundle) (hw : s.well_formed) :
    s.trimmed.client_acquire_block = (s.client_acquire_block).trimmed := by
  unfold SwitchingBundle.client_acquire_block
  by_cases hf : s.ncompositors + s.nready + s.nclients ≥ s.nbuffers
  · rw [if_pos hf,
      if_pos (show s.trimmed.ncompositors + s.trimmed.nready + s.trimmed.nclients
        ≥ s.trimmed.nbuffers from hf)]
    rfl
  · rw [if_neg hf,
      if_neg (show ¬ s.trimmed.ncompositors + s.trimmed.nready + s.trimmed.nclients
        ≥ s.trimmed.nbuffers from hf)]
    exact client_acquire_take_trimmed s hw

theorem client_acquire_trimmed (s : SwitchingBundle) (hw : s.well_formed) :
    s.trimmed.client_acquire = (s.client_acquire).trimmed := by
  unfold SwitchingBundle.client_acquire
  by_cases hb : s.framedropping = true ∧ s.nbuffers > 1
  · rw [if_pos hb, if_pos (show s.trimmed.framedropping = true ∧ s.trimmed.nbuffers > 1 from hb)]
    by_cases hf : s.ncompositors + s.nready + s.nclients ≥ s.nbuffers
    · rw [if_pos hf,
        if_pos (show s.trimmed.ncompositors + s.trimmed.nready + s.trimmed.nclients
          ≥ s.trimmed.nbuffers from hf)]
      exact client_acquire_drop_trimmed s hw
    · rw [if_neg hf,
        if_neg (show ¬ s.trimmed.ncompositors + s.trimmed.nready + s.trimmed.nclients
          ≥ s.trimmed.nbuffers from hf)]
      exact client_acquire_take_trimmed s hw
  · rw [if_neg hb,
      if_neg (show ¬ (s.trimmed.framedropping = true ∧ s.trimmed.nbuffers > 1) from hb)]
    exact client_acquire_block_trimmed s hw

theorem force_requests_to_complete_trimmed (s : SwitchingBundle) (hw : s.well_formed) :
    s.trimmed.force_requests_to_complete = (s.force_requests_to_complete).trimmed := by
  unfold SwitchingBundle.force_requests_to_complete
  show (match s.trimmed.drop_frames s.nready with
    | .error a => Outcome.aborts a
    | .ok (_, s1) => Outcome.returns () s1) = _
  rw [drop_frames_trimmed s hw s.nready]
  cases s.drop_frames s.nready with
  | error a => rfl
  | ok r => rfl

theorem map_trimmed {α β : Type} (f : α → β) (o : Outcome α) :
    (o.map f).trimmed = (o.trimmed).map f := by
  cases o <;> rfl

/-- Every call, made in a state within bounds, does on the array cut down to
the active slots what it does on the full array. -/
theorem run_trimmed (c : Call) (s : SwitchingBundle) (hw : s.well_formed) :
    c.run s.trimmed = (c.run s).trimmed := by
  cases c with
  | client_acquire =>
    show (s.trimmed.client_acquire).map some = ((s.client_acquire).map some).trimmed
    rw [map_trimmed, client_acquire_trimmed s hw]
  | client_release b =>
    show (s.trimmed.client_release b).map (fun _ => none)
      = ((s.client_release b).map fun _ => none).trimmed
    rw [map_trimmed, client_release_trimmed s hw]
  | compositor_acquire =>
    show (s.trimmed.compositor_acquire).map some = ((s.compositor_acquire).map some).trimmed
    rw [map_trimmed, compositor_acquire_trimmed s hw]
  | compositor_release b =>
    show (s.trimmed.compositor_release b).map (fun _ => none)
      = ((s.compositor_release b).map fun _ => none).trimmed
    rw [map_trimmed, compositor_release_trimmed s hw]
  | force_requests_to_complete =>
    show (s.trimmed.force_requests_to_complete).map (fun _ => none)
      = ((s.force_requests_to_complete).map fun _ => none).trimmed
    rw [map_trimmed, force_requests_to_complete_trimmed s hw]
  | allow_framedropping b => rfl
  | properties => rfl
  | resume w =>
    cases w with
    | client_nready =>
      show (s.trimmed.client_acquire_drop).map some
        = ((s.client_acquire_drop).map some).trimmed
      rw [map_trimmed, client_acquire_drop_trimmed s hw]
    | client_full =>
      show (s.trimmed.client_acquire_block).map some
        = ((s.client_acquire_block).map some).trimmed
      rw [map_trimmed, client_acquire_block_trimmed s hw]
    | compositor_nready =>
      show (s.trimmed.compositor_acquire).map some
        = ((s.compositor_acquire).map some).trimmed
      rw [map_trimmed, compositor_acquire_trimmed s hw]

theorem map_index_safe {α β : Type} (f : α → β) (n : Int) (o : Outcome α)
    (h : o.index_safe n) : (o.map f).index_safe n := by
  cases o <;> exact h

theorem client_acquire_take_index_safe (s : SwitchingBundle) (hw : s.well_formed) :
    (s.client_acquire_take).index_safe s.nbuffers := by
  obtain ⟨h, -, hcall⟩ := client_acquire_take_spec s hw
  rw [hcall]
  exact ⟨rfl, hw.2.2.2.2.2.2⟩

theorem client_acquire_drop_index_safe (s : SwitchingBundle) (hw : s.well_formed) :
    (s.client_acquire_drop).index_safe s.nbuffers := by
  by_cases hr : s.nready = 0
  · unfold SwitchingBundle.client_acquire_drop
    rw [if_pos hr]
    trivial
  · obtain ⟨k1, k2, k3, k4, k5, k6, ⟨k7, k8⟩, ⟨k9, k10⟩, k11, k12⟩ := hw
    have hw : s.well_formed := ⟨k1, k2, k3, k4, k5, k6, ⟨k7, k8⟩, ⟨k9, k10⟩, k11, k12⟩
    obtain ⟨h, ring1, -, hcall, -⟩ := client_acquire_drop_spec s hw (by omega)
    rw [hcall]
    exact ⟨rfl, ⟨k7, k8⟩, ⟨k9, k10⟩, wrap_bounds (by omega) (by omega)⟩

theorem client_acquire_block_index_safe (s : SwitchingBundle) (hw : s.well_formed) :
    (s.client_acquire_block).index_safe s.nbuffers := by
  unfold SwitchingBundle.client_acquire_block
  split_ifs
  · trivial
  · exact client_acquire_take_index_safe s hw

theorem compositor_acquire_index_safe (s : SwitchingBundle) (hw : s.well_formed) :
    (s.compositor_acquire).index_safe s.nbuffers := by
  by_cases hr : s.nready ≤ 0
  · unfold SwitchingBundle.compositor_acquire
    rw [if_pos hr]
    trivial
  · obtain ⟨k1, k2, k3, k4, k5, k6, ⟨k7, k8⟩, ⟨k9, k10⟩, k11, k12⟩ := hw
    have hw : s.well_formed := ⟨k1, k2, k3, k4, k5, k6, ⟨k7, k8⟩, ⟨k9, k10⟩, k11, k12⟩
    obtain ⟨h, -, hcall⟩ := compositor_acquire_spec s hw (by omega)
    rw [hcall]
    exact ⟨rfl, ⟨k7, k8⟩, wrap_bounds (by omega) (by omega), k11, k12⟩

/-- The private member `drop_frames(max)` in a state within bounds returns, and
leaves the three start indices inside the ring. -/
theorem drop_frames_index_safe (s : SwitchingBundle) (hw : s.well_formed) (max : Int) :
    ∃ d s1, s.drop_frames max = .ok (d, s1) ∧ s1.nbuffers = s.nbuffers ∧
      s1.starts_in_ring := by
  obtain ⟨k1, k2, k3, k4, k5, k6, ⟨k7, k8⟩, ⟨k9, k10⟩, k11, k12⟩ := hw
  have hw : s.well_formed := ⟨k1, k2, k3, k4, k5, k6, ⟨k7, k8⟩, ⟨k9, k10⟩, k11, k12⟩
  have hd : (((if max > s.nready then s.nready else max).toNat : Nat) : Int) ≤ s.nready := by
    split_ifs <;> omega
  obtain ⟨ring1, hloop, -⟩ := drop_frames_loop_spec _ s hw hd
  have hcall : s.drop_frames max = .ok (if max > s.nready then s.nready else max,
      { s with first_client := wrap s.nbuffers (s.first_client + s.nbuffers
                 - ((if max > s.nready then s.nready else max).toNat : Nat)),
               nready := s.nready - ((if max > s.nready then s.nready else max).toNat : Nat),
               ring := ring1 }) := by
    unfold SwitchingBundle.drop_frames
    simp only []
    rw [hloop]
    rfl
  exact ⟨_, _, hcall, rfl, ⟨k7, k8⟩, ⟨k9, k10⟩, wrap_bounds (by omega) (by omega)⟩

/-- Every call, made in a state within bounds, stays inside the array, comes
to an end, and when it returns leaves the three start indices inside the ring. -/
theorem run_index_safe (c : Call) (s : SwitchingBundle) (hw : s.well_formed) :
    (c.run s).index_safe s.nbuffers := by
  obtain ⟨k1, k2, k3, k4, k5, k6, ⟨k7, k8⟩, ⟨k9, k10⟩, k11, k12⟩ := hw
  have hw : s.well_formed := ⟨k1, k2, k3, k4, k5, k6, ⟨k7, k8⟩, ⟨k9, k10⟩, k11, k12⟩
  cases c with
  | client_acquire =>
    apply map_index_safe
    unfold SwitchingBundle.client_acquire
    split_ifs
    · exact client_acquire_drop_index_safe s hw
    · exact client_acquire_take_index_safe s hw
    · exact client_acquire_block_index_safe s hw
  | client_release b =>
    apply map_index_safe
    rw [client_release_spec s hw b]
    split_ifs
    · exact ⟨rfl, ⟨k7, k8⟩, ⟨k9, k10⟩, wrap_bounds (by omega) (by omega)⟩
    · exact rfl
  | compositor_acquire =>
    apply map_index_safe
    exact compositor_acquire_index_safe s hw
  | compositor_release b =>
    apply map_index_safe
    rw [compositor_release_spec s hw b]
    split_ifs
    · exact ⟨rfl, wrap_bounds (by omega) (by omega), ⟨k9, k10⟩, k11, k12⟩
    · exact rfl
  | force_requests_to_complete =>
    apply map_index_safe
    obtain ⟨d, s1, hcall, hn, hs⟩ := drop_frames_index_safe s hw s.nready
    unfold SwitchingBundle.force_requests_to_complete
    rw [hcall]
    exact ⟨hn, hs⟩
  | allow_framedropping b => exact ⟨rfl, ⟨k7, k8⟩, ⟨k9, k10⟩, k11, k12⟩
  | properties => exact ⟨rfl, ⟨k7, k8⟩, ⟨k9, k10⟩, k11, k12⟩
  | resume w =>
    apply map_index_safe
    cases w with
    | client_nready => exact client_acquire_drop_index_safe s hw
    | client_full => exact client_acquire_block_index_safe s hw
    | compositor_nready => exact compositor_acquire_index_safe s hw

/-- C30 (index safety).  Take a state within bounds and cut its array down to
the `nbuffers` active slots, so that any index outside `[0, nbuffers)` is
outside the array.  Every call (the four handoff calls, the drain, the two
others, and a woken call going on from its wait loop) and `drop_frames` with
any argument then do exactly what they do on the full array, and on either
array none of them leaves the array or fails to come to an end: every ring
index they compute lies in `[0, nbuffers)`.  A call that returns leaves
`nbuffers` as it was and `first_compositor`, `first_ready` and `first_client`
in `[0, nbuffers)`; the only abort is the failed assertion of a release. -/
theorem index_safety (s : SwitchingBundle) (hw : s.well_formed) :
    s.trimmed.well_formed ∧ (s.trimmed.ring.length : Int) = s.nbuffers ∧
      (∀ c : Call, c.run s.trimmed = (c.run s).trimmed ∧
        (c.run s).index_safe s.nbuffers ∧ (c.run s.trimmed).index_safe s.nbuffers) ∧
      (∀ max : Int,
        (s.trimmed.drop_frames max = (s.drop_frames max).map fun r => (r.1, r.2.trimmed)) ∧
        ∃ d s1, s.drop_frames max = .ok (d, s1) ∧ s1.nbuffers = s.nbuffers ∧
          s1.starts_in_ring) :=
  ⟨trimmed_well_formed hw, trimmed_length hw,
    fun c => ⟨run_trimmed c s hw, run_index_safe c s hw,
      run_index_safe c s.trimmed (trimmed_well_formed hw)⟩,
    fun max => ⟨drop_frames_trimmed s hw max, drop_frames_index_safe s hw max⟩⟩

/-- C30, at the bundle of five buffers with every region in use, whose array
has exactly five slots: a `client_acquire` there reads the last slot and
returns buffer 104, and `drop_frames(7)` returns. -/
theorem index_safety_witness :
    example_five.well_formed ∧ example_five.trimmed = example_five ∧
      Call.run .client_acquire example_five
        = .returns (some 104) { example_five with nclients := 2 } ∧
      (Call.run .client_acquire example_five).index_safe 5 ∧
      ∃ d s1, example_five.drop_frames 7 = .ok (d, s1) ∧
        s1.nbuffers = example_five.nbuffers ∧ s1.starts_in_ring :=
  ⟨by decide, by decide, rfl,
    ((index_safety example_five (by decide)).2.2.1 .client_acquire).2.1,
    ((index_safety example_five (by decide)).2.2.2 7).2⟩

/-! ## When a frame is dropped -/

/-- A `client_acquire` that returns without waiting, in a state within bounds,
reduces `nready` exactly when frame dropping is enabled, `nbuffers > 1`, the
ring is full and a frame is ready, and then by one. -/
theorem client_acquire_drops_iff {s s1 : SwitchingBundle} {h : Handle}
    (hw : s.well_formed) (hret : s.client_acquire = .returns h s1) :
    (s1.nready < s.nready ↔
      s.framedropping = true ∧ 1 < s.nbuffers ∧
        s.nbuffers ≤ s.ncompositors + s.nready + s.nclients ∧ 0 < s.nready) ∧
    (s1.nready = s.nready ∨ s1.nready = s.nready - 1) := by
  rcases client_acquire_returns hw hret with ⟨hfree, -, rfl⟩ | ⟨hf, hn, hfull, hr, -, ring1, -, rfl⟩
  · refine ⟨⟨fun hlt => ?_, fun hc => ?_⟩, Or.inl rfl⟩
    · exact absurd hlt (lt_irrefl _)
    · omega
  · refine ⟨⟨fun _ => ⟨hf, hn, hfull, hr⟩, fun _ => ?_⟩, Or.inr rfl⟩
    show s.nready - 1 < s.nready
    omega

/-- C28, the code at the failing input.  From the constructed example bundle,
with dropping enabled, buffer 100 goes to the compositor and buffer 101 to the
client; the ring is full, no frame is ready, and a further `client_acquire`
goes to sleep at line 109.  Then the compositor gives buffer 100 back and
buffer 101 is released: one frame is ready and one slot is free
(`ncompositors + nready + nclients = 1 < 2`).  A fresh `client_acquire` would
take the free slot and drop nothing, but the sleeping call, woken, drops the
ready frame 101 and returns its buffer: `nready` goes from 1 to 0 on a ring
that is not full, in a call made when `nready` was 0. -/
theorem woken_acquire_drops_on_free_ring :
    execute Call.holds_buffer
        [.allow_framedropping true, .client_acquire, .client_release 100,
         .compositor_acquire, .client_acquire]
        example_initial
      = some ([(.allow_framedropping true, none), (.client_acquire, some 100),
               (.client_release 100, none), (.compositor_acquire, some 100),
               (.client_acquire, some 101)],
              example_starved) ∧
      example_starved.nready = 0 ∧
      example_starved.client_acquire = .waits .client_nready ∧
      execute Call.holds_buffer [.compositor_release 100, .client_release 101] example_starved
        = some ([(.compositor_release 100, none), (.client_release 101, none)],
                example_frame_waiting) ∧
      example_frame_waiting.ncompositors + example_frame_waiting.nready
          + example_frame_waiting.nclients < example_frame_waiting.nbuffers ∧
      example_frame_waiting.ready_frames = [some 101] ∧
      example_frame_waiting.client_acquire
        = .returns 100 { example_frame_waiting with nclients := 1 } ∧
      example_frame_waiting.resume .client_nready = .returns 101 example_frame_lost ∧
      example_frame_lost.nready = example_frame_waiting.nready - 1 ∧
      example_frame_lost.ready_frames = [] := by
  refine ⟨rfl, rfl, rfl, rfl, by decide, rfl, rfl, rfl, rfl, rfl⟩

/-! ## Mutual exclusion -/

/-- C25, the code at the failing input.  `allow_framedropping(b)` assigns `b`
to the policy flag `framedropping`, a variable that `client_acquire` reads, and
its body takes no lock on `guard`: it is the one member function that touches
changing state without the mutex.  The five handoff and drain members take the
lock first, and `properties` only reads what the constructor set. -/
theorem allow_framedropping_takes_no_lock (b : Bool) (s : SwitchingBundle) :
    s.allow_framedropping b = .returns () { s with framedropping := b } ∧
      (Call.allow_framedropping b).accesses = [.framedropping] ∧
      MemberVariable.framedropping.assigned_after_construction = true ∧
      MemberVariable.framedropping ∈ Call.client_acquire.accesses ∧
      (Call.allow_framedropping b).locks_guard = false ∧
      (Call.allow_framedropping b).mutually_exclusive = false ∧
      ∀ c : Call, c.mutually_exclusive = false ↔ ∃ b1, c = .allow_framedropping b1 := by
  refine ⟨rfl, rfl, rfl, by decide, rfl, rfl, ?_⟩
  intro c
  constructor
  · intro hc
    cases c with
    | allow_framedropping b1 => exact ⟨b1, rfl⟩
    | resume w => cases w <;> cases hc
    | _ => cases hc
  · rintro ⟨b1, rfl⟩
    rfl
